import Mathlib

/-!
EVTX parser: shallow embedding and verified claims

The Go sources under `src/evtx` and `src/encoding` are embedded as pure Lean
functions.  Conventions:

* bytes are `Nat`s, fixed-width integers are `Int`s, with wrap-around written
  out where the Go arithmetic can overflow;
* a Go method with a pointer receiver becomes a function that takes the old
  receiver and returns the updated one next to the `error` and the reader;
* `error` is `Option Err`, `none` standing for Go's `nil`;
* a Go `panic` is the `Outcome.panic` result;
* recursion that Go leaves unbounded carries a fuel argument, `none` (or
  `Outcome.outOfFuel`) meaning the fuel ran out.
-/

namespace Evtx

/-! ## globals.go -/

def EventHeaderSize : Int := 24
def ChunkSize : Int := 0x10000
def ChunkHeaderSize : Int := 0x80
/-- The bytes of `"ElfChnk\x00"`. -/
def ChunkMagic : List Nat := [0x45, 0x6c, 0x66, 0x43, 0x68, 0x6e, 0x6b, 0x00]
/-- The bytes of `"ElfFile\x00"` (the literal of `FileHeader.Verify`). -/
def FileMagic : List Nat := [0x45, 0x6c, 0x66, 0x46, 0x69, 0x6c, 0x65, 0x00]
def sizeStringBucket : Nat := 0x40
def sizeTemplateBucket : Nat := 0x20
def DefaultNameOffset : Int := -1
/-- The bytes of `"\x2a\x2a\x00\x00"`. -/
def EventMagic : List Nat := [0x2a, 0x2a, 0x00, 0x00]
def MaxSliceSize : Int := ChunkSize

def TokenEOF : Int := 0x00
def TokenOpenStartElementTag1 : Int := 0x01
def TokenOpenStartElementTag2 : Int := 0x41
def TokenCloseStartElementTag : Int := 0x02
def TokenCloseEmptyElementTag : Int := 0x03
def TokenEndElementTag : Int := 0x04
def TokenValue1 : Int := 0x05
def TokenValue2 : Int := 0x45
def TokenAttribute1 : Int := 0x06
def TokenAttribute2 : Int := 0x46
def TokenCharRef1 : Int := 0x08
def TokenEntityRef1 : Int := 0x09
def TokenEntityRef2 : Int := 0x49
def TokenTemplateInstance : Int := 0x0c
def TokenNormalSubstitution : Int := 0x0d
def TokenOptionalSubstitution : Int := 0x0e
def FragmentHeaderToken : Int := 0x0f

def NullType : Int := 0x00
def StringType : Int := 0x01
def AnsiStringType : Int := 0x02
def Int8Type : Int := 0x03
def UInt8Type : Int := 0x04
def Int16Type : Int := 0x05
def UInt16Type : Int := 0x06
def Int32Type : Int := 0x07
def UInt32Type : Int := 0x08
def Int64Type : Int := 0x09
def UInt64Type : Int := 0x0a
def Real64Type : Int := 0x0c
def BoolType : Int := 0x0d
def BinaryType : Int := 0x0e
def GuidType : Int := 0x0f
def FileTimeType : Int := 0x11
def SysTimeType : Int := 0x12
def SidType : Int := 0x13
def HexInt32Type : Int := 0x14
def HexInt64Type : Int := 0x15
def BinXmlType : Int := 0x21
def ArrayType : Int := 0x80

/-- The leading bytes `Parse` has a case for, in the order of its `switch`. -/
def mappedTokens : List Nat :=
  [0x0f, 0x01, 0x41, 0x0d, 0x0e, 0x08, 0x0c, 0x05, 0x45, 0x09, 0x49, 0x04, 0x02, 0x03, 0x00]

/-- `XmlnsPath = Path("/Event/xmlns")`. -/
def XmlnsPath : List String := ["Event", "xmlns"]

/-! ## Errors and outcomes -/

/-- The error values the embedded code produces. -/
inductive Err where
  | EOF
  | ErrUnexpectedEOF
  | ErrInvalidEvent
  | ErrCorruptedHeader
  | ErrDirtyFile
  | ErrRepairFailed
  | ErrUnknownToken (Token : Nat)
  | errorf (msg : String)
  deriving DecidableEq, Repr

/-- Go's `error`: `none` is `nil`. -/
abbrev error := Option Err

/-- Result of a Go call that can panic, or whose embedding can run out of fuel. -/
inductive Outcome (α : Type) where
  | ok (a : α)
  | panic
  | outOfFuel
  deriving DecidableEq, Repr

/-- The value of an outcome that is neither a panic nor a lack of fuel. -/
def Outcome.result {α : Type} : Outcome α → Option α
  | .ok a => some a
  | .panic => none
  | .outOfFuel => none

/-- Whether an outcome is a panic. -/
def Outcome.panicked {α : Type} : Outcome α → Bool
  | .panic => true
  | .ok _ => false
  | .outOfFuel => false

/-! ## Fixed-width integers -/

/-- Little-endian value of a byte list. -/
def leNat : List Nat → Nat
  | [] => 0
  | b :: bs => b + 256 * leNat bs

/-- Two's-complement reading of an unsigned `w`-byte value. -/
def toSigned (w : Nat) (n : Nat) : Int :=
  if n < 2 ^ (8 * w - 1) then (n : Int) else (n : Int) - 2 ^ (8 * w)

/-- Conversion to `int32` (wrap-around). -/
def int32 (x : Int) : Int := (x + 2 ^ 31) % 2 ^ 32 - 2 ^ 31

/-- Conversion to `uint16` (wrap-around). -/
def uint16 (x : Int) : Int := x % 2 ^ 16

/-! ## bytes.Reader and utils.go seek helpers -/

/-- A `bytes.Reader`: the slice `s` and the read index `i`. -/
structure Reader where
  s : List Nat
  i : Nat
  deriving DecidableEq, Repr

/-- `BackupSeeker`: `Seek(0, io.SeekCurrent)`, which never fails on a `bytes.Reader`. -/
def BackupSeeker (r : Reader) : Int := (r.i : Int)

/-- `GoToSeeker`: `Seek(offset, io.SeekStart)` with the error dropped; a
negative target leaves the reader where it is. -/
def GoToSeeker (r : Reader) (offset : Int) : Reader :=
  if offset < 0 then r else { r with i := offset.toNat }

/-- `RelGoToSeeker`: `Seek(offset, io.SeekCurrent)` with the error dropped. -/
def RelGoToSeeker (r : Reader) (offset : Int) : Reader :=
  if (r.i : Int) + offset < 0 then r else { r with i := ((r.i : Int) + offset).toNat }

/-- `io.ReadFull` of `n ≥ 1` bytes on a `bytes.Reader`: the bytes, or `EOF`
when nothing is left and `ErrUnexpectedEOF` when too little is; what could be
read has been consumed either way. -/
def ReadFull (r : Reader) (n : Nat) : Except Err (List Nat) × Reader :=
  let bs := (r.s.drop r.i).take n
  if bs.length = n then (.ok bs, { r with i := r.i + n })
  else if bs.length = 0 then (.error .EOF, r)
  else (.error .ErrUnexpectedEOF, { r with i := r.i + bs.length })

/-! ## encoding.go: `Unmarshal` at the types the parser uses -/

/-- `Unmarshal` into an unsigned `w`-byte integer; `old` is kept on error. -/
def UnmarshalU (w : Nat) (old : Int) (r : Reader) : Int × error × Reader :=
  match ReadFull r w with
  | (.ok bs, r1) => ((leNat bs : Int), none, r1)
  | (.error e, r1) => (old, some e, r1)

/-- `Unmarshal` into a signed `w`-byte integer; `old` is kept on error. -/
def UnmarshalS (w : Nat) (old : Int) (r : Reader) : Int × error × Reader :=
  match ReadFull r w with
  | (.ok bs, r1) => (toSigned w (leNat bs), none, r1)
  | (.error e, r1) => (old, some e, r1)

/-- `unmarshalArray` into a `[n]byte`: one `Unmarshal` per element, stopping
at the first error with the elements read so far in place. -/
def unmarshalArray : (old : List Nat) → Reader → List Nat × error × Reader
  | [], r => ([], none, r)
  | b :: rest, r =>
    match UnmarshalU 1 (b : Int) r with
    | (_, some e, r1) => (b :: rest, some e, r1)
    | (v, none, r1) =>
      match unmarshalArray rest r1 with
      | (vs, e, r2) => (v.toNat :: vs, e, r2)

/-! ## evtx.go: file header -/

structure FileHeader where
  Magic : List Nat
  FirstChunkNum : Int
  LastChunkNum : Int
  NextRecordID : Int
  HeaderSpace : Int
  MinVersion : Int
  MajVersion : Int
  ChunkDataOffset : Int
  ChunkCount : Int
  Unknown : List Nat
  Flags : Int
  CheckSum : Int
  deriving DecidableEq, Repr

/-- `FileHeader.Verify`. -/
def FileHeader.Verify (f : FileHeader) : error :=
  if f.Magic ≠ FileMagic then some .ErrCorruptedHeader
  else if f.Flags = 1 then some .ErrDirtyFile
  else none

/-- The width in bytes of the first rune of `bs` as `bufio.Reader.ReadRune`
decodes it (`utf8.DecodeRune`): a byte below 0x80 is one rune, a well-formed
UTF-8 sequence of two, three or four bytes is one rune, and any other byte is
the one-byte rune `RuneError`. -/
def runeWidth : List Nat → Nat
  | [] => 0
  | b0 :: rest =>
    if b0 < 0xC2 then 1
    else if b0 < 0xE0 then
      match rest with
      | b1 :: _ => if 0x80 ≤ b1 ∧ b1 ≤ 0xBF then 2 else 1
      | _ => 1
    else if b0 < 0xF0 then
      match rest with
      | b1 :: b2 :: _ =>
        if (if b0 = 0xE0 then 0xA0 else 0x80) ≤ b1 ∧ b1 ≤ (if b0 = 0xED then 0x9F else 0xBF)
            ∧ 0x80 ≤ b2 ∧ b2 ≤ 0xBF then 3
        else 1
      | _ => 1
    else if b0 < 0xF5 then
      match rest with
      | b1 :: b2 :: b3 :: _ =>
        if (if b0 = 0xF0 then 0x90 else 0x80) ≤ b1 ∧ b1 ≤ (if b0 = 0xF4 then 0x8F else 0xBF)
            ∧ 0x80 ≤ b2 ∧ b2 ≤ 0xBF ∧ 0x80 ≤ b3 ∧ b3 ≤ 0xBF then 4
        else 1
      | _ => 1
    else 1

/-- The number of bytes of the first `n` runes of `bs` (of all of them when
`bs` holds fewer). -/
def runesAhead : Nat → List Nat → Nat
  | 0, _ => 0
  | n + 1, bs =>
    if runeWidth bs = 0 then 0
    else runeWidth bs + runesAhead n (bs.drop (runeWidth bs))

/-- What the matcher of the Go `regexp` package has read past the end of a
match when `FindReaderIndex` returns on a rune reader, `post` being the bytes
that follow the match: it works with one rune of look-ahead and notices the
match one step after its last rune, so it has consumed three runes of `post`,
or all of `post` when it holds fewer. -/
def regexpAhead (post : List Nat) : Nat := runesAhead 3 post

/-- One `chunkHeaderRE.FindReaderIndex(rr)` call on the unread bytes `rr` of
the buffered reader: the location of the leftmost occurrence of `ChunkMagic`
(relative to where the call started, `idx` bytes before `rr`), and what is
left unread.  The regexp package reads past the end of a match before it
returns; `ahead` gives that number of bytes as a function of what follows the
match, and `regexpAhead` is what the package does.  Without a match the reader
is drained. -/
def FindReaderIndex (ahead : List Nat → Nat) : List Nat → Nat → Option (Nat × Nat) × List Nat
  | [], _ => (none, [])
  | b :: rest, idx =>
    if ChunkMagic.isPrefixOf (b :: rest) then
      (some (idx, idx + 8), (rest.drop 7).drop (ahead (rest.drop 7)))
    else FindReaderIndex ahead rest (idx + 1)

/-- The non-nil locations returned by the successive `FindReaderIndex` calls
of the loop of `FileHeader.Repair`, in order. -/
def Repair.locs (ahead : List Nat → Nat) : Nat → List Nat → List (Nat × Nat)
  | 0, _ => []
  | fuel + 1, rr =>
    match FindReaderIndex ahead rr 0 with
    | (none, _) => []
    | (some loc, rr1) => loc :: Repair.locs ahead fuel rr1

/-- The loop of `FileHeader.Repair`: `cc++` on a `uint16` once per location found. -/
def Repair.scan (ahead : List Nat → Nat) : Nat → List Nat → Int → Int
  | 0, _, cc => cc
  | fuel + 1, rr, cc =>
    match FindReaderIndex ahead rr 0 with
    | (none, _) => cc
    | (some _, rr1) => Repair.scan ahead fuel rr1 (uint16 (cc + 1))

/-- `FileHeader.Repair` on a reader positioned at `r.i`.  A match consumes at
least the eight bytes of the marker, so `length + 1` rounds of the loop are
enough for every stream. -/
def FileHeader.Repair (ahead : List Nat → Nat) (f : FileHeader) (r : Reader) :
    FileHeader × error :=
  let rr := r.s.drop r.i
  let cc := Repair.scan ahead (rr.length + 1) rr 0
  if f.ChunkCount > cc then (f, some .ErrRepairFailed)
  else
    let f1 := { f with ChunkCount := cc }
    let f2 := { f1 with LastChunkNum := uint16 (f1.ChunkCount - 1) }
    ({ f2 with Flags := 0 }, none)

/-- The number of markers the scan of `FileHeader.Repair` finds on `r`. -/
def Repair.found (ahead : List Nat → Nat) (r : Reader) : Nat :=
  (Repair.locs ahead ((r.s.drop r.i).length + 1) (r.s.drop r.i)).length

/-- Position `p` of the file is chunk-aligned: `chunkDataOffset + k·0x10000`. -/
def chunkAligned (f : FileHeader) (p : Nat) : Prop :=
  ∃ k : Nat, (p : Int) = f.ChunkDataOffset + k * ChunkSize

/-- The bytes `pat` written over `s` from position `p` on. -/
def writeAt (s : List Nat) (p : Nat) (pat : List Nat) : List Nat :=
  s.take p ++ pat ++ s.drop (p + pat.length)

/-! ## event.go: event header -/

structure EventHeader where
  Magic : List Nat
  Size : Int
  ID : Int
  Timestamp : Int
  deriving DecidableEq, Repr

/-- The zero value `EventHeader{}`. -/
def EventHeader.zero : EventHeader := ⟨[0, 0, 0, 0], 0, 0, 0⟩

/-- `EventHeader.Validate`. -/
def EventHeader.Validate (h : EventHeader) : error :=
  if h.Magic ≠ EventMagic then some (.errorf "bad event magic")
  else if h.Size ≥ ChunkSize then some (.errorf "too big event")
  else if h.Size < EventHeaderSize then some (.errorf "too small event")
  else none

/-- `encoding.Unmarshal(reader, &eh, Endianness)`: field by field, stopping
at the first error. -/
def EventHeader.Unmarshal (eh : EventHeader) (r : Reader) : EventHeader × error × Reader :=
  match unmarshalArray eh.Magic r with
  | (m, some e, r1) => ({ eh with Magic := m }, some e, r1)
  | (m, none, r1) =>
    match UnmarshalS 4 eh.Size r1 with
    | (sz, some e, r2) => ({ eh with Magic := m, Size := sz }, some e, r2)
    | (sz, none, r2) =>
      match UnmarshalS 8 eh.ID r2 with
      | (id, some e, r3) => ({ eh with Magic := m, Size := sz, ID := id }, some e, r3)
      | (id, none, r3) =>
        match UnmarshalS 8 eh.Timestamp r3 with
        | (ts, e, r4) => (⟨m, sz, id, ts⟩, e, r4)

structure Event where
  Offset : Int
  Header : EventHeader
  deriving DecidableEq, Repr

/-- `Event.IsValid`. -/
def Event.IsValid (e : Event) : Bool := e.Header.Validate = none

/-! ## chunk.go: chunk header -/

structure ChunkHeader where
  Magic : List Nat
  NumFirstRecLog : Int
  NumLastRecLog : Int
  FirstEventRecID : Int
  LastEventRecID : Int
  SizeHeader : Int
  OffsetLastRec : Int
  Freespace : Int
  CheckSum : Int
  deriving DecidableEq, Repr

/-- The zero value `ChunkHeader{}`. -/
def ChunkHeader.zero : ChunkHeader := ⟨[0, 0, 0, 0, 0, 0, 0, 0], 0, 0, 0, 0, 0, 0, 0, 0⟩

/-- `encoding.Unmarshal(reader, &c.Header, Endianness)`; only the error and
the fully read header are used by the caller (`ParseChunkHeader` panics on
an error). -/
def ChunkHeader.Unmarshal (h : ChunkHeader) (r : Reader) : ChunkHeader × error × Reader :=
  match unmarshalArray h.Magic r with
  | (m, some e, r1) => ({ h with Magic := m }, some e, r1)
  | (m, none, r1) =>
  match UnmarshalS 8 h.NumFirstRecLog r1 with
  | (a, some e, r2) => ({ h with Magic := m, NumFirstRecLog := a }, some e, r2)
  | (a, none, r2) =>
  match UnmarshalS 8 h.NumLastRecLog r2 with
  | (b, some e, r3) => ({ h with Magic := m, NumFirstRecLog := a, NumLastRecLog := b }, some e, r3)
  | (b, none, r3) =>
  match UnmarshalS 8 h.FirstEventRecID r3 with
  | (c, some e, r4) => (⟨m, a, b, c, h.LastEventRecID, h.SizeHeader, h.OffsetLastRec,
      h.Freespace, h.CheckSum⟩, some e, r4)
  | (c, none, r4) =>
  match UnmarshalS 8 h.LastEventRecID r4 with
  | (d, some e, r5) => (⟨m, a, b, c, d, h.SizeHeader, h.OffsetLastRec, h.Freespace,
      h.CheckSum⟩, some e, r5)
  | (d, none, r5) =>
  match UnmarshalS 4 h.SizeHeader r5 with
  | (sh, some e, r6) => (⟨m, a, b, c, d, sh, h.OffsetLastRec, h.Freespace, h.CheckSum⟩,
      some e, r6)
  | (sh, none, r6) =>
  match UnmarshalS 4 h.OffsetLastRec r6 with
  | (ol, some e, r7) => (⟨m, a, b, c, d, sh, ol, h.Freespace, h.CheckSum⟩, some e, r7)
  | (ol, none, r7) =>
  match UnmarshalS 4 h.Freespace r7 with
  | (fs, some e, r8) => (⟨m, a, b, c, d, sh, ol, fs, h.CheckSum⟩, some e, r8)
  | (fs, none, r8) =>
  match UnmarshalU 4 h.CheckSum r8 with
  | (cs, e, r9) => (⟨m, a, b, c, d, sh, ol, fs, cs⟩, e, r9)

/-! ## goevtx.go: the rendered values -/

/-- `GoEvtxElement` (`interface{}`): the values the expansion produces.
`nil` is the nil interface, `str` a Go `string`, `map` a `GoEvtxMap`; the
other constructors stand for the native values a `Repr()` can return. -/
inductive GoEvtxElement where
  | nil
  | str (s : String)
  | map (m : List (String × GoEvtxElement))
  | int (n : Int)
  | bool (b : Bool)
  | list (l : List GoEvtxElement)
  | other (shown : String)
  deriving Repr

/-- `GoEvtxMap`, a Go map kept as an association list without repeated keys. -/
abbrev GoEvtxMap := List (String × GoEvtxElement)

/-! ## structs.go: the data model -/

structure FragmentHeader where
  Token : Int
  MajVersion : Int
  MinVersion : Int
  Flags : Int
  deriving DecidableEq, Repr

def FragmentHeader.zero : FragmentHeader := ⟨0, 0, 0, 0⟩

structure Name where
  OffsetPrevString : Int
  Hash : Int
  Size : Int
  UTF16String : List Int
  deriving DecidableEq, Repr

def Name.zero : Name := ⟨0, 0, 0, []⟩

structure Attribute (E : Type) where
  Token : Int
  NameOffset : Int
  Name : Name
  AttributeData : E
  deriving Repr

structure AttributeList (E : Type) where
  Size : Int
  Attributes : List (Attribute E)
  deriving Repr

structure ElementStart (E : Type) where
  Offset : Int
  IsTemplateInstance : Bool
  Token : Int
  DepID : Int
  Size : Int
  NameOffset : Int
  Name : Name
  AttributeList : AttributeList E
  EOESToken : Int
  deriving Repr

structure NormalSubstitution where
  Token : Int
  SubID : Int
  ValType : Int
  deriving DecidableEq, Repr

structure CharEntityRef where
  Token : Int
  Value : Int
  deriving DecidableEq, Repr

structure UnicodeTextString where
  Size : Int
  String : List Int
  deriving DecidableEq, Repr

structure ValueText where
  Token : Int
  ValType : Int
  Value : UnicodeTextString
  deriving DecidableEq, Repr

structure TemplateDefinitionHeader where
  Unknown1 : Int
  Unknown2 : Int
  DataOffset : Int
  deriving DecidableEq, Repr

structure TemplateDefinitionData (E : Type) where
  Unknown3 : Int
  ID : List Nat
  Size : Int
  FragHeader : FragmentHeader
  Elements : List E
  EOFToken : Int
  deriving Repr

structure TemplateDefinition (E : Type) where
  Header : TemplateDefinitionHeader
  Data : TemplateDefinitionData E
  deriving Repr

structure ValueDescriptor where
  Size : Int
  ValType : Int
  Unknown : Int
  deriving DecidableEq, Repr

structure TemplateInstanceData (E : Type) where
  NumValues : Int
  ValDescs : List ValueDescriptor
  Values : List E
  ValueOffsets : List Int
  deriving Repr

structure TemplateInstance (E : Type) where
  Token : Int
  Definition : TemplateDefinition E
  Data : TemplateInstanceData E
  deriving Repr

structure BinXMLEntityReference where
  Token : Int
  NameOffset : Int
  Name : Name
  deriving DecidableEq, Repr

structure Fragment (E : Type) where
  Offset : Int
  Header : FragmentHeader
  BinXMLElement : E
  deriving Repr

/-- Modelled from the spec: a decoded `Value`.  The value kinds are declared
in a source file that is not available; what the expansion uses of them is
whether a value is a `ValueNull` and what its `Repr()` returns, so a value is
`ValueNull`, the `UnkVal` built for an unhandled type tag, or any other kind,
the last two kept with the result of their `Repr()`. -/
inductive Value where
  | ValueNull (Size : Int)
  | UnkVal (Offset : Int) (ValType : Int) (Desc : ValueDescriptor) (Repr : GoEvtxElement)
  | Known (Repr : GoEvtxElement)
  deriving Repr

/-- `Element`: the values of the Go interface met by the parser, `Nil` being
the nil interface. -/
inductive Element where
  | Nil
  | EmptyElement
  | Fragment (f : Fragment Element)
  | ElementStart (es : ElementStart Element)
  | NormalSubstitution (n : NormalSubstitution)
  | OptionalSubstitution (n : NormalSubstitution)
  | CharEntityRef (c : CharEntityRef)
  | TemplateInstance (ti : TemplateInstance Element)
  | ValueText (vt : ValueText)
  | BinXMLEntityReference (e : BinXMLEntityReference)
  | BinXMLEndElementTag (Token : Int)
  | BinXMLCloseStartElementTag (Token : Int)
  | BinXMLCloseEmptyElementTag (Token : Int)
  | BinXMLEOF (Token : Int)
  | Value (v : Value)

def TemplateDefinitionHeader.zero : TemplateDefinitionHeader := ⟨0, 0, 0⟩

def TemplateDefinitionData.zero : TemplateDefinitionData Element :=
  ⟨0, List.replicate 16 0, 0, FragmentHeader.zero, [], 0⟩

def TemplateInstanceData.zero : TemplateInstanceData Element := ⟨0, [], [], []⟩

def TemplateInstance.zero : TemplateInstance Element :=
  ⟨0, ⟨TemplateDefinitionHeader.zero, TemplateDefinitionData.zero⟩, TemplateInstanceData.zero⟩

def AttributeList.zero : AttributeList Element := ⟨0, []⟩

def ElementStart.zero : ElementStart Element :=
  ⟨0, false, 0, 0, 0, 0, Name.zero, AttributeList.zero, 0⟩

/-- `ChunkStringTable`. -/
abbrev ChunkStringTable := List (Int × Name)

/-- `TemplateTable`. -/
abbrev TemplateTable := List (Int × TemplateDefinitionData Element)

structure Chunk where
  Offset : Int
  Header : ChunkHeader
  StringTable : ChunkStringTable
  TemplateTable : TemplateTable
  EventOffsets : List Int
  Data : List Nat

/-- `NewChunk`. -/
def NewChunk : Chunk := ⟨0, ChunkHeader.zero, [], [], [], []⟩

/-- Go map read `m[k]` with its `ok` flag. -/
def mapGet {α β : Type} [DecidableEq α] (m : List (α × β)) (k : α) : Option β :=
  match m with
  | [] => none
  | (k1, v) :: rest => if k1 = k then some v else mapGet rest k

/-- Go map write `m[k] = v`. -/
def mapSet {α β : Type} [DecidableEq α] (m : List (α × β)) (k : α) (v : β) : List (α × β) :=
  match m with
  | [] => [(k, v)]
  | (k1, v1) :: rest => if k1 = k then (k, v) :: rest else (k1, v1) :: mapSet rest k v

/-- Go `delete(m, k)`. -/
def mapDel {α β : Type} [DecidableEq α] (m : List (α × β)) (k : α) : List (α × β) :=
  match m with
  | [] => []
  | (k1, v1) :: rest => if k1 = k then rest else (k1, v1) :: mapDel rest k

/-! ## encoding.go: slices -/

/-- The loop of `UnmarshaInitSlice`: one `Unmarshal` per element, stopping at
the first error. -/
def unmarshalElems {α : Type} (um : α → Reader → α × error × Reader) :
    List α → Reader → List α × error × Reader
  | [], r => ([], none, r)
  | x :: rest, r =>
    match um x r with
    | (y, some e, r1) => (y :: rest, some e, r1)
    | (y, none, r1) =>
      match unmarshalElems um rest r1 with
      | (ys, e, r2) => (y :: ys, e, r2)

/-- `UnmarshaInitSlice`: an empty slice is refused. -/
def UnmarshaInitSlice {α : Type} (um : α → Reader → α × error × Reader)
    (slice : List α) (r : Reader) : List α × error × Reader :=
  if slice.length = 0 then (slice, some (.errorf "not initialized slice"), r)
  else unmarshalElems um slice r

/-! ## utils.go: UTF-16 strings -/

/-- `utf16.Decode`. -/
def utf16Decode : List Int → List Char
  | [] => []
  | u :: rest =>
    if u < 0xd800 ∨ 0xe000 ≤ u then Char.ofNat u.toNat :: utf16Decode rest
    else
      match rest with
      | v :: rest1 =>
        if u < 0xdc00 ∧ 0xdc00 ≤ v ∧ v < 0xe000 then
          Char.ofNat (0x10000 + (u.toNat - 0xd800) * 0x400 + (v.toNat - 0xdc00))
            :: utf16Decode rest1
        else Char.ofNat 0xfffd :: utf16Decode (v :: rest1)
      | [] => [Char.ofNat 0xfffd]

/-- `strings.TrimRight(s, "\u0000")` on the characters of `s`. -/
def trimRightNul (cs : List Char) : List Char :=
  (cs.reverse.dropWhile (fun c => c = Char.ofNat 0)).reverse

/-- `UTF16String.ToString`. -/
def UTF16String.ToString (us : List Int) : String :=
  String.mk (trimRightNul (utf16Decode us))

/-- `Name.String`. -/
def Name.String (n : Name) : String := UTF16String.ToString n.UTF16String

/-- `ValueText.String`. -/
def ValueText.String (vt : ValueText) : String := UTF16String.ToString vt.Value.String

/-! ## structs.go: the parsers that do not recurse -/

/-- `Name.Parse`; the slice length `n.Size+1` is computed on `uint16`. -/
def Name.Parse (n : Name) (r : Reader) : Name × error × Reader :=
  match UnmarshalS 4 n.OffsetPrevString r with
  | (a, some e, r1) => ({ n with OffsetPrevString := a }, some e, r1)
  | (a, none, r1) =>
  match UnmarshalU 2 n.Hash r1 with
  | (h, some e, r2) => ({ n with OffsetPrevString := a, Hash := h }, some e, r2)
  | (h, none, r2) =>
  match UnmarshalU 2 n.Size r2 with
  | (sz, some e, r3) => ({ n with OffsetPrevString := a, Hash := h, Size := sz }, some e, r3)
  | (sz, none, r3) =>
  match UnmarshaInitSlice (UnmarshalU 2) (List.replicate (uint16 (sz + 1)).toNat 0) r3 with
  | (us, e, r4) => (⟨a, h, sz, us⟩, e, r4)

/-- `encoding.Unmarshal(reader, fh, Endianness)` on a `FragmentHeader`. -/
def FragmentHeader.Unmarshal (fh : FragmentHeader) (r : Reader) :
    FragmentHeader × error × Reader :=
  match UnmarshalS 1 fh.Token r with
  | (t, some e, r1) => ({ fh with Token := t }, some e, r1)
  | (t, none, r1) =>
  match UnmarshalS 1 fh.MajVersion r1 with
  | (a, some e, r2) => ({ fh with Token := t, MajVersion := a }, some e, r2)
  | (a, none, r2) =>
  match UnmarshalS 1 fh.MinVersion r2 with
  | (b, some e, r3) => ({ fh with Token := t, MajVersion := a, MinVersion := b }, some e, r3)
  | (b, none, r3) =>
  match UnmarshalS 1 fh.Flags r3 with
  | (c, e, r4) => (⟨t, a, b, c⟩, e, r4)

/-- `FragmentHeader.Parse`. -/
def FragmentHeader.Parse (fh : FragmentHeader) (r : Reader) :
    FragmentHeader × error × Reader :=
  match FragmentHeader.Unmarshal fh r with
  | (fh1, err, r1) =>
    if fh1.Token ≠ FragmentHeaderToken then
      (fh1, some (.errorf "bad fragment header token"), r1)
    else (fh1, err, r1)

/-- `NormalSubstitution.Parse`. -/
def NormalSubstitution.Parse (n : NormalSubstitution) (r : Reader) :
    NormalSubstitution × error × Reader :=
  match UnmarshalS 1 n.Token r with
  | (t, some e, r1) => ({ n with Token := t }, some e, r1)
  | (t, none, r1) =>
  match UnmarshalS 2 n.SubID r1 with
  | (s, some e, r2) => ({ n with Token := t, SubID := s }, some e, r2)
  | (s, none, r2) =>
  match UnmarshalS 1 n.ValType r2 with
  | (v, e, r3) => (⟨t, s, v⟩, e, r3)

/-- `CharEntityRef.Parse`. -/
def CharEntityRef.Parse (c : CharEntityRef) (r : Reader) : CharEntityRef × error × Reader :=
  match UnmarshalS 1 c.Token r with
  | (t, some e, r1) => ({ c with Token := t }, some e, r1)
  | (t, none, r1) =>
  match UnmarshalS 2 c.Value r1 with
  | (v, e, r2) => (⟨t, v⟩, e, r2)

/-- `UnicodeTextString.Parse`. -/
def UnicodeTextString.Parse (uts : UnicodeTextString) (r : Reader) :
    UnicodeTextString × error × Reader :=
  match UnmarshalS 2 uts.Size r with
  | (sz, some e, r1) => ({ uts with Size := sz }, some e, r1)
  | (sz, none, r1) =>
    if sz > 0 then
      match UnmarshaInitSlice (UnmarshalU 2) (List.replicate sz.toNat 0) r1 with
      | (us, e, r2) => (⟨sz, us⟩, e, r2)
    else ({ uts with Size := sz }, none, r1)

/-- `ValueText.Parse`. -/
def ValueText.Parse (vt : ValueText) (r : Reader) : ValueText × error × Reader :=
  match UnmarshalS 1 vt.Token r with
  | (t, some e, r1) => ({ vt with Token := t }, some e, r1)
  | (t, none, r1) =>
  match UnmarshalS 1 vt.ValType r1 with
  | (v, some e, r2) => ({ vt with Token := t, ValType := v }, some e, r2)
  | (v, none, r2) =>
    if v ≠ StringType then
      ({ vt with Token := t, ValType := v }, some (.errorf "bad type, must be StringType"), r2)
    else
      match UnicodeTextString.Parse vt.Value r2 with
      | (u, e, r3) => (⟨t, v, u⟩, e, r3)

/-- `TemplateDefinitionHeader.Parse`. -/
def TemplateDefinitionHeader.Parse (tdh : TemplateDefinitionHeader) (r : Reader) :
    TemplateDefinitionHeader × error × Reader :=
  match UnmarshalS 1 tdh.Unknown1 r with
  | (a, some e, r1) => ({ tdh with Unknown1 := a }, some e, r1)
  | (a, none, r1) =>
  match UnmarshalS 4 tdh.Unknown2 r1 with
  | (b, some e, r2) => ({ tdh with Unknown1 := a, Unknown2 := b }, some e, r2)
  | (b, none, r2) =>
  match UnmarshalS 4 tdh.DataOffset r2 with
  | (c, e, r3) => (⟨a, b, c⟩, e, r3)

/-- `BinXMLEntityReference.Parse`. -/
def BinXMLEntityReference.Parse (x : BinXMLEntityReference) (r : Reader) :
    BinXMLEntityReference × error × Reader :=
  match UnmarshalS 1 x.Token r with
  | (t, some e, r1) => ({ x with Token := t }, some e, r1)
  | (t, none, r1) =>
  match UnmarshalU 4 x.NameOffset r1 with
  | (o, some e, r2) => ({ x with Token := t, NameOffset := o }, some e, r2)
  | (o, none, r2) =>
    if o = BackupSeeker r2 then
      match Name.Parse x.Name r2 with
      | (n, e, r3) => (⟨t, o, n⟩, e, r3)
    else
      match Name.Parse x.Name (GoToSeeker r2 o) with
      | (n, e, r3) => (⟨t, o, n⟩, e, GoToSeeker r3 (BackupSeeker r2))

/-- `Token.Parse`, shared by the end, close-start, close-empty and EOF tokens. -/
def Token.Parse (t : Int) (r : Reader) : Int × error × Reader := UnmarshalS 1 t r

/-- `encoding.Unmarshal` on a `ValueDescriptor`. -/
def ValueDescriptor.Unmarshal (vd : ValueDescriptor) (r : Reader) :
    ValueDescriptor × error × Reader :=
  match UnmarshalU 2 vd.Size r with
  | (s, some e, r1) => ({ vd with Size := s }, some e, r1)
  | (s, none, r1) =>
  match UnmarshalU 1 vd.ValType r1 with
  | (t, some e, r2) => ({ vd with Size := s, ValType := t }, some e, r2)
  | (t, none, r2) =>
  match UnmarshalS 1 vd.Unknown r2 with
  | (u, e, r3) => (⟨s, t, u⟩, e, r3)

/-- `StringAt`. -/
def StringAt (r : Reader) (offset : Int) : Name × error × Reader :=
  match Name.Parse Name.zero (GoToSeeker r offset) with
  | (cs, e, r1) => (cs, e, GoToSeeker r1 (BackupSeeker r))

/-- `Fragment.Parse`. -/
def Fragment.Parse (f : Fragment Element) (r : Reader) : Fragment Element × error × Reader :=
  match FragmentHeader.Parse f.Header r with
  | (h, e, r1) => ({ f with Offset := BackupSeeker r, Header := h }, e, r1)

/-- `TemplateInstance.DataOffset`. -/
def TemplateInstance.DataOffset (r : Reader) : Int × error × Reader :=
  match UnmarshalS 4 0 (GoToSeeker r (BackupSeeker r + 6)) with
  | (offset, e, r1) => (offset, e, GoToSeeker r1 (BackupSeeker r))

/-- `TemplateInstance.ParseTemplateDefinitionHeader`. -/
def TemplateInstance.ParseTemplateDefinitionHeader (ti : TemplateInstance Element)
    (r : Reader) : TemplateInstance Element × error × Reader :=
  match UnmarshalS 1 ti.Token r with
  | (t, some e, r1) => ({ ti with Token := t }, some e, r1)
  | (t, none, r1) =>
    match TemplateDefinitionHeader.Parse ti.Definition.Header r1 with
    | (h, e, r2) => ({ ti with Token := t, Definition := { ti.Definition with Header := h } }, e, r2)

/-! ## The value kinds -/

/-- Modelled from the spec: `ValueType.IsType`, declared next to the value
kinds in a source file that is not available: the tag is exactly `t`. -/
def IsType (v t : Int) : Bool := v = t

/-- Modelled from the spec: `ValueType.IsArrayOf`: the high bit (0x80) marks
an array and the low seven bits give the element type. -/
def IsArrayOf (v t : Int) : Bool := (v / 0x80) % 2 = 1 ∧ v % 0x80 = t

/-- Modelled from the spec: what the parser needs of the value kinds, whose
declarations are not available.  `parseNull` is where `ValueNull.Parse`
leaves the read index, `parse` the element, the error and the read index that
the `Parse` method of the handled scalar and array kinds leaves, `unkRepr`
what `UnkVal.Repr()` returns. -/
structure ValueKinds where
  parseNull : Int → Reader → Nat
  parse : ValueDescriptor → Reader → Element × error × Nat
  unkRepr : Int → Int → ValueDescriptor → GoEvtxElement

/-- The scalar kinds `ParseValueReader` hands to their own `Parse`, in the
order of its `switch`, `NullType` and `BinXmlType` apart. -/
def scalarKinds : List Int :=
  [StringType, AnsiStringType, Int8Type, UInt8Type, Int16Type, UInt16Type, Int32Type,
   UInt32Type, Int64Type, UInt64Type, Real64Type, BoolType, BinaryType, GuidType,
   FileTimeType, SysTimeType, SidType, HexInt32Type, HexInt64Type]

/-- The array kinds `ParseValueReader` handles. -/
def arrayKinds : List Int := [StringType, UInt16Type, UInt64Type]

/-- The `TokenTemplateInstance` case of `Parse`; `templateInstance` and
`instanceData` are `TemplateInstance.Parse` and `TemplateInstanceData.Parse`
with the fuel of the call. -/
def Parse.templateInstanceCase
    (templateInstance : TemplateInstance Element → Reader →
      Option (TemplateInstance Element × error × Reader))
    (instanceData : TemplateInstanceData Element → Reader →
      Option (TemplateInstanceData Element × error × Reader))
    (reader : Reader) (c : Option Chunk) : Option (Element × error × Reader × Option Chunk) :=
  match c with
  | some ch =>
    match TemplateInstance.DataOffset reader with
    | (_, some e, r1) => some (.Nil, some e, r1, c)
    | (offset, none, r1) =>
      match mapGet ch.TemplateTable offset with
      | some t =>
        match TemplateInstance.ParseTemplateDefinitionHeader TemplateInstance.zero r1 with
        | (_, some e, r2) => some (.Nil, some e, r2, c)
        | (ti, none, r2) =>
          let r3 := if offset = BackupSeeker r2 then RelGoToSeeker r2 (t.Size + 24) else r2
          match instanceData ti.Data r3 with
          | none => none
          | some (_, some e, r4) => some (.Nil, some e, r4, c)
          | some (d, none, r4) =>
            some (.TemplateInstance
              { ti with Definition := { ti.Definition with Data := t }, Data := d },
              none, r4, c)
      | none =>
        match templateInstance TemplateInstance.zero r1 with
        | none => none
        | some (ti, err, r2) =>
          let tt := mapSet ch.TemplateTable ti.Definition.Header.DataOffset ti.Definition.Data
          some (.TemplateInstance ti, err, r2, some { ch with TemplateTable := tt })
  | none =>
    match templateInstance TemplateInstance.zero reader with
    | none => none
    | some (ti, err, r1) => some (.TemplateInstance ti, err, r1, none)

/-! ## parser.go and the recursive parsers of structs.go

Every function of the block takes the fuel first; a call or a loop round
spends one unit, and `none` means the fuel ran out.  `Parse` returns the
chunk next to the reader because it writes to `c.TemplateTable`. -/

mutual

/-- `Parse`. -/
def Parse (vk : ValueKinds) :
    Nat → Reader → Option Chunk → Bool → Option (Element × error × Reader × Option Chunk)
  | 0, _, _, _ => none
  | fuel + 1, reader, c, tiFlag =>
    match reader.s[reader.i]? with
    | none => some (.EmptyElement, some .EOF, reader, c)
    | some token =>
      if (token : Int) = FragmentHeaderToken then
        match Fragment.Parse ⟨0, FragmentHeader.zero, .Nil⟩ reader with
        | (f, _, r1) =>
          match Evtx.Parse vk fuel r1 c tiFlag with
          | none => none
          | some (elt, some e, r2, c2) =>
            some (.Fragment { f with BinXMLElement := elt }, some e, r2, c2)
          | some (.ElementStart es, none, r2, c2) =>
            match Evtx.Parse.fragmentLoop vk fuel [.ElementStart es] r2 c2 tiFlag with
            | none => none
            | some (elems, err, r3, c3) =>
              let ti : TemplateInstance Element :=
                { TemplateInstance.zero with Definition :=
                    ⟨TemplateDefinitionHeader.zero,
                      { TemplateDefinitionData.zero with Elements := elems }⟩ }
              some (.Fragment { f with BinXMLElement := .TemplateInstance ti }, err, r3, c3)
          | some (elt, none, r2, c2) =>
            some (.Fragment { f with BinXMLElement := elt }, none, r2, c2)
      else if (token : Int) = TokenOpenStartElementTag1
          ∨ (token : Int) = TokenOpenStartElementTag2 then
        match Evtx.ElementStart.Parse vk fuel { ElementStart.zero with IsTemplateInstance := tiFlag }
            reader with
        | none => none
        | some (es, err, r1) => some (.ElementStart es, err, r1, c)
      else if (token : Int) = TokenNormalSubstitution then
        match NormalSubstitution.Parse ⟨0, 0, 0⟩ reader with
        | (ns, err, r1) => some (.NormalSubstitution ns, err, r1, c)
      else if (token : Int) = TokenOptionalSubstitution then
        match NormalSubstitution.Parse ⟨0, 0, 0⟩ reader with
        | (oz, err, r1) => some (.OptionalSubstitution oz, err, r1, c)
      else if (token : Int) = TokenCharRef1 then
        match CharEntityRef.Parse ⟨0, 0⟩ reader with
        | (tcr, err, r1) => some (.CharEntityRef tcr, err, r1, c)
      else if (token : Int) = TokenTemplateInstance then
        Parse.templateInstanceCase (Evtx.TemplateInstance.Parse vk fuel)
          (Evtx.TemplateInstanceData.Parse vk fuel) reader c
      else if (token : Int) = TokenValue1 ∨ (token : Int) = TokenValue2 then
        match ValueText.Parse ⟨0, 0, ⟨0, []⟩⟩ reader with
        | (vt, err, r1) => some (.ValueText vt, err, r1, c)
      else if (token : Int) = TokenEntityRef1 ∨ (token : Int) = TokenEntityRef2 then
        match BinXMLEntityReference.Parse ⟨0, 0, Name.zero⟩ reader with
        | (e, err, r1) => some (.BinXMLEntityReference e, err, r1, c)
      else if (token : Int) = TokenEndElementTag then
        match Token.Parse 0 reader with
        | (b, err, r1) => some (.BinXMLEndElementTag b, err, r1, c)
      else if (token : Int) = TokenCloseStartElementTag then
        match Token.Parse 0 reader with
        | (t, err, r1) => some (.BinXMLCloseStartElementTag t, err, r1, c)
      else if (token : Int) = TokenCloseEmptyElementTag then
        match Token.Parse 0 reader with
        | (t, err, r1) => some (.BinXMLCloseEmptyElementTag t, err, r1, c)
      else if (token : Int) = TokenEOF then
        match Token.Parse 0 reader with
        | (b, _, r1) => some (.BinXMLEOF b, none, r1, c)
      else some (.EmptyElement, some (.ErrUnknownToken token), reader, c)

/-- The `for e, err = Parse(...); err == nil; ...` loop of the fragment case
of `Parse`, `elems` being `ti.Definition.Data.Elements` so far. -/
def Parse.fragmentLoop (vk : ValueKinds) :
    Nat → List Element → Reader → Option Chunk → Bool →
      Option (List Element × error × Reader × Option Chunk)
  | 0, _, _, _, _ => none
  | fuel + 1, elems, r, c, tiFlag =>
    match Evtx.Parse vk fuel r c tiFlag with
    | none => none
    | some (_, some e, r1, c1) => some (elems, some e, r1, c1)
    | some (.BinXMLEOF b, none, r1, c1) => some (elems ++ [.BinXMLEOF b], none, r1, c1)
    | some (e, none, r1, c1) => Evtx.Parse.fragmentLoop vk fuel (elems ++ [e]) r1 c1 tiFlag

/-- `ElementStart.Parse`. -/
def ElementStart.Parse (vk : ValueKinds) :
    Nat → ElementStart Element → Reader → Option (ElementStart Element × error × Reader)
  | 0, _, _ => none
  | fuel + 1, es0, r =>
    let es := { es0 with Offset := BackupSeeker r, NameOffset := DefaultNameOffset }
    match UnmarshalS 1 es.Token r with
    | (t, some e, r1) => some ({ es with Token := t }, some e, r1)
    | (t, none, r1) =>
    match (if es.IsTemplateInstance then UnmarshalS 2 es.DepID r1 else (es.DepID, none, r1)) with
    | (d, some e, r2) => some ({ es with Token := t, DepID := d }, some e, r2)
    | (d, none, r2) =>
    match UnmarshalS 4 es.Size r2 with
    | (sz, some e, r3) => some ({ es with Token := t, DepID := d, Size := sz }, some e, r3)
    | (sz, none, r3) =>
    match UnmarshalS 4 es.NameOffset r3 with
    | (no, some e, r4) =>
      some ({ es with Token := t, DepID := d, Size := sz, NameOffset := no }, some e, r4)
    | (no, none, r4) =>
    let backup := BackupSeeker r4
    match Evtx.Name.Parse es.Name (if backup ≠ no then GoToSeeker r4 no else r4) with
    | (n, some e, r5) =>
      some ({ es with Token := t, DepID := d, Size := sz, NameOffset := no, Name := n },
        some e, r5)
    | (n, none, r5) =>
    let r6 := if backup ≠ no then GoToSeeker r5 backup else r5
    let es1 := { es with Token := t, DepID := d, Size := sz, NameOffset := no, Name := n }
    match (if t = TokenOpenStartElementTag2 then Evtx.AttributeList.Parse vk fuel es1.AttributeList r6
           else some (es1.AttributeList, none, r6)) with
    | none => none
    | some (al, some e, r7) => some ({ es1 with AttributeList := al }, some e, r7)
    | some (al, none, r7) =>
    match UnmarshalU 1 es1.EOESToken r7 with
    | (tok, some e, r8) => some ({ es1 with AttributeList := al, EOESToken := tok }, some e, r8)
    | (tok, none, r8) =>
      let es2 := { es1 with AttributeList := al, EOESToken := tok }
      if tok ≠ TokenCloseStartElementTag ∧ tok ≠ TokenCloseEmptyElementTag then
        some (es2, some (.errorf "bad close element token"), r8)
      else some (es2, none, RelGoToSeeker r8 (-1))

/-- `AttributeList.Parse`: `ParseSize`, then `ParseAttributes`. -/
def AttributeList.Parse (vk : ValueKinds) :
    Nat → AttributeList Element → Reader → Option (AttributeList Element × error × Reader)
  | 0, _, _ => none
  | fuel + 1, al, r =>
    match UnmarshalS 4 al.Size r with
    | (sz, some e, r1) => some ({ al with Size := sz }, some e, r1)
    | (sz, none, r1) =>
      match Evtx.AttributeList.ParseAttributes vk fuel [] r1 with
      | none => none
      | some (attrs, e, r2) => some (⟨sz, attrs⟩, e, r2)

/-- The loop of `AttributeList.ParseAttributes`, `acc` being `al.Attributes`
so far. -/
def AttributeList.ParseAttributes (vk : ValueKinds) :
    Nat → List (Attribute Element) → Reader →
      Option (List (Attribute Element) × error × Reader)
  | 0, _, _ => none
  | fuel + 1, acc, r =>
    match Evtx.Attribute.Parse vk fuel ⟨0, 0, Name.zero, .Nil⟩ r with
    | none => none
    | some (_, some e, r1) => some (acc, some e, r1)
    | some (attr, none, r1) =>
      if attr.Token = TokenAttribute1 then some (acc ++ [attr], none, r1)
      else Evtx.AttributeList.ParseAttributes vk fuel (acc ++ [attr]) r1

/-- `Attribute.Parse`. -/
def Attribute.Parse (vk : ValueKinds) :
    Nat → Attribute Element → Reader → Option (Attribute Element × error × Reader)
  | 0, _, _ => none
  | fuel + 1, a, r =>
    match UnmarshalS 1 a.Token r with
    | (t, some e, r1) => some ({ a with Token := t }, some e, r1)
    | (t, none, r1) =>
      if t ≠ TokenAttribute1 ∧ t ≠ TokenAttribute2 then
        some ({ a with Token := t }, some (.errorf "bad attribute Token"), r1)
      else
        match UnmarshalS 4 a.NameOffset r1 with
        | (no, some e, r2) => some ({ a with Token := t, NameOffset := no }, some e, r2)
        | (no, none, r2) =>
          let cursor := BackupSeeker r2
          match Evtx.Name.Parse a.Name (if no ≠ cursor then GoToSeeker r2 no else r2) with
          | (n, _, r3) =>
            let r4 := if no ≠ cursor then GoToSeeker r3 cursor else r3
            match Evtx.Parse vk fuel r4 none false with
            | none => none
            | some (d, err, r5, _) => some (⟨t, no, n, d⟩, err, r5)

/-- `TemplateInstance.Parse`. -/
def TemplateInstance.Parse (vk : ValueKinds) :
    Nat → TemplateInstance Element → Reader →
      Option (TemplateInstance Element × error × Reader)
  | 0, _, _ => none
  | fuel + 1, ti, r =>
    match UnmarshalS 1 ti.Token r with
    | (t, some e, r1) => some ({ ti with Token := t }, some e, r1)
    | (t, none, r1) =>
      match Evtx.TemplateDefinition.Parse vk fuel ti.Definition r1 with
      | none => none
      | some (td, some e, r2) => some ({ ti with Token := t, Definition := td }, some e, r2)
      | some (td, none, r2) =>
        match Evtx.TemplateInstanceData.Parse vk fuel ti.Data r2 with
        | none => none
        | some (d, err, r3) => some (⟨t, td, d⟩, err, r3)

/-- `TemplateDefinition.Parse`. -/
def TemplateDefinition.Parse (vk : ValueKinds) :
    Nat → TemplateDefinition Element → Reader →
      Option (TemplateDefinition Element × error × Reader)
  | 0, _, _ => none
  | fuel + 1, td, r =>
    match TemplateDefinitionHeader.Parse td.Header r with
    | (h, some e, r1) => some ({ td with Header := h }, some e, r1)
    | (h, none, r1) =>
      let backup := BackupSeeker r1
      match Evtx.TemplateDefinitionData.Parse vk fuel td.Data
          (if h.DataOffset ≠ backup then GoToSeeker r1 h.DataOffset else r1) with
      | none => none
      | some (d, some e, r2) => some (⟨h, d⟩, some e, r2)
      | some (d, none, r2) =>
        some (⟨h, d⟩, none, if h.DataOffset ≠ backup then GoToSeeker r2 backup else r2)

/-- `TemplateDefinitionData.Parse`. -/
def TemplateDefinitionData.Parse (vk : ValueKinds) :
    Nat → TemplateDefinitionData Element → Reader →
      Option (TemplateDefinitionData Element × error × Reader)
  | 0, _, _ => none
  | fuel + 1, td, r =>
    match UnmarshalS 4 td.Unknown3 r with
    | (u, some e, r1) => some ({ td with Unknown3 := u }, some e, r1)
    | (u, none, r1) =>
    match unmarshalArray td.ID r1 with
    | (id, some e, r2) => some ({ td with Unknown3 := u, ID := id }, some e, r2)
    | (id, none, r2) =>
    match UnmarshalS 4 td.Size r2 with
    | (sz, some e, r3) => some ({ td with Unknown3 := u, ID := id, Size := sz }, some e, r3)
    | (sz, none, r3) =>
    match FragmentHeader.Parse td.FragHeader r3 with
    | (fh, some e, r4) =>
      some ({ td with Unknown3 := u, ID := id, Size := sz, FragHeader := fh }, some e, r4)
    | (fh, none, r4) =>
      match Evtx.TemplateDefinitionData.elements vk fuel [] r4 with
      | none => none
      | some (elems, some e, r5) => some (⟨u, id, sz, fh, elems, td.EOFToken⟩, some e, r5)
      | some (elems, none, r5) => some (⟨u, id, sz, fh, elems, TokenEOF⟩, none, r5)

/-- The loop of `TemplateDefinitionData.Parse`, `elems` being `td.Elements`
so far; it ends without error on the EOF token. -/
def TemplateDefinitionData.elements (vk : ValueKinds) :
    Nat → List Element → Reader → Option (List Element × error × Reader)
  | 0, _, _ => none
  | fuel + 1, elems, r =>
    match Evtx.Parse vk fuel r none true with
    | none => none
    | some (_, some e, r1, _) => some (elems, some e, r1)
    | some (.BinXMLEOF _, none, r1, _) => some (elems, none, r1)
    | some (elt, none, r1, _) => Evtx.TemplateDefinitionData.elements vk fuel (elems ++ [elt]) r1

/-- `TemplateInstanceData.Parse`. -/
def TemplateInstanceData.Parse (vk : ValueKinds) :
    Nat → TemplateInstanceData Element → Reader →
      Option (TemplateInstanceData Element × error × Reader)
  | 0, _, _ => none
  | fuel + 1, tid, r =>
    match UnmarshalS 4 tid.NumValues r with
    | (n, some e, r1) => some ({ tid with NumValues := n }, some e, r1)
    | (n, none, r1) =>
      if n < 0 then
        some ({ tid with NumValues := n },
          some (.errorf "negative number of values in TemplateInstanceData"), r1)
      else if n > MaxSliceSize then
        some ({ tid with NumValues := n },
          some (.errorf "too many values in TemplateInstanceData"), r1)
      else
        let values : List Element := List.replicate n.toNat .Nil
        let offsets : List Int := List.replicate n.toNat 0
        let descs : List ValueDescriptor := List.replicate n.toNat ⟨0, 0, 0⟩
        match (if n > 0 then UnmarshaInitSlice ValueDescriptor.Unmarshal descs r1
               else (descs, none, r1)) with
        | (ds, some e, r2) => some (⟨n, ds, values, offsets⟩, some e, r2)
        | (ds, none, r2) =>
          match Evtx.TemplateInstanceData.values vk fuel ds r2 none with
          | none => none
          | some (vs, err, r3) => some (⟨n, ds, vs, offsets⟩, err, r3)

/-- The loop `for i := int32(0); i < tid.NumValues; i++` of
`Evtx.TemplateInstanceData.Parse` over the descriptors still to do; `err` is the
error of the round before, which the next round overwrites. -/
def TemplateInstanceData.values (vk : ValueKinds) :
    Nat → List ValueDescriptor → Reader → error → Option (List Element × error × Reader)
  | 0, _, _, _ => none
  | _ + 1, [], r, err => some ([], err, r)
  | fuel + 1, vd :: rest, r, _ =>
    match Evtx.ParseValueReader vk fuel vd r with
    | none => none
    | some (v, e, r1) =>
      match Evtx.TemplateInstanceData.values vk fuel rest r1 e with
      | none => none
      | some (vs, e2, r2) => some (v :: vs, e2, r2)

/-- `ParseValueReader`. -/
def ParseValueReader (vk : ValueKinds) :
    Nat → ValueDescriptor → Reader → Option (Element × error × Reader)
  | 0, _, _ => none
  | fuel + 1, vd, r =>
    let t := vd.ValType
    if IsType t NullType then
      some (.Value (.ValueNull vd.Size), none, { r with i := vk.parseNull vd.Size r })
    else if scalarKinds.any (IsType t) then
      some ((vk.parse vd r).1, (vk.parse vd r).2.1, { r with i := (vk.parse vd r).2.2 })
    else if IsType t BinXmlType then
      match Evtx.Parse vk fuel r none true with
      | none => none
      | some (elt, err, r1, _) => some (elt, err, r1)
    else if arrayKinds.any (IsArrayOf t) then
      some ((vk.parse vd r).1, (vk.parse vd r).2.1, { r with i := (vk.parse vd r).2.2 })
    else
      some (.Value (.UnkVal (BackupSeeker r) t vd (vk.unkRepr (BackupSeeker r) t vd)), none,
        RelGoToSeeker r vd.Size)

end

/-! ## node.go -/

/-- `Node`; `Start` is `none` for a nil pointer. -/
inductive Node where
  | mk (Start : Option (ElementStart Element)) (Element : List Element) (Child : List Node)

def Node.Start : Node → Option (ElementStart Element)
  | .mk s _ _ => s

def Node.Element : Node → List Element
  | .mk _ e _ => e

def Node.Child : Node → List Node
  | .mk _ _ c => c

/-- The zero value `var n Node`. -/
def Node.zero : Node := .mk none [] []

/-- `NodeTree(es, index)` entered with the node `n` built so far (`Node.zero`
at the call); one unit of fuel per loop round or call. -/
def NodeTree : Nat → List Element → Nat → Node → Option (Node × Nat)
  | 0, _, _, _ => none
  | fuel + 1, es, index, n =>
    match es[index]? with
    | none => some (n, index)
    | some (.ElementStart s) =>
      match NodeTree fuel es (index + 1) Node.zero with
      | none => none
      | some (nn, index1) =>
        NodeTree fuel es (index1 + 1)
          (.mk n.Start n.Element (n.Child ++ [.mk (some s) nn.Element nn.Child]))
    | some (.BinXMLEndElementTag _) => some (n, index)
    | some (.BinXMLCloseEmptyElementTag _) => some (n, index)
    | some (.BinXMLCloseStartElementTag _) => NodeTree fuel es (index + 1) n
    | some e => NodeTree fuel es (index + 1) (.mk n.Start (n.Element ++ [e]) n.Child)

/-- `TemplateInstance.Root`.  A round of `NodeTree` moves the index forward,
so twice the length of the element list (and one) is fuel enough. -/
def TemplateInstance.Root (ti : TemplateInstance Element) : Option Node :=
  match NodeTree (2 * ti.Definition.Data.Elements.length + 1) ti.Definition.Data.Elements 0
      Node.zero with
  | none => none
  | some (n, _) => some n

/-! ## goevtx.go -/

/-- `GoEvtxMap.HasKeys`. -/
def GoEvtxMap.HasKeys (pg : GoEvtxMap) (keys : List String) : Bool :=
  keys.all (fun k => (mapGet pg k).isSome)

/-- The loop of `GoEvtxMap.Add` over `other` on a receiver that is an
initialised map: a key of `other` that the receiver holds panics. -/
def GoEvtxMap.Add.loop (pg : GoEvtxMap) : GoEvtxMap → Outcome GoEvtxMap
  | [] => .ok pg
  | (k, v) :: rest =>
    match mapGet pg k with
    | some _ => .panic
    | none => GoEvtxMap.Add.loop (mapSet pg k v) rest

/-- `GoEvtxMap.Add`.  The receiver `none` is the nil map, which can be read
(no key is found) and cannot be written: the first entry of `other` panics on
the assignment; `some m` is an initialised map. -/
def GoEvtxMap.Add (pg : Option GoEvtxMap) (other : GoEvtxMap) : Outcome (Option GoEvtxMap) :=
  match pg with
  | none =>
    match other with
    | [] => .ok none
    | _ :: _ => .panic
  | some m =>
    match GoEvtxMap.Add.loop m other with
    | .ok m1 => .ok (some m1)
    | .panic => .panic
    | .outOfFuel => .outOfFuel

/-- `GoEvtxMap.Get`. -/
def GoEvtxMap.Get (pg : GoEvtxMap) : List String → Option GoEvtxElement
  | [] => none
  | [k] => mapGet pg k
  | k :: k1 :: rest =>
    match mapGet pg k with
    | some (.map p) => GoEvtxMap.Get p (k1 :: rest)
    | _ => none

/-- `GoEvtxMap.Set`: the map afterwards and the path of the `ErrEvtxEltNotFound`
returned (`none` for a nil error); the nested map is changed in place, which
the value model writes back under its key.  Both `GoEvtxMap` and
`map[string]interface{}` are the constructor `map`. -/
def GoEvtxMap.Set (pg : GoEvtxMap) : List String → GoEvtxElement → GoEvtxMap × Option (List String)
  | [], _ => (pg, some [])
  | [k], new => (mapSet pg k new, none)
  | k :: k1 :: rest, new =>
    match mapGet pg k with
    | some (.map p) =>
      match GoEvtxMap.Set p (k1 :: rest) new with
      | (p1, err) => (mapSet pg k (.map p1), err)
    | _ => (pg, some (k :: k1 :: rest))

/-- `GoEvtxMap.Del`; the nested map is changed in place, which the value
model writes back under its key. -/
def GoEvtxMap.Del (pg : GoEvtxMap) : List String → GoEvtxMap
  | [] => pg
  | [k] => mapDel pg k
  | k :: k1 :: rest =>
    match mapGet pg k with
    | some (.map p) => mapSet pg k (.map (GoEvtxMap.Del p (k1 :: rest)))
    | _ => pg

/-- `GoEvtxMap.DelXmlns`. -/
def GoEvtxMap.DelXmlns (pg : GoEvtxMap) : GoEvtxMap := GoEvtxMap.Del pg XmlnsPath

/-! ## structs.go: the expansion -/

/-- `BinXMLEntityReference.String`. -/
def BinXMLEntityReference.String (e : BinXMLEntityReference) : String :=
  if e.Name.String = "amp" then "&"
  else if e.Name.String = "lt" then "<"
  else if e.Name.String = "gt" then ">"
  else if e.Name.String = "quot" then "\""
  else if e.Name.String = "apos" then "'"
  else ""

/-- The loop over `n.Child` of `NodeToGoEvtx`: `render` is the recursive
`ti.NodeToGoEvtx`, `i` the index of the child at hand, `m` the map so far. -/
def NodeToGoEvtx.children (render : Node → Outcome GoEvtxMap) :
    List Node → Nat → GoEvtxMap → Outcome GoEvtxMap
  | [], _, m => .ok m
  | c :: rest, i, m =>
    match render c with
    | .panic => .panic
    | .outOfFuel => .outOfFuel
    | .ok node =>
      if GoEvtxMap.HasKeys node ["Name"] ∧ node.length = 1 then
        match mapGet node "Name" with
        | some (.str name) => NodeToGoEvtx.children render rest (i + 1) (mapSet m name (.str ""))
        | _ => .panic
      else if GoEvtxMap.HasKeys node ["Name", "Value"] ∧ node.length = 2 then
        match mapGet node "Name" with
        | some (.str name) =>
          NodeToGoEvtx.children render rest (i + 1)
            (mapSet m name ((mapGet node "Value").getD .nil))
        | _ => .panic
      else
        match c.Start with
        | none => .panic
        | some s =>
          let name := if (mapGet m s.Name.String).isSome then s.Name.String ++ toString i
            else s.Name.String
          if GoEvtxMap.HasKeys node ["Value"] ∧ node.length = 1 then
            NodeToGoEvtx.children render rest (i + 1)
              (mapSet m name ((mapGet node "Value").getD .nil))
          else NodeToGoEvtx.children render rest (i + 1) (mapSet m name (.map node))

/-- The loop over `n.Element` of `NodeToGoEvtx`: `render` is
`ti.ElementToGoEvtx`, `all` the whole `n.Element` (for `n.Element[0]`).  The
map `m` was made by `make`, so `m.Add(other)` is the loop of `Add` on an
initialised map. -/
def NodeToGoEvtx.elements (render : Element → Outcome GoEvtxElement) (all : List Element) :
    List Element → GoEvtxMap → Outcome GoEvtxMap
  | [], m => .ok m
  | e :: rest, m =>
    match render e with
    | .panic => .panic
    | .outOfFuel => .outOfFuel
    | .ok (.map other) =>
      match GoEvtxMap.Add.loop m other with
      | .ok m1 => NodeToGoEvtx.elements render all rest m1
      | .panic => .panic
      | .outOfFuel => .outOfFuel
    | .ok (.str ge) =>
      match mapGet m "Value" with
      | none => NodeToGoEvtx.elements render all rest (mapSet m "Value" (.str ge))
      | some .nil => NodeToGoEvtx.elements render all rest (mapSet m "Value" (.str ge))
      | some (.str v) => NodeToGoEvtx.elements render all rest (mapSet m "Value" (.str (v ++ ge)))
      | some _ => .panic
    | .ok _ =>
      match all.head? with
      | none => .panic
      | some e0 =>
        match render e0 with
        | .ok v => NodeToGoEvtx.elements render all rest (mapSet m "Value" v)
        | .panic => .panic
        | .outOfFuel => .outOfFuel

/-- The loop over `n.Start.AttributeList.Attributes` of `NodeToGoEvtx`. -/
def NodeToGoEvtx.attributes (render : Element → Outcome GoEvtxElement) :
    List (Attribute Element) → GoEvtxMap → Outcome GoEvtxMap
  | [], m => .ok m
  | attr :: rest, m =>
    match render attr.AttributeData with
    | .panic => .panic
    | .outOfFuel => .outOfFuel
    | .ok .nil => NodeToGoEvtx.attributes render rest m
    | .ok gee => NodeToGoEvtx.attributes render rest (mapSet m attr.Name.String gee)

mutual

/-- `TemplateInstance.ElementToGoEvtx`. -/
def ElementToGoEvtx : Nat → TemplateInstance Element → Element → Outcome GoEvtxElement
  | 0, _, _ => .outOfFuel
  | fuel + 1, ti, elt =>
    match elt with
    | .ValueText vt => .ok (.str vt.String)
    | .OptionalSubstitution s =>
      if s.SubID < ti.Data.Values.length then
        match (if s.SubID < 0 then none else ti.Data.Values[s.SubID.toNat]?) with
        | some v => ElementToGoEvtx fuel ti v
        | none => .panic
      else .panic
    | .NormalSubstitution s =>
      if s.SubID < ti.Data.Values.length then
        match (if s.SubID < 0 then none else ti.Data.Values[s.SubID.toNat]?) with
        | some v => ElementToGoEvtx fuel ti v
        | none => .panic
      else .panic
    | .Fragment f =>
      match f.BinXMLElement with
      | .TemplateInstance temp =>
        match temp.Root with
        | none => .outOfFuel
        | some root =>
          match NodeToGoEvtx fuel temp root with
          | .ok m => .ok (.map m)
          | .panic => .panic
          | .outOfFuel => .outOfFuel
      | _ => .panic
    | .TemplateInstance temp =>
      match temp.Root with
      | none => .outOfFuel
      | some root =>
        match NodeToGoEvtx fuel temp root with
        | .ok m => .ok (.map m)
        | .panic => .panic
        | .outOfFuel => .outOfFuel
    | .Value (.ValueNull _) => .ok .nil
    | .Value (.UnkVal _ _ _ repr) => .ok repr
    | .Value (.Known repr) => .ok repr
    | .BinXMLEntityReference e =>
      if e.String = "" then .panic else .ok (.str e.String)
    | _ => .panic

/-- `TemplateInstance.NodeToGoEvtx`. -/
def NodeToGoEvtx : Nat → TemplateInstance Element → Node → Outcome GoEvtxMap
  | 0, _, _ => .outOfFuel
  | fuel + 1, ti, n =>
    match n.Start, n.Child with
    | none, [c] =>
      match c.Start with
      | none => .panic
      | some s =>
        match NodeToGoEvtx fuel ti c with
        | .ok node => .ok [(s.Name.String, .map node)]
        | .panic => .panic
        | .outOfFuel => .outOfFuel
    | _, _ =>
      match NodeToGoEvtx.children (NodeToGoEvtx fuel ti) n.Child 0 [] with
      | .panic => .panic
      | .outOfFuel => .outOfFuel
      | .ok m1 =>
        match NodeToGoEvtx.elements (ElementToGoEvtx fuel ti) n.Element n.Element m1 with
        | .panic => .panic
        | .outOfFuel => .outOfFuel
        | .ok m2 =>
          match n.Start with
          | none => .ok m2
          | some s =>
            NodeToGoEvtx.attributes (ElementToGoEvtx fuel ti) s.AttributeList.Attributes m2

end

/-- `TemplateInstance.GoEvtxMap`. -/
def TemplateInstance.GoEvtxMap (fuel : Nat) (ti : TemplateInstance Element) :
    Outcome GoEvtxMap :=
  match ti.Root with
  | none => .outOfFuel
  | some root => NodeToGoEvtx fuel ti root

/-- `Fragment.GoEvtxMap`; `none` is the nil `*GoEvtxMap`. -/
def Fragment.GoEvtxMap (fuel : Nat) (f : Fragment Element) : Outcome (Option GoEvtxMap) :=
  match f.BinXMLElement with
  | .TemplateInstance ti =>
    match ti.GoEvtxMap fuel with
    | .ok pgem => .ok (some (GoEvtxMap.DelXmlns pgem))
    | .panic => .panic
    | .outOfFuel => .outOfFuel
  | _ => .ok none

/-! ## chunk.go -/

/-- `Chunk.ParseChunkHeader`: an `Unmarshal` error panics. -/
def Chunk.ParseChunkHeader (c : Chunk) (reader : Reader) : Outcome (Chunk × Reader) :=
  match ChunkHeader.Unmarshal c.Header reader with
  | (_, some _, _) => .panic
  | (h, none, r1) => .ok ({ c with Header := h }, r1)

/-- The loop of `Chunk.ParseStringTable`, `n` slots still to read; the
`Unmarshal` error is dropped, which leaves `strOffset` at its last value. -/
def Chunk.ParseStringTable.loop :
    Nat → Int → ChunkStringTable → Reader → Outcome (ChunkStringTable × Reader)
  | 0, _, st, r => .ok (st, r)
  | n + 1, strOffset, st, r =>
    match UnmarshalS 4 strOffset r with
    | (so, _, r1) =>
      if so > 0 then
        match StringAt r1 so with
        | (_, some _, _) => .panic
        | (cs, none, r2) => Chunk.ParseStringTable.loop n so (mapSet st so cs) r2
      else Chunk.ParseStringTable.loop n so st r1

/-- `Chunk.ParseStringTable`. -/
def Chunk.ParseStringTable (c : Chunk) (reader : Reader) : Outcome (Chunk × Reader) :=
  match Chunk.ParseStringTable.loop sizeStringBucket 0 c.StringTable reader with
  | .ok (st, r1) => .ok ({ c with StringTable := st }, r1)
  | .panic => .panic
  | .outOfFuel => .outOfFuel

/-- The loop of `Chunk.ParseTemplateTable`, `n` slots still to read; `fuel`
is handed to each `TemplateDefinitionData.Parse`. -/
def Chunk.ParseTemplateTable.loop (vk : ValueKinds) (fuel : Nat) :
    Nat → Int → Evtx.TemplateTable → Reader → Option (Evtx.TemplateTable × error × Reader)
  | 0, _, tt, r => some (tt, none, r)
  | n + 1, templateDataOffset, tt, r =>
    match UnmarshalS 4 templateDataOffset r with
    | (_, some e, r1) => some (tt, some e, r1)
    | (tdo, none, r1) =>
      if tdo > 0 then
        match TemplateDefinitionData.Parse vk fuel TemplateDefinitionData.zero
            (GoToSeeker r1 tdo) with
        | none => none
        | some (_, some e, r2) => some (tt, some e, r2)
        | some (tdd, none, r2) =>
          Chunk.ParseTemplateTable.loop vk fuel n tdo (mapSet tt tdo tdd)
            (GoToSeeker r2 (BackupSeeker r1))
      else Chunk.ParseTemplateTable.loop vk fuel n tdo tt r1

/-- `Chunk.ParseTemplateTable`. -/
def Chunk.ParseTemplateTable (vk : ValueKinds) (fuel : Nat) (c : Chunk) (reader : Reader) :
    Option (Chunk × error × Reader) :=
  match Chunk.ParseTemplateTable.loop vk fuel sizeTemplateBucket 0 c.TemplateTable reader with
  | none => none
  | some (tt, e, r1) => some ({ c with TemplateTable := tt }, e, r1)

/-- The loop of `Chunk.ParseEventOffsets`: `offsetEvent` is the candidate,
`offsets` is `c.EventOffsets` so far; `offsetEvent += eh.Size` is an `int32`
addition. -/
def Chunk.ParseEventOffsets.loop (OffsetLastRec : Int) :
    Nat → Int → List Int → Reader → Option (List Int × error × Reader)
  | 0, _, _, _ => none
  | fuel + 1, offsetEvent, offsets, r =>
    if offsetEvent ≤ OffsetLastRec then
      match EventHeader.Unmarshal EventHeader.zero (GoToSeeker r offsetEvent) with
      | (_, some e, r1) => some (offsets, some e, r1)
      | (eh, none, r1) =>
        match eh.Validate with
        | some e => some (offsets, some e, r1)
        | none =>
          Chunk.ParseEventOffsets.loop OffsetLastRec fuel (int32 (offsetEvent + eh.Size))
            (offsets ++ [int32 (offsetEvent + eh.Size)]) r1
    else some (offsets, none, r)

/-- `Chunk.ParseEventOffsets`; `fuel` bounds the rounds of its loop. -/
def Chunk.ParseEventOffsets (fuel : Nat) (c : Chunk) (reader : Reader) :
    Option (Chunk × error × Reader) :=
  match Chunk.ParseEventOffsets.loop c.Header.OffsetLastRec fuel (int32 (BackupSeeker reader))
      [int32 (BackupSeeker reader)] reader with
  | none => none
  | some (offsets, e, r1) => some ({ c with EventOffsets := offsets }, e, r1)

/-- `Chunk.ParseEvent`. -/
def Chunk.ParseEvent (c : Chunk) (offset : Int) : Outcome Event :=
  if c.Header.OffsetLastRec < offset then .ok ⟨0, EventHeader.zero⟩
  else
    match EventHeader.Unmarshal EventHeader.zero (GoToSeeker ⟨c.Data, 0⟩ offset) with
    | (_, some _, _) => .panic
    | (h, none, _) => .ok ⟨offset, h⟩

/-! ## event.go -/

/-- `Event.GoEvtxMap`: the map (`none` for the nil pointer), the error, and
the chunk, whose template table `Parse` may have grown.  An element that is
not a `*Fragment` panics on the type assertion. -/
def Event.GoEvtxMap (vk : ValueKinds) (fuel : Nat) (e : Event) (c : Chunk) :
    Outcome (Option GoEvtxMap × error × Chunk) :=
  if ¬ e.IsValid then .ok (none, some .ErrInvalidEvent, c)
  else
    match Parse vk fuel (GoToSeeker ⟨c.Data, 0⟩ (e.Offset + EventHeaderSize)) (some c) false with
    | none => .outOfFuel
    | some (.Fragment fragment, err, _, c1) =>
      match Fragment.GoEvtxMap fuel fragment with
      | .ok pge => .ok (pge, err, c1.getD c)
      | .panic => .panic
      | .outOfFuel => .outOfFuel
    | some _ => .panic

/-- What the goroutine of `Chunk.Events` has done when it stops: the maps
sent on the channel, in order, and whether it ended by a panic. -/
structure EventsRun where
  sent : List (Option GoEvtxMap)
  panicked : Bool

/-- The loop of the goroutine of `Chunk.Events` over the event offsets. -/
def Chunk.Events.loop (vk : ValueKinds) (fuel : Nat) :
    List Int → Chunk → List (Option GoEvtxMap) → Option EventsRun
  | [], _, sent => some ⟨sent, false⟩
  | eo :: rest, c, sent =>
    match c.ParseEvent eo with
    | .outOfFuel => none
    | .panic => some ⟨sent, true⟩
    | .ok event =>
      match event.GoEvtxMap vk fuel c with
      | .outOfFuel => none
      | .panic => some ⟨sent, true⟩
      | .ok (gem, none, c1) => Chunk.Events.loop vk fuel rest c1 (sent ++ [gem])
      | .ok (_, some _, c1) => Chunk.Events.loop vk fuel rest c1 sent

/-- `Chunk.Events`: the run of its goroutine; `none` when the fuel given to
the parser ran out. -/
def Chunk.Events (vk : ValueKinds) (fuel : Nat) (c : Chunk) : Option EventsRun :=
  Chunk.Events.loop vk fuel c.EventOffsets c []

/-! ## evtx.go: chunks -/

/-- `File.FetchChunk` once the 64 KiB at `offset` have been read into `data`
without error. -/
def File.FetchChunk (vk : ValueKinds) (fuel : Nat) (offset : Int) (data : List Nat) :
    Outcome (Chunk × error) :=
  let c0 : Chunk := { NewChunk with Offset := offset, Data := data }
  match c0.ParseChunkHeader ⟨data, 0⟩ with
  | .panic => .panic
  | .outOfFuel => .outOfFuel
  | .ok (c1, r1) =>
    match c1.ParseStringTable (GoToSeeker r1 c1.Header.SizeHeader) with
    | .panic => .panic
    | .outOfFuel => .outOfFuel
    | .ok (c2, r2) =>
      match c2.ParseTemplateTable vk fuel r2 with
      | none => .outOfFuel
      | some (c3, some e, _) => .ok (c3, some e)
      | some (c3, none, r3) =>
        match c3.ParseEventOffsets fuel r3 with
        | none => .outOfFuel
        | some (c4, e, _) => .ok (c4, e)

/-! ## utils.go: FileTime

`FileTime.Convert` computes the seconds in `float64`; the float operations are
modelled exactly on rationals (round to nearest, ties to even, 53-bit
significand), the values met being far inside the range of normal numbers. -/

/-- `int64` wrap-around. -/
def int64 (x : Int) : Int := (x + 2 ^ 63) % 2 ^ 64 - 2 ^ 63

/-- The number of halvings that bring `n` below 2 (`fuel` bounds the count). -/
def ilog2 : Nat → Nat → Nat
  | 0, _ => 0
  | fuel + 1, n => if n < 2 then 0 else ilog2 fuel (n / 2) + 1

/-- The exponent `e` with `2 ^ e ≤ a < 2 ^ (e + 1)` of a positive rational. -/
def floorLog2 (a : ℚ) : Int :=
  if 1 ≤ a then (ilog2 ⌊a⌋.toNat ⌊a⌋.toNat : Int)
  else
    let m := ⌈1 / a⌉.toNat
    if m ≤ 1 then 0 else -((ilog2 m (m - 1) : Int) + 1)

/-- Multiplication by `2 ^ e` for an integer `e`. -/
def scale2 (q : ℚ) (e : Int) : ℚ :=
  if 0 ≤ e then q * ((2 ^ e.toNat : Nat) : ℚ) else q / ((2 ^ (-e).toNat : Nat) : ℚ)

/-- Rounding of a non-negative rational to the nearest integer, ties to even. -/
def roundHalfEven (q : ℚ) : Int :=
  if q - ⌊q⌋ < 1 / 2 then ⌊q⌋
  else if 1 / 2 < q - ⌊q⌋ then ⌊q⌋ + 1
  else if ⌊q⌋ % 2 = 0 then ⌊q⌋ else ⌊q⌋ + 1

/-- The `float64` nearest to a rational (ties to even). -/
def float64 (q : ℚ) : ℚ :=
  if q = 0 then 0
  else
    let e := floorLog2 |q| - 52
    let m := roundHalfEven (scale2 |q| (-e))
    if q < 0 then -(scale2 (m : ℚ) e) else scale2 (m : ℚ) e

/-- Conversion of a `float64` to an integer: the fraction is discarded. -/
def truncate (q : ℚ) : Int := if 0 ≤ q then ⌊q⌋ else -⌊-q⌋

/-- The seconds of `FileTime.Convert`:
`int64(float64(v.Nanoseconds)/float64(nano) - 11644473600.0)`. -/
def FileTime.seconds (t : Int) : Int :=
  int64 (truncate (float64 (float64 (float64 t / float64 10000000) - 11644473600)))

/-- `FileTime.Convert` on the tick count `t` (`v.Nanoseconds`): `sec`, `nsec`. -/
def FileTime.Convert (t : Int) : Int × Int :=
  let nano : Int := 10000000
  let sec := FileTime.seconds t
  let nsec :=
    int64 (int64 (int64 (t - int64 (11644473600 * nano)) - int64 (sec * nano)) * 100)
  (sec, nsec)

/-! ## Concrete inputs -/

/-- `k` chunk markers in a row. -/
def markers : Nat → List Nat
  | 0 => []
  | k + 1 => ChunkMagic ++ markers k

/-- `k` chunk markers, each followed by twelve zero bytes. -/
def spacedMarkers : Nat → List Nat
  | 0 => []
  | k + 1 => ChunkMagic ++ (List.replicate 12 0 ++ spacedMarkers k)

/-- A dirty header that stores three chunks. -/
def stored3 : FileHeader :=
  ⟨FileMagic, 0, 2, 1, 128, 1, 3, 0x1000, 3, List.replicate 76 0, 1, 0⟩

/-- A dirty header that stores no chunk. -/
def stored0 : FileHeader :=
  ⟨FileMagic, 0, 0, 1, 128, 1, 3, 0x1000, 0, List.replicate 76 0, 1, 0⟩

/-- A header whose flags have bit 0 (dirty) and bit 1 set. -/
def dirtyFull : FileHeader :=
  ⟨FileMagic, 0, 0, 1, 128, 1, 3, 0x1000, 1, List.replicate 76 0, 3, 0⟩

/-- A file of 139 zero bytes: no marker anywhere. -/
def quietFile : List Nat := List.replicate 139 0

/-- A file of zeros with the marker at the positions 131 and 145, neither of
them chunk-aligned, and three zero bytes after the second. -/
def twoMarkerFile : List Nat :=
  List.replicate 131 0 ++ ChunkMagic ++ ([0, 0, 0, 0, 0, 0] ++ ChunkMagic ++ [0, 0, 0])

/-- The 24 bytes of an event header with the magic, the given size (below
256), record id 1 and timestamp 0. -/
def eventHeaderBytes (size : Nat) : List Nat :=
  [0x2a, 0x2a, 0, 0, size, 0, 0, 0, 1, 0, 0, 0, 0, 0, 0, 0, 0, 0, 0, 0, 0, 0, 0, 0]

/-- A buffer with one 24-byte event record at offset 512, zeros elsewhere. -/
def oneEventData : List Nat := List.replicate 512 0 ++ eventHeaderBytes 24 ++ List.replicate 24 0

/-- A chunk over `oneEventData` whose header says the last record is at 512. -/
def oneEventChunk : Chunk :=
  { NewChunk with
    Header := { ChunkHeader.zero with SizeHeader := 128, OffsetLastRec := 512 },
    Data := oneEventData }

/-- Value kinds that read nothing: enough for inputs without template values. -/
def noValues : ValueKinds :=
  ⟨fun _ r => r.i, fun _ r => (.Nil, none, r.i), fun _ _ _ => .nil⟩

/-- The 128 bytes of a chunk header with the given `SizeHeader` and
`OffsetLastRec` (as four little-endian bytes each), zeros elsewhere. -/
def chunkHeaderBytes (sizeHeader offsetLastRec : List Nat) : List Nat :=
  ChunkMagic ++ List.replicate 32 0 ++ sizeHeader ++ offsetLastRec ++ List.replicate 80 0

/-- A 64 KiB chunk buffer whose header has `SizeHeader = 128` and
`OffsetLastRec = 0`, with empty tables and no event record. -/
def noRecordBuffer : List Nat :=
  chunkHeaderBytes [128, 0, 0, 0] [0, 0, 0, 0] ++ List.replicate (65536 - 128) 0

/-- A 64 KiB chunk buffer whose header has `SizeHeader = 128` and
`OffsetLastRec = 65537`, with empty tables and one event record at offset
512 whose header declares the size 65535. -/
def longRecordBuffer : List Nat :=
  chunkHeaderBytes [128, 0, 0, 0] [1, 0, 1, 0] ++ List.replicate 384 0
    ++ [0x2a, 0x2a, 0, 0, 0xff, 0xff, 0, 0, 1, 0, 0, 0, 0, 0, 0, 0, 0, 0, 0, 0, 0, 0, 0, 0]
    ++ List.replicate (65536 - 536) 0

/-- An event record of 25 bytes whose BinXML payload is the single byte 0x07,
which is no token. -/
def badEventBytes : List Nat := eventHeaderBytes 25 ++ [0x07]

/-- An event record of 112 bytes, meant for offset 25 of a buffer: a fragment
header, then a template instance with an inline definition at offset 63 whose
body is `<Event>hi</Event>`, and no values. -/
def goodEventBytes : List Nat :=
  eventHeaderBytes 112
    ++ [0x0f, 1, 1, 0]
    ++ [0x0c, 1, 0, 0, 0, 0, 63, 0, 0, 0]
    ++ [0, 0, 0, 0] ++ List.replicate 16 0 ++ [46, 0, 0, 0] ++ [0x0f, 1, 1, 0]
    ++ [0x01, 0, 0, 40, 0, 0, 0, 102, 0, 0, 0]
    ++ [0, 0, 0, 0, 0, 0, 5, 0, 69, 0, 118, 0, 101, 0, 110, 0, 116, 0, 0, 0]
    ++ [0x02]
    ++ [0x05, 0x01, 2, 0, 104, 0, 105, 0]
    ++ [0x04, 0x00]
    ++ [0, 0, 0, 0]

/-- A chunk whose data holds the bad record at offset 0 and the good one at
offset 25, with the event offsets `ParseEventOffsets` finds from offset 0. -/
def badThenGoodChunk : Chunk :=
  { NewChunk with
    Header := { ChunkHeader.zero with OffsetLastRec := 25 },
    EventOffsets := [0, 25, 137],
    Data := badEventBytes ++ goodEventBytes }

/-- The same chunk with the offset of the bad record left out. -/
def goodOnlyChunk : Chunk := { badThenGoodChunk with EventOffsets := [25, 137] }

/-- A `Name` whose string is the given ASCII text (with the terminating NUL). -/
def nameOf (text : List Nat) : Name :=
  ⟨0, 0, text.length, text.map (fun b => (b : Int)) ++ [0]⟩

/-- An attribute-less start tag with the given name. -/
def startOf (text : List Nat) : ElementStart Element :=
  { ElementStart.zero with Token := 0x01, Name := nameOf text, EOESToken := 0x02 }

/-- The text leaf `a`. -/
def textA : Element := .ValueText ⟨0x05, 0x01, ⟨1, [97]⟩⟩

/-- A template instance whose only value is a null-typed slot. -/
def nullSlotInstance : TemplateInstance Element :=
  { TemplateInstance.zero with
    Data := ⟨1, [⟨0, 0, 0⟩], [.Value (.ValueNull 0)], [0]⟩ }

/-- The node of `<Data>a%0</Data>`: a text leaf, then a normal substitution
of slot 0. -/
def textThenNullNode : Node :=
  .mk (some (startOf [68, 97, 116, 97])) [textA, .NormalSubstitution ⟨0x0d, 0, 0⟩] []

/-- The node of `<X>%0</X>` with an optional substitution of slot 0. -/
def optionalNullNode : Node :=
  .mk (some (startOf [88])) [.OptionalSubstitution ⟨0x0e, 0, 0⟩] []

/-- The node of `<Data><X>%0</X></Data>`, the substitution being optional. -/
def optionalNullParent : Node :=
  .mk (some (startOf [68, 97, 116, 97])) [] [optionalNullNode]

/-- An entity reference whose resolved name is the given ASCII text (with the
terminating NUL). -/
def entityOf (text : List Nat) : BinXMLEntityReference := ⟨0x09, 0, nameOf text⟩

/-- The node of `<X>a</X>`. -/
def textNode : Node := .mk (some (startOf [88])) [textA] []

/-- The root node (no start element) over `<X>a</X>`. -/
def rootOverText : Node := .mk none [] [textNode]

/-- The template instance of `<Event xmlns="u">a</Event>`. -/
def xmlnsEvent : TemplateInstance Element :=
  { TemplateInstance.zero with
    Definition := ⟨TemplateDefinitionHeader.zero,
      { TemplateDefinitionData.zero with
        Elements :=
          [.ElementStart
             { startOf [69, 118, 101, 110, 116] with
               AttributeList :=
                 ⟨0, [⟨0x06, 0, nameOf [120, 109, 108, 110, 115],
                       .ValueText ⟨0x05, 0x01, ⟨1, [117]⟩⟩⟩]⟩ },
           .BinXMLCloseStartElementTag 0x02, textA, .BinXMLEndElementTag 0x04] }⟩ }

/-- The fragment holding `xmlnsEvent`. -/
def xmlnsFragment : Fragment Element := ⟨0, FragmentHeader.zero, .TemplateInstance xmlnsEvent⟩

/-- A template definition body of declared size 2, without elements. -/
def internedBody : TemplateDefinitionData Element :=
  { TemplateDefinitionData.zero with Size := 2 }

/-- A chunk whose template table holds `internedBody` at the data offset 10. -/
def internedChunk : Chunk := { NewChunk with TemplateTable := [(10, internedBody)] }

/-- The ten bytes of a template-instance token and header with data offset 10. -/
def instanceHead : List Nat := [0x0c, 1, 0, 0, 0, 0, 10, 0, 0, 0]

/-- The bytes of `instanceHead`, 26 bytes standing for the template body, and
the count of an instance without values. -/
def instanceBytes : List Nat := instanceHead ++ List.replicate 26 0 ++ [0, 0, 0, 0]

/-- Whether an error is an `ErrUnknownToken` that carries a mapped token. -/
def carriesMappedToken : error → Bool
  | some (.ErrUnknownToken b) => decide (b ∈ mappedTokens)
  | _ => false

/-- The entries of a map that may be the nil map, which has none. -/
def mapEntries (pg : Option GoEvtxMap) : GoEvtxMap := pg.getD []

/-- The rendering of a decoded value in the words of the specification: null
for the null value, its canonical representation (`Repr()`) for any other. -/
def valueRendering : Value → GoEvtxElement
  | .ValueNull _ => .nil
  | .UnkVal _ _ _ repr => repr
  | .Known repr => repr

/-- The bytes of instance data with two values: a descriptor of type `BinXmlType`
and one of type `NullType`, both of size 0, followed by the unmapped byte 0x07. -/
def twoValueBytes : List Nat := [2, 0, 0, 0, 0, 0, 0x21, 0, 0, 0, 0, 0, 7]

/-- The bytes of the name `ab`: the prefix with size 2, then `a`, `b` and the
terminating NUL. -/
def nameAbBytes : List Nat := [0, 0, 0, 0, 0, 0, 2, 0, 97, 0, 98, 0, 0, 0]

/-- The `int64` range. -/
def fitsInt64 (x : Int) : Prop := -2 ^ 63 ≤ x ∧ x < 2 ^ 63

/-- No `int64` operation of `FileTime.Convert` overflows on the tick count `t`. -/
def FileTime.noOverflow (t : Int) : Prop :=
  fitsInt64 t ∧ fitsInt64 (t - 116444736000000000)
  ∧ fitsInt64 (FileTime.seconds t * 10000000)
  ∧ fitsInt64 (t - 116444736000000000 - FileTime.seconds t * 10000000)
  ∧ fitsInt64 ((t - 116444736000000000 - FileTime.seconds t * 10000000) * 100)

/-- A 64 KiB chunk buffer with one string slot, pointing to the empty name at
offset 512, and no template. -/
def tablesBuffer : List Nat :=
  chunkHeaderBytes [128, 0, 0, 0] [0, 0, 0, 0] ++ [0, 2, 0, 0] ++ List.replicate 65404 0

/-- The text leaf holding the single character of the given code. -/
def textOf (ch : Nat) : Element := .ValueText ⟨0x05, 0x01, ⟨1, [(ch : Int)]⟩⟩

/-- The node of an element with the given name whose only content is the text
of one character. -/
def namedText (name : List Nat) (ch : Nat) : Node := .mk (some (startOf name)) [textOf ch] []

/-- The node of `<P><A2>a</A2><A>b</A><A>c</A></P>`. -/
def collidingChildren : Node :=
  .mk (some (startOf [80])) []
    [namedText [65, 50] 97, namedText [65] 98, namedText [65] 99]

/-- What the loop over the children of `NodeToGoEvtx` stores for a child whose
map `node` is neither of the `Name` shapes: `node["Value"]` when that is its
only key, the map itself otherwise. -/
def childEntry (node : GoEvtxMap) : GoEvtxElement :=
  if GoEvtxMap.HasKeys node ["Value"] ∧ node.length = 1 then (mapGet node "Value").getD .nil
  else .map node

/-- The map of a child is neither of the shapes with the key `Name` that the
loop over the children treats apart. -/
def noNameShape (node : GoEvtxMap) : Prop :=
  ¬ (GoEvtxMap.HasKeys node ["Name"] ∧ node.length = 1)
  ∧ ¬ (GoEvtxMap.HasKeys node ["Name", "Value"] ∧ node.length = 2)

mutual

/-- The `Start` of every node strictly below a node, parents before children
and children in order. -/
def startsBelow : Node → List (Option (ElementStart Element))
  | .mk _ _ cs => startsBelowAll cs

/-- The `Start` of the nodes of a list and of every node below them. -/
def startsBelowAll : List Node → List (Option (ElementStart Element))
  | [] => []
  | c :: rest => (c.Start :: startsBelow c) ++ startsBelowAll rest

end

/-- The start elements of an element list, in order. -/
def startsOf : List Element → List (ElementStart Element)
  | [] => []
  | .ElementStart s :: rest => s :: startsOf rest
  | _ :: rest => startsOf rest

/-- The element is a `BinXMLCloseStartElementTag`. -/
def isCloseStart : Element → Bool
  | .BinXMLCloseStartElementTag _ => true
  | _ => false

/-- The element is a `BinXMLEndElementTag` or a `BinXMLCloseEmptyElementTag`. -/
def isCloser : Element → Bool
  | .BinXMLEndElementTag _ => true
  | .BinXMLCloseEmptyElementTag _ => true
  | _ => false

/-- The element is none of the structural ones: it goes to the leaf list. -/
def isLeaf : Element → Bool
  | .ElementStart _ => false
  | .BinXMLEndElementTag _ => false
  | .BinXMLCloseEmptyElementTag _ => false
  | .BinXMLCloseStartElementTag _ => false
  | _ => true

/-- The element list without its `BinXMLCloseStartElementTag` elements. -/
def dropCloseStart (es : List Element) : List Element := es.filter (fun e => !isCloseStart e)

/-- Well-nested element lists, with the tree that the open/close matching
describes: `WellNested es n n1` says that `es` is a sequence of leaves,
close-start tokens and groups (a start element, a well-nested sequence, one
closer), and that `n1` is `n` with the leaves appended to its leaf list in
stream order and one child per group appended to its children, the child of a
group having the start element of the group and the leaves and children of its
body. -/
inductive WellNested : List Element → Node → Node → Prop where
  | done (n : Node) : WellNested [] n n
  | leaf (e : Element) (es : List Element) (n n1 : Node) :
      isLeaf e = true → WellNested es (.mk n.Start (n.Element ++ [e]) n.Child) n1 →
      WellNested (e :: es) n n1
  | closeStart (t : Int) (es : List Element) (n n1 : Node) :
      WellNested es n n1 → WellNested (.BinXMLCloseStartElementTag t :: es) n n1
  | group (s : ElementStart Element) (body : List Element) (c : Element) (es : List Element)
      (nn n n1 : Node) :
      WellNested body Node.zero nn → isCloser c = true →
      WellNested es (.mk n.Start n.Element (n.Child ++ [.mk (some s) nn.Element nn.Child])) n1 →
      WellNested (.ElementStart s :: (body ++ c :: es)) n n1

/-- The elements of `<P><X>a</X></P>`. -/
def nestedElements : List Element :=
  [.ElementStart (startOf [80]), .BinXMLCloseStartElementTag 2,
   .ElementStart (startOf [88]), .BinXMLCloseStartElementTag 2, textA,
   .BinXMLEndElementTag 4, .BinXMLEndElementTag 4]

/-- The tree of `<P><X>a</X></P>`. -/
def nestedRoot : Node :=
  .mk none [] [.mk (some (startOf [80])) [] [.mk (some (startOf [88])) [textA] []]]

/-- A path resolves to a nested map. -/
def resolvesToMap (m : GoEvtxMap) (q : List String) : Prop :=
  ∃ p, GoEvtxMap.Get m q = some (.map p)

/-- The map `{a: {b: 1}}`. -/
def nestedMap : GoEvtxMap := [("a", .map [("b", .int 1)])]

/-- Two consecutive event offsets: the 24 bytes at the earlier one decode to a
header that passes `Validate`, and the later one is the earlier one plus the
size of that header, which is at least 24. -/
def nextRecord (data : List Nat) (a b : Int) : Prop :=
  0 ≤ a ∧ a < b ∧
  ∃ eh r1, EventHeader.Unmarshal EventHeader.zero ⟨data, a.toNat⟩ = (eh, none, r1)
    ∧ eh.Validate = none ∧ 24 ≤ eh.Size ∧ b = a + eh.Size

/-- A template instance whose only value is a 32-bit integer slot holding 5. -/
def numberSlotInstance : TemplateInstance Element :=
  { TemplateInstance.zero with
    Data := ⟨1, [⟨4, Int32Type, 0⟩], [.Value (.Known (.int 5))], [0]⟩ }

/-- The node of `<E>%0x</E>`: a normal substitution of slot 0, then the text
leaf `x`. -/
def numberThenTextNode : Node :=
  .mk (some (startOf [69])) [.NormalSubstitution ⟨0x0d, 0, Int32Type⟩, textOf 120] []

/-- The node of `<E><Value/>x</E>`: an empty child element named `Value` and
the text leaf `x`. -/
def valueChildNode : Node :=
  .mk (some (startOf [69])) [textOf 120] [.mk (some (startOf [86, 97, 108, 117, 101])) [] []]

theorem ChunkMagic_prefix_length {l : List Nat} (h : ChunkMagic.isPrefixOf l = true) :
    8 ≤ l.length := by
  have := (List.isPrefixOf_iff_prefix.mp h).length_le
  simpa [ChunkMagic] using this

theorem FindReaderIndex_length (ahead : List Nat → Nat) :
    ∀ (rr : List Nat) (idx : Nat) (loc : Nat × Nat) (rr1 : List Nat),
      FindReaderIndex ahead rr idx = (some loc, rr1) → rr1.length + 8 ≤ rr.length := by
  intro rr
  induction rr with
  | nil => intro idx loc rr1 h; simp [FindReaderIndex] at h
  | cons b rest ih =>
    intro idx loc rr1 h
    unfold FindReaderIndex at h
    split_ifs at h with hp
    · have h8 := ChunkMagic_prefix_length hp
      simp only [Prod.mk.injEq] at h
      rw [← h.2]
      simp only [List.length_drop, List.length_cons] at *
      omega
    · have := ih _ _ _ h
      simp only [List.length_cons]
      omega

theorem Repair_locs_fuel (ahead : List Nat → Nat) :
    ∀ (f1 f2 : Nat) (rr : List Nat), rr.length < f1 → rr.length < f2 →
      Repair.locs ahead f1 rr = Repair.locs ahead f2 rr := by
  intro f1
  induction f1 with
  | zero => intro f2 rr h; omega
  | succ n ih =>
    intro f2 rr h1 h2
    cases f2 with
    | zero => omega
    | succ m =>
      unfold Repair.locs
      cases hf : FindReaderIndex ahead rr 0 with
      | mk o rr1 =>
        cases o with
        | none => simp
        | some loc =>
          have := FindReaderIndex_length ahead rr 0 loc rr1 hf
          simp only
          rw [ih m rr1 (by omega) (by omega)]

theorem Repair_scan_eq (ahead : List Nat → Nat) :
    ∀ (fuel : Nat) (rr : List Nat) (c : Int),
      Repair.scan ahead fuel rr (uint16 c) = uint16 (c + (Repair.locs ahead fuel rr).length) := by
  intro fuel
  induction fuel with
  | zero => intro rr c; simp [Repair.scan, Repair.locs]
  | succ n ih =>
    intro rr c
    unfold Repair.scan Repair.locs
    cases hf : FindReaderIndex ahead rr 0 with
    | mk o rr1 =>
      cases o with
      | none => simp
      | some loc =>
        simp only
        have e : uint16 (uint16 c + 1) = uint16 (c + 1) := by
          unfold uint16; exact Int.emod_add_emod c _ 1
        rw [e, ih rr1 (c + 1)]
        congr 1
        simp only [List.length_cons]
        push_cast
        ring

theorem FileHeader_Repair_eq (ahead : List Nat → Nat) (f : FileHeader) (r : Reader) :
    f.Repair ahead r =
      if f.ChunkCount > uint16 (Repair.found ahead r) then (f, some .ErrRepairFailed)
      else ({ f with ChunkCount := uint16 (Repair.found ahead r),
                     LastChunkNum := uint16 (uint16 (Repair.found ahead r) - 1),
                     Flags := 0 }, none) := by
  have h := Repair_scan_eq ahead ((r.s.drop r.i).length + 1) (r.s.drop r.i) 0
  have z : uint16 0 = 0 := by decide
  rw [z] at h
  simp only [zero_add] at h
  unfold FileHeader.Repair Repair.found
  simp only [h]

theorem FindReaderIndex_marker (ahead : List Nat → Nat) (s : List Nat) (idx : Nat) :
    FindReaderIndex ahead (ChunkMagic ++ s) idx = (some (idx, idx + 8), s.drop (ahead s)) := by
  simp [ChunkMagic, FindReaderIndex, List.isPrefixOf]

theorem FindReaderIndex_skip (ahead : List Nat → Nat) (post : List Nat) :
    ∀ (pre : List Nat) (idx : Nat),
      (∀ j, j < pre.length → ChunkMagic.isPrefixOf ((pre ++ ChunkMagic ++ post).drop j) = false) →
      FindReaderIndex ahead (pre ++ ChunkMagic ++ post) idx
        = (some (idx + pre.length, idx + pre.length + 8), post.drop (ahead post)) := by
  intro pre
  induction pre with
  | nil =>
    intro idx _
    simpa using FindReaderIndex_marker ahead post idx
  | cons b rest ih =>
    intro idx h
    have h0 := h 0 (by simp)
    simp only [List.drop_zero] at h0
    have hrest : ∀ j, j < rest.length →
        ChunkMagic.isPrefixOf ((rest ++ ChunkMagic ++ post).drop j) = false := by
      intro j hj
      have := h (j + 1) (by simp; omega)
      simpa using this
    have e : (b :: rest) ++ ChunkMagic ++ post = b :: (rest ++ ChunkMagic ++ post) := by simp
    rw [e] at h0 ⊢
    rw [FindReaderIndex, h0]
    simp only [Bool.false_eq_true, if_false]
    rw [ih (idx + 1) hrest]
    simp only [List.length_cons, Prod.mk.injEq, Option.some.injEq, and_true]
    omega

theorem markers_length (k : Nat) : (markers k).length = 8 * k := by
  induction k with
  | zero => rfl
  | succ n ih => simp [markers, ih, ChunkMagic]; omega

theorem FindReaderIndex_short (ahead : List Nat → Nat) (rr : List Nat) (idx : Nat)
    (h : rr.length < 8) : FindReaderIndex ahead rr idx = (none, []) := by
  induction rr generalizing idx with
  | nil => rfl
  | cons b rest ih =>
    rw [FindReaderIndex]
    have hp : ChunkMagic.isPrefixOf (b :: rest) = false := by
      cases hq : ChunkMagic.isPrefixOf (b :: rest) with
      | false => rfl
      | true => have := ChunkMagic_prefix_length hq; omega
    rw [hp]
    simp only [Bool.false_eq_true, if_false]
    exact ih (idx + 1) (by simp only [List.length_cons] at h; omega)

theorem Repair_found_step (ahead : List Nat → Nat) (r : Reader) (pre post : List Nat)
    (hr : r.s.drop r.i = pre ++ ChunkMagic ++ post)
    (hpre : ∀ j, j < pre.length →
      ChunkMagic.isPrefixOf ((pre ++ ChunkMagic ++ post).drop j) = false) :
    Repair.found ahead r = Repair.found ahead ⟨post.drop (ahead post), 0⟩ + 1 := by
  unfold Repair.found
  rw [hr]
  simp only [List.drop_zero]
  rw [Repair.locs, FindReaderIndex_skip ahead post pre 0 hpre]
  simp only [List.length_cons, add_left_inj]
  rw [Repair_locs_fuel ahead _ ((post.drop (ahead post)).length + 1) _ _ (by omega)]
  have h8 : ChunkMagic.length = 8 := rfl
  simp only [List.length_append, List.length_drop, h8]
  omega

theorem runeWidth_le (bs : List Nat) : runeWidth bs ≤ 4 := by
  unfold runeWidth
  repeat' split
  all_goals omega

theorem runesAhead_le : ∀ (n : Nat) (bs : List Nat), runesAhead n bs ≤ 4 * n
  | 0, _ => by simp [runesAhead]
  | n + 1, bs => by
    rw [runesAhead]
    have h1 := runeWidth_le bs
    have h2 := runesAhead_le n (bs.drop (runeWidth bs))
    split <;> omega

theorem regexpAhead_le (post : List Nat) : regexpAhead post ≤ 12 := by
  have := runesAhead_le 3 post
  unfold regexpAhead
  omega

theorem zeros_no_marker (j : Nat) (rest : List Nat) :
    ∀ i, i < (List.replicate j 0).length →
      ChunkMagic.isPrefixOf ((List.replicate j 0 ++ ChunkMagic ++ rest).drop i) = false := by
  intro i hi
  rw [List.length_replicate] at hi
  have e : (List.replicate j 0 ++ ChunkMagic ++ rest).drop i
      = 0 :: (List.replicate (j - i - 1) 0 ++ ChunkMagic ++ rest) := by
    rw [List.append_assoc, List.drop_append_of_le_length (by simp; omega), List.drop_replicate]
    have : j - i = (j - i - 1) + 1 := by omega
    rw [this, List.replicate_succ]
    simp
  rw [e]
  rfl

theorem Repair_found_zeros (ahead : List Nat → Nat) (j : Nat) :
    Repair.found ahead ⟨List.replicate j 0, 0⟩ = 0 := by
  unfold Repair.found
  simp only [List.drop_zero]
  rw [Repair.locs]
  have hz : ∀ (j idx : Nat), FindReaderIndex ahead (List.replicate j 0) idx = (none, []) := by
    intro j
    induction j with
    | zero => intro idx; rfl
    | succ n ih =>
      intro idx
      rw [List.replicate_succ, FindReaderIndex]
      have : ChunkMagic.isPrefixOf (0 :: List.replicate n 0) = false := rfl
      rw [this]
      simp only [Bool.false_eq_true, if_false]
      exact ih (idx + 1)
  rw [hz]
  rfl

theorem Repair_found_spaced (ahead : List Nat → Nat) (hahead : ∀ post, ahead post ≤ 12) :
    ∀ (k j : Nat), Repair.found ahead ⟨List.replicate j 0 ++ spacedMarkers k, 0⟩ = k := by
  intro k
  induction k with
  | zero =>
    intro j
    simp only [spacedMarkers, List.append_nil]
    exact Repair_found_zeros ahead j
  | succ n ih =>
    intro j
    have hr : (⟨List.replicate j 0 ++ spacedMarkers (n + 1), 0⟩ : Reader).s.drop 0
        = List.replicate j 0 ++ ChunkMagic ++ (List.replicate 12 0 ++ spacedMarkers n) := by
      simp [spacedMarkers]
    rw [Repair_found_step ahead _ (List.replicate j 0) _ hr (zeros_no_marker j _)]
    have ha := hahead (List.replicate 12 0 ++ spacedMarkers n)
    have hd : (List.replicate 12 0 ++ spacedMarkers n).drop
          (ahead (List.replicate 12 0 ++ spacedMarkers n))
        = List.replicate (12 - ahead (List.replicate 12 0 ++ spacedMarkers n)) 0
            ++ spacedMarkers n := by
      rw [List.drop_append_of_le_length (by rw [List.length_replicate]; exact ha),
        List.drop_replicate]
    rw [hd, ih]

theorem Repair_found_spacedMarkers (ahead : List Nat → Nat) (hahead : ∀ post, ahead post ≤ 12)
    (k : Nat) : Repair.found ahead ⟨spacedMarkers k, 0⟩ = k := by
  have := Repair_found_spaced ahead hahead k 0
  simpa using this

/-- Claim C7 fails when the counter wraps: with 65536 markers, twelve zero
bytes after each so that the scan finds every one, and a stored count of 3,
`Repair` returns `ErrRepairFailed` and leaves the header as it was; and with no
marker and a stored count of 0 it leaves `LastChunkNum` 65535. -/
theorem C7_counter_wraps :
    (Repair.found regexpAhead ⟨spacedMarkers 65536, 0⟩ = 65536
      ∧ stored3.ChunkCount ≤ 65536
      ∧ stored3.Repair regexpAhead ⟨spacedMarkers 65536, 0⟩ = (stored3, some .ErrRepairFailed))
    ∧ (Repair.found regexpAhead ⟨[], 0⟩ = 0
      ∧ stored0.ChunkCount ≤ 0
      ∧ (stored0.Repair regexpAhead ⟨[], 0⟩).1.LastChunkNum = 65535) := by
  refine ⟨⟨Repair_found_spacedMarkers regexpAhead regexpAhead_le 65536, by decide, ?_⟩,
    by decide, by decide, by decide⟩
  rw [FileHeader_Repair_eq, Repair_found_spacedMarkers regexpAhead regexpAhead_le]
  decide

theorem FileHeader_Repair_mod (ahead : List Nat → Nat) (f : FileHeader) (r : Reader) (n : Nat)
    (hn : n = Repair.found ahead r) (h1 : 1 ≤ n % 65536)
    (h2 : f.ChunkCount ≤ ((n % 65536 : Nat) : Int)) :
    f.Repair ahead r =
      ({ f with ChunkCount := ((n % 65536 : Nat) : Int),
                LastChunkNum := ((n % 65536 : Nat) : Int) - 1,
                Flags := 0 }, none) := by
  subst hn
  have hu : uint16 (Repair.found ahead r) = ((Repair.found ahead r % 65536 : Nat) : Int) := by
    unfold uint16; push_cast; norm_num
  have hl : uint16 (((Repair.found ahead r % 65536 : Nat) : Int) - 1)
      = ((Repair.found ahead r % 65536 : Nat) : Int) - 1 := by
    unfold uint16
    apply Int.emod_eq_of_lt <;> omega
  rw [FileHeader_Repair_eq, hu, if_neg (by omega), hl]

/-- Claim C7, as the code behaves: `ChunkCount` is a `uint16` and
`LastChunkNum` is unsigned, so for a number n of markers found by the scan with
1 ≤ n ≤ 65535 and n at least the stored `ChunkCount`, `Repair` succeeds and
leaves `ChunkCount` n, `LastChunkNum` n - 1 and `Flags` 0, every other field
unchanged. -/
theorem C7_repair (ahead : List Nat → Nat) (f : FileHeader) (r : Reader) (n : Nat)
    (hn : n = Repair.found ahead r) (h1 : 1 ≤ n) (h65 : n ≤ 65535)
    (h2 : f.ChunkCount ≤ (n : Int)) :
    f.Repair ahead r =
      ({ f with ChunkCount := (n : Int), LastChunkNum := (n : Int) - 1, Flags := 0 }, none) := by
  have hm : n % 65536 = n := Nat.mod_eq_of_lt (by omega)
  have := FileHeader_Repair_mod ahead f r n hn (by omega) (by rw [hm]; exact h2)
  rw [hm] at this
  exact this

/-- Claim C7, the case of the specification: stored 3 and five markers, twelve
zero bytes after each, so that the scan counts 5, give `ChunkCount` 5,
`LastChunkNum` 4 and `Flags` 0. -/
theorem C7_repair_witness :
    stored3.Repair regexpAhead ⟨spacedMarkers 5, 0⟩ =
      ({ stored3 with ChunkCount := 5, LastChunkNum := 4, Flags := 0 }, none) :=
  C7_repair regexpAhead stored3 ⟨spacedMarkers 5, 0⟩ 5
    (Repair_found_spacedMarkers regexpAhead regexpAhead_le 5).symm (by decide) (by decide)
    (by decide)

/-- The scan on five markers in a row, with the read-ahead of the `regexp`
package: the three runes read past a match hide the next marker, so three
markers are found. -/
theorem Repair_adjacent_markers :
    Repair.found regexpAhead ⟨markers 5, 0⟩ = 3
    ∧ stored3.Repair regexpAhead ⟨markers 5, 0⟩ =
      ({ stored3 with ChunkCount := 3, LastChunkNum := 2, Flags := 0 }, none) := by
  decide

/-- Claim C8: when the number of markers found is strictly less than the
stored `ChunkCount` (a `uint16`, hence below 65536), `Repair` returns
`ErrRepairFailed` and the header is returned unchanged. -/
theorem C8_repair_fails (ahead : List Nat → Nat) (f : FileHeader) (r : Reader)
    (hc : f.ChunkCount < 65536) (h : (Repair.found ahead r : Int) < f.ChunkCount) :
    f.Repair ahead r = (f, some .ErrRepairFailed) := by
  have hu : uint16 (Repair.found ahead r) = (Repair.found ahead r : Int) := by
    unfold uint16
    apply Int.emod_eq_of_lt <;> omega
  rw [FileHeader_Repair_eq, hu, if_pos (by omega)]

/-- Claim C8 at a stored count of 3 and a stream with one marker. -/
theorem C8_repair_fails_witness :
    stored3.Repair regexpAhead ⟨markers 1, 0⟩ = (stored3, some .ErrRepairFailed) :=
  C8_repair_fails regexpAhead stored3 ⟨markers 1, 0⟩ (by decide) (by decide)

/-- Claim C10: `EventHeader.Validate` returns nil if and only if the magic is
2a 2a 00 00 and 24 ≤ Size < 0x10000, and every other header yields an error. -/
theorem C10_validate_nil_iff (h : EventHeader) :
    (h.Validate = none ↔ h.Magic = [0x2a, 0x2a, 0x00, 0x00] ∧ 24 ≤ h.Size ∧ h.Size < 0x10000)
    ∧ (¬ (h.Magic = [0x2a, 0x2a, 0x00, 0x00] ∧ 24 ≤ h.Size ∧ h.Size < 0x10000) →
        ∃ e, h.Validate = some e) := by
  have key : h.Validate = none ↔
      h.Magic = [0x2a, 0x2a, 0x00, 0x00] ∧ 24 ≤ h.Size ∧ h.Size < 0x10000 := by
    unfold EventHeader.Validate EventMagic ChunkSize EventHeaderSize
    split_ifs <;> simp_all
  refine ⟨key, fun hn => ?_⟩
  cases hv : h.Validate with
  | none => exact absurd (key.mp hv) hn
  | some e => exact ⟨e, rfl⟩

/-- Claim C6 fails for `Flags` 3: the magic is right and bit 0 of `Flags` is
set, yet `Verify` returns nil. -/
theorem C6_flags_three_not_dirty :
    dirtyFull.Magic = FileMagic ∧ dirtyFull.Flags % 2 = 1 ∧ dirtyFull.Verify = none := by
  decide

/-- Claim C6, as the code behaves: with the magic `ElfFile\0`, `Verify`
returns `ErrDirtyFile` exactly when `Flags` equals 1 and nil for every other
value of `Flags`; with any other magic it returns `ErrCorruptedHeader`. -/
theorem C6_verify (f : FileHeader) :
    (f.Magic = FileMagic →
      (f.Verify = some .ErrDirtyFile ↔ f.Flags = 1) ∧ (f.Flags ≠ 1 → f.Verify = none))
    ∧ (f.Magic ≠ FileMagic → f.Verify = some .ErrCorruptedHeader) := by
  unfold FileHeader.Verify
  constructor
  · intro hm
    by_cases h1 : f.Flags = 1 <;> simp [hm, h1]
  · intro hm
    simp [hm]
/-- Claim C9 fails: position 131 is not chunk-aligned for a header with
`ChunkDataOffset` 128, and writing the marker bytes at 131 into a stream of
zeros changes the `ChunkCount` left by `Repair` from 0 to 1, however far the
scanner reads ahead. -/
theorem C9_unaligned_marker_counted :
    ¬ chunkAligned stored0 131
    ∧ (∀ ahead, (stored0.Repair ahead ⟨quietFile, 128⟩).1.ChunkCount = 0)
    ∧ (∀ ahead, (stored0.Repair ahead ⟨writeAt quietFile 131 ChunkMagic, 128⟩).1.ChunkCount = 1) := by
  refine ⟨?_, ?_, ?_⟩
  · rintro ⟨k, hk⟩
    simp only [stored0, ChunkSize] at hk
    omega
  · intro ahead
    have hf : Repair.found ahead ⟨quietFile, 128⟩ = 0 := by
      unfold Repair.found
      have : (⟨quietFile, 128⟩ : Reader).s.drop 128 = List.replicate 11 0 := by decide
      simp only [this]
      rw [Repair.locs]
      have hz : FindReaderIndex ahead (List.replicate 11 0) 0 = (none, []) := by
        simp [FindReaderIndex, List.replicate, ChunkMagic, List.isPrefixOf]
      rw [hz]
      rfl
    rw [FileHeader_Repair_eq, hf]
    decide
  · intro ahead
    have hf : Repair.found ahead ⟨writeAt quietFile 131 ChunkMagic, 128⟩ = 1 := by
      rw [Repair_found_step ahead _ [0, 0, 0] [] (by decide) (by decide)]
      simp [Repair.found, Repair.locs, FindReaderIndex]
    rw [FileHeader_Repair_eq, hf]
    decide

/-- Claim C9, as the code behaves: `Repair` takes no account of the position
of a marker. The scan finds the leftmost occurrence of the marker bytes in the
unread stream wherever it starts, chunk-aligned or not, counts it, and goes on
from where the reader of the regular expression stopped, three runes (at most
twelve bytes) past the occurrence: the number of markers found is one more than
the number found in the stream after those bytes, and that number (as a
`uint16`) becomes the `ChunkCount` when it is at least the stored one. Five
markers in a row count as three. -/
theorem C9_every_marker_counted (f : FileHeader) (r : Reader)
    (pre post : List Nat)
    (hr : r.s.drop r.i = pre ++ ChunkMagic ++ post)
    (hpre : ∀ j, j < pre.length →
      ChunkMagic.isPrefixOf ((pre ++ ChunkMagic ++ post).drop j) = false) :
    Repair.found regexpAhead r = Repair.found regexpAhead ⟨post.drop (regexpAhead post), 0⟩ + 1
    ∧ regexpAhead post ≤ 12
    ∧ (f.ChunkCount ≤ uint16 (Repair.found regexpAhead ⟨post.drop (regexpAhead post), 0⟩ + 1) →
        (f.Repair regexpAhead r).1.ChunkCount
          = uint16 (Repair.found regexpAhead ⟨post.drop (regexpAhead post), 0⟩ + 1))
    ∧ Repair.found regexpAhead ⟨markers 5, 0⟩ = 3 := by
  have hs := Repair_found_step regexpAhead r pre post hr hpre
  refine ⟨hs, regexpAhead_le post, fun hle => ?_, by decide⟩
  rw [FileHeader_Repair_eq, hs]
  push_cast
  rw [if_neg (by omega)]

/-- Claim C9, the behaviour of the code at the file of zeros with the marker
at the unaligned positions 131 and 145: both are counted. -/
theorem C9_every_marker_counted_witness :
    Repair.found regexpAhead ⟨twoMarkerFile, 128⟩ = 2
    ∧ (Repair.found regexpAhead ⟨twoMarkerFile, 128⟩
        = Repair.found regexpAhead
            ⟨([0, 0, 0, 0, 0, 0] ++ ChunkMagic ++ [0, 0, 0]).drop
              (regexpAhead ([0, 0, 0, 0, 0, 0] ++ ChunkMagic ++ [0, 0, 0])), 0⟩ + 1
      ∧ regexpAhead ([0, 0, 0, 0, 0, 0] ++ ChunkMagic ++ [0, 0, 0]) ≤ 12
      ∧ (stored0.ChunkCount ≤ uint16 (Repair.found regexpAhead
            ⟨([0, 0, 0, 0, 0, 0] ++ ChunkMagic ++ [0, 0, 0]).drop
              (regexpAhead ([0, 0, 0, 0, 0, 0] ++ ChunkMagic ++ [0, 0, 0])), 0⟩ + 1) →
          (stored0.Repair regexpAhead ⟨twoMarkerFile, 128⟩).1.ChunkCount
            = uint16 (Repair.found regexpAhead
                ⟨([0, 0, 0, 0, 0, 0] ++ ChunkMagic ++ [0, 0, 0]).drop
                  (regexpAhead ([0, 0, 0, 0, 0, 0] ++ ChunkMagic ++ [0, 0, 0])), 0⟩ + 1))
      ∧ Repair.found regexpAhead ⟨markers 5, 0⟩ = 3) :=
  ⟨by decide,
    C9_every_marker_counted stored0 ⟨twoMarkerFile, 128⟩ [0, 0, 0]
      ([0, 0, 0, 0, 0, 0] ++ ChunkMagic ++ [0, 0, 0]) (by decide) (by decide)⟩

theorem tup_eq {α β γ : Type} {x : α × β × γ} {a : α} {b : β} {c : γ} :
    x = (a, b, c) ↔ a = x.1 ∧ b = x.2.1 ∧ c = x.2.2 := by
  obtain ⟨x1, x2, x3⟩ := x
  simp only [Prod.mk.injEq]
  constructor
  · rintro ⟨rfl, rfl, rfl⟩; exact ⟨rfl, rfl, rfl⟩
  · rintro ⟨rfl, rfl, rfl⟩; exact ⟨rfl, rfl, rfl⟩

@[simp] theorem ReadFull_s (r : Reader) (n : Nat) : (ReadFull r n).2.s = r.s := by
  unfold ReadFull
  simp only
  split_ifs <;> rfl

@[simp] theorem UnmarshalU_s (w : Nat) (old : Int) (r : Reader) :
    (UnmarshalU w old r).2.2.s = r.s := by
  unfold UnmarshalU
  have := ReadFull_s r w
  split <;> simp_all

@[simp] theorem UnmarshalS_s (w : Nat) (old : Int) (r : Reader) :
    (UnmarshalS w old r).2.2.s = r.s := by
  unfold UnmarshalS
  have := ReadFull_s r w
  split <;> simp_all

@[simp] theorem GoToSeeker_s (r : Reader) (o : Int) : (GoToSeeker r o).s = r.s := by
  unfold GoToSeeker; split_ifs <;> rfl

@[simp] theorem RelGoToSeeker_s (r : Reader) (o : Int) : (RelGoToSeeker r o).s = r.s := by
  unfold RelGoToSeeker; split_ifs <;> rfl

@[simp] theorem unmarshalElems_s {α : Type} (um : α → Reader → α × error × Reader)
    (hum : ∀ x r, (um x r).2.2.s = r.s) (l : List α) (r : Reader) :
    (unmarshalElems um l r).2.2.s = r.s := by
  induction l generalizing r with
  | nil => rfl
  | cons x rest ih =>
    unfold unmarshalElems
    repeat' split
    all_goals simp_all [tup_eq]

@[simp] theorem UnmarshaInitSlice_s {α : Type} (um : α → Reader → α × error × Reader)
    (hum : ∀ x r, (um x r).2.2.s = r.s) (l : List α) (r : Reader) :
    (UnmarshaInitSlice um l r).2.2.s = r.s := by
  unfold UnmarshaInitSlice
  split_ifs
  · rfl
  · exact unmarshalElems_s um hum l r

@[simp] theorem Name_Parse_s (n : Name) (r : Reader) : (Name.Parse n r).2.2.s = r.s := by
  unfold Name.Parse
  repeat' split
  all_goals simp_all [tup_eq]

@[simp] theorem unmarshalArray_s (l : List Nat) (r : Reader) :
    (unmarshalArray l r).2.2.s = r.s := by
  induction l generalizing r with
  | nil => rfl
  | cons x rest ih =>
    unfold unmarshalArray
    repeat' split
    all_goals simp_all [tup_eq]

@[simp] theorem FragmentHeader_Unmarshal_s (fh : FragmentHeader) (r : Reader) :
    (FragmentHeader.Unmarshal fh r).2.2.s = r.s := by
  unfold FragmentHeader.Unmarshal
  repeat' split
  all_goals simp_all [tup_eq]

@[simp] theorem FragmentHeader_Parse_s (fh : FragmentHeader) (r : Reader) :
    (FragmentHeader.Parse fh r).2.2.s = r.s := by
  unfold FragmentHeader.Parse
  repeat' split
  all_goals simp_all [tup_eq]

@[simp] theorem NormalSubstitution_Parse_s (n : NormalSubstitution) (r : Reader) :
    (NormalSubstitution.Parse n r).2.2.s = r.s := by
  unfold NormalSubstitution.Parse
  repeat' split
  all_goals simp_all [tup_eq]

@[simp] theorem CharEntityRef_Parse_s (c : CharEntityRef) (r : Reader) :
    (CharEntityRef.Parse c r).2.2.s = r.s := by
  unfold CharEntityRef.Parse
  repeat' split
  all_goals simp_all [tup_eq]

@[simp] theorem UnicodeTextString_Parse_s (u : UnicodeTextString) (r : Reader) :
    (UnicodeTextString.Parse u r).2.2.s = r.s := by
  unfold UnicodeTextString.Parse
  repeat' split
  all_goals simp_all [tup_eq]

@[simp] theorem ValueText_Parse_s (vt : ValueText) (r : Reader) :
    (ValueText.Parse vt r).2.2.s = r.s := by
  unfold ValueText.Parse
  repeat' split
  all_goals simp_all [tup_eq]

@[simp] theorem TemplateDefinitionHeader_Parse_s (h : TemplateDefinitionHeader) (r : Reader) :
    (TemplateDefinitionHeader.Parse h r).2.2.s = r.s := by
  unfold TemplateDefinitionHeader.Parse
  repeat' split
  all_goals simp_all [tup_eq]

@[simp] theorem BinXMLEntityReference_Parse_s (x : BinXMLEntityReference) (r : Reader) :
    (BinXMLEntityReference.Parse x r).2.2.s = r.s := by
  unfold BinXMLEntityReference.Parse
  repeat' split
  all_goals simp_all [tup_eq]

@[simp] theorem Token_Parse_s (t : Int) (r : Reader) : (Token.Parse t r).2.2.s = r.s := by
  unfold Token.Parse
  simp

@[simp] theorem ValueDescriptor_Unmarshal_s (vd : ValueDescriptor) (r : Reader) :
    (ValueDescriptor.Unmarshal vd r).2.2.s = r.s := by
  unfold ValueDescriptor.Unmarshal
  repeat' split
  all_goals simp_all [tup_eq]

@[simp] theorem StringAt_s (r : Reader) (o : Int) : (StringAt r o).2.2.s = r.s := by
  unfold StringAt
  repeat' split
  all_goals simp_all [tup_eq]

@[simp] theorem Fragment_Parse_s (f : Fragment Element) (r : Reader) :
    (Fragment.Parse f r).2.2.s = r.s := by
  unfold Fragment.Parse
  repeat' split
  all_goals simp_all [tup_eq]

@[simp] theorem TemplateInstance_DataOffset_s (r : Reader) :
    (TemplateInstance.DataOffset r).2.2.s = r.s := by
  unfold TemplateInstance.DataOffset
  repeat' split
  all_goals simp_all [tup_eq]

@[simp] theorem TemplateInstance_ParseTemplateDefinitionHeader_s
    (ti : TemplateInstance Element) (r : Reader) :
    (TemplateInstance.ParseTemplateDefinitionHeader ti r).2.2.s = r.s := by
  unfold TemplateInstance.ParseTemplateDefinitionHeader
  repeat' split
  all_goals simp_all [tup_eq]

@[simp] theorem EventHeader_Unmarshal_s (eh : EventHeader) (r : Reader) :
    (EventHeader.Unmarshal eh r).2.2.s = r.s := by
  unfold EventHeader.Unmarshal
  repeat' split
  all_goals simp_all [tup_eq]

@[simp] theorem ChunkHeader_Unmarshal_s (h : ChunkHeader) (r : Reader) :
    (ChunkHeader.Unmarshal h r).2.2.s = r.s := by
  unfold ChunkHeader.Unmarshal
  repeat' split
  all_goals simp_all [tup_eq]

theorem Parse_fragmentLoop_step (vk : ValueKinds) (n : Nat)
    (i1 : ∀ r c ti res, Evtx.Parse vk n r c ti = some res → res.2.2.1.s = r.s)
    (i2 : ∀ el r c ti res, Parse.fragmentLoop vk n el r c ti = some res → res.2.2.1.s = r.s) :
    ∀ el r c ti res, Parse.fragmentLoop vk (n + 1) el r c ti = some res → res.2.2.1.s = r.s := by
  intro el r c ti res h
  rw [Parse.fragmentLoop] at h
  try dsimp only at h
  repeat' split at h
  all_goals try cases h
  all_goals try have hA := i1 _ _ _ _ (by assumption)
  all_goals try have hB := i2 _ _ _ _ _ (by assumption)
  all_goals simp_all [tup_eq]

theorem AttributeList_Parse_step (vk : ValueKinds) (n : Nat)
    (i5 : ∀ acc r res, AttributeList.ParseAttributes vk n acc r = some res → res.2.2.s = r.s) :
    ∀ al r res, AttributeList.Parse vk (n + 1) al r = some res → res.2.2.s = r.s := by
  intro al r res h
  rw [AttributeList.Parse] at h
  try dsimp only at h
  repeat' split at h
  all_goals try cases h
  all_goals try have hA := i5 _ _ _ (by assumption)
  all_goals simp_all [tup_eq]

theorem AttributeList_ParseAttributes_step (vk : ValueKinds) (n : Nat)
    (i5 : ∀ acc r res, AttributeList.ParseAttributes vk n acc r = some res → res.2.2.s = r.s)
    (i6 : ∀ a r res, Attribute.Parse vk n a r = some res → res.2.2.s = r.s) :
    ∀ acc r res, AttributeList.ParseAttributes vk (n + 1) acc r = some res →
      res.2.2.s = r.s := by
  intro acc r res h
  rw [AttributeList.ParseAttributes] at h
  try dsimp only at h
  repeat' split at h
  all_goals try cases h
  all_goals try have hA := i5 _ _ _ (by assumption)
  all_goals try have hB := i6 _ _ _ (by assumption)
  all_goals simp_all [tup_eq]

theorem Attribute_Parse_step (vk : ValueKinds) (n : Nat)
    (i1 : ∀ r c ti res, Evtx.Parse vk n r c ti = some res → res.2.2.1.s = r.s) :
    ∀ a r res, Attribute.Parse vk (n + 1) a r = some res → res.2.2.s = r.s := by
  intro a r res h
  rw [Attribute.Parse] at h
  try dsimp only at h
  repeat' split at h
  all_goals try cases h
  all_goals try have hA := i1 _ _ _ _ (by assumption)
  all_goals simp_all [tup_eq]

theorem TemplateInstance_Parse_step (vk : ValueKinds) (n : Nat)
    (i8 : ∀ td r res, TemplateDefinition.Parse vk n td r = some res → res.2.2.s = r.s)
    (i11 : ∀ d r res, TemplateInstanceData.Parse vk n d r = some res → res.2.2.s = r.s) :
    ∀ ti r res, TemplateInstance.Parse vk (n + 1) ti r = some res → res.2.2.s = r.s := by
  intro ti r res h
  rw [TemplateInstance.Parse] at h
  try dsimp only at h
  repeat' split at h
  all_goals try cases h
  all_goals try have hA := i8 _ _ _ (by assumption)
  all_goals try have hB := i11 _ _ _ (by assumption)
  all_goals simp_all [tup_eq]

theorem TemplateDefinition_Parse_step (vk : ValueKinds) (n : Nat)
    (i9 : ∀ td r res, TemplateDefinitionData.Parse vk n td r = some res → res.2.2.s = r.s) :
    ∀ td r res, TemplateDefinition.Parse vk (n + 1) td r = some res → res.2.2.s = r.s := by
  intro td r res h
  rw [TemplateDefinition.Parse] at h
  try dsimp only at h
  repeat' split at h
  all_goals try cases h
  all_goals try have hA := i9 _ _ _ (by assumption)
  all_goals simp_all [tup_eq]
  all_goals (split_ifs <;> simp_all [tup_eq])

theorem TemplateDefinitionData_Parse_step (vk : ValueKinds) (n : Nat)
    (i10 : ∀ el r res, TemplateDefinitionData.elements vk n el r = some res → res.2.2.s = r.s) :
    ∀ td r res, TemplateDefinitionData.Parse vk (n + 1) td r = some res → res.2.2.s = r.s := by
  intro td r res h
  rw [TemplateDefinitionData.Parse] at h
  try dsimp only at h
  repeat' split at h
  all_goals try cases h
  all_goals try have hA := i10 _ _ _ (by assumption)
  all_goals simp_all [tup_eq]

theorem TemplateDefinitionData_elements_step (vk : ValueKinds) (n : Nat)
    (i1 : ∀ r c ti res, Evtx.Parse vk n r c ti = some res → res.2.2.1.s = r.s)
    (i10 : ∀ el r res, TemplateDefinitionData.elements vk n el r = some res → res.2.2.s = r.s) :
    ∀ el r res, TemplateDefinitionData.elements vk (n + 1) el r = some res →
      res.2.2.s = r.s := by
  intro el r res h
  rw [TemplateDefinitionData.elements] at h
  try dsimp only at h
  repeat' split at h
  all_goals try cases h
  all_goals try have hA := i1 _ _ _ _ (by assumption)
  all_goals try have hB := i10 _ _ _ (by assumption)
  all_goals simp_all [tup_eq]

theorem TemplateInstanceData_Parse_step (vk : ValueKinds) (n : Nat)
    (i12 : ∀ ds r e res, TemplateInstanceData.values vk n ds r e = some res → res.2.2.s = r.s) :
    ∀ d r res, TemplateInstanceData.Parse vk (n + 1) d r = some res → res.2.2.s = r.s := by
  intro d r res h
  rw [TemplateInstanceData.Parse] at h
  try dsimp only at h
  repeat' split at h
  all_goals try cases h
  all_goals try have hA := i12 _ _ _ _ (by assumption)
  all_goals simp_all [tup_eq]
  all_goals (split_ifs <;> simp_all [tup_eq])

theorem TemplateInstanceData_values_step (vk : ValueKinds) (n : Nat)
    (i12 : ∀ ds r e res, TemplateInstanceData.values vk n ds r e = some res → res.2.2.s = r.s)
    (i13 : ∀ vd r res, ParseValueReader vk n vd r = some res → res.2.2.s = r.s) :
    ∀ ds r e res, TemplateInstanceData.values vk (n + 1) ds r e = some res →
      res.2.2.s = r.s := by
  intro ds r e res h
  cases ds with
  | nil =>
    rw [TemplateInstanceData.values] at h
    cases h
    rfl
  | cons vd rest =>
    rw [TemplateInstanceData.values] at h
    try dsimp only at h
    repeat' split at h
    all_goals try cases h
    all_goals try have hA := i12 _ _ _ _ (by assumption)
    all_goals try have hB := i13 _ _ _ (by assumption)
    all_goals simp_all [tup_eq]

theorem ParseValueReader_step (vk : ValueKinds) (n : Nat)
    (i1 : ∀ r c ti res, Evtx.Parse vk n r c ti = some res → res.2.2.1.s = r.s) :
    ∀ vd r res, ParseValueReader vk (n + 1) vd r = some res → res.2.2.s = r.s := by
  intro vd r res h
  rw [ParseValueReader] at h
  try dsimp only at h
  repeat' split at h
  all_goals try cases h
  all_goals try have hA := i1 _ _ _ _ (by assumption)
  all_goals simp_all [tup_eq]

theorem ElementStart_Parse_step (vk : ValueKinds) (n : Nat)
    (i4 : ∀ al r res, AttributeList.Parse vk n al r = some res → res.2.2.s = r.s) :
    ∀ es r res, ElementStart.Parse vk (n + 1) es r = some res → res.2.2.s = r.s := by
  intro es r res h
  rw [ElementStart.Parse] at h
  dsimp only at h
  generalize hx : UnmarshalS _ _ _ = x at h
  have h1 : x.2.2.s = r.s := by rw [← hx]; exact UnmarshalS_s _ _ _
  obtain ⟨t, e, r1⟩ := x
  cases e with
  | some e => cases h; exact h1
  | none =>
  dsimp only at h h1
  generalize hx2 : (if es.IsTemplateInstance = true then _ else _) = x at h
  have h2 : x.2.2.s = r1.s := by rw [← hx2]; split_ifs <;> simp
  obtain ⟨d, e, r2⟩ := x
  cases e with
  | some e => cases h; simp_all
  | none =>
  dsimp only at h h2
  generalize hx3 : UnmarshalS _ _ _ = x at h
  have h3 : x.2.2.s = r2.s := by rw [← hx3]; exact UnmarshalS_s _ _ _
  obtain ⟨sz, e, r3⟩ := x
  cases e with
  | some e => cases h; simp_all
  | none =>
  dsimp only at h h3
  generalize hx4 : UnmarshalS _ _ _ = x at h
  have h4 : x.2.2.s = r3.s := by rw [← hx4]; exact UnmarshalS_s _ _ _
  obtain ⟨no, e, r4⟩ := x
  cases e with
  | some e => cases h; simp_all
  | none =>
  dsimp only at h h4
  generalize hx5 : Name.Parse _ _ = x at h
  have h5 : x.2.2.s = r4.s := by rw [← hx5]; split_ifs <;> simp
  obtain ⟨nm, e, r5⟩ := x
  cases e with
  | some e => cases h; simp_all
  | none =>
  dsimp only at h h5
  generalize hx6 : (if t = TokenOpenStartElementTag2 then _ else _) = x at h
  cases x with
  | none => simp at h
  | some y =>
  obtain ⟨al, e, r7⟩ := y
  have h6 : r7.s = r5.s := by
    split_ifs at hx6
    · have := i4 _ _ _ hx6; simp_all
    · have := i4 _ _ _ hx6; simp_all
    · cases hx6; simp
    · cases hx6; simp
  cases e with
  | some e => cases h; simp_all
  | none =>
  dsimp only at h
  generalize hx8 : UnmarshalU _ _ _ = x at h
  have h8 : x.2.2.s = r7.s := by rw [← hx8]; exact UnmarshalU_s _ _ _
  obtain ⟨tok, e, r8⟩ := x
  cases e with
  | some e => cases h; simp_all
  | none =>
  dsimp only at h h8
  split_ifs at h <;> cases h <;> simp_all

theorem Parse_templateInstanceCase_s
    (tip : TemplateInstance Element → Reader →
      Option (TemplateInstance Element × error × Reader))
    (idp : TemplateInstanceData Element → Reader →
      Option (TemplateInstanceData Element × error × Reader))
    (h1 : ∀ ti r res, tip ti r = some res → res.2.2.s = r.s)
    (h2 : ∀ d r res, idp d r = some res → res.2.2.s = r.s) :
    ∀ r c res, Parse.templateInstanceCase tip idp r c = some res → res.2.2.1.s = r.s := by
  intro r c res h
  unfold Parse.templateInstanceCase at h
  dsimp only at h
  repeat' split at h
  all_goals try cases h
  all_goals try have hA := h1 _ _ _ (by assumption)
  all_goals try have hB := h2 _ _ _ (by assumption)
  all_goals clear h1 h2
  all_goals simp_all [tup_eq]
  all_goals (split_ifs at hB <;> simp_all [tup_eq])

set_option maxHeartbeats 2000000 in
theorem Parse_step (vk : ValueKinds) (n : Nat)
    (i1 : ∀ r c ti res, Parse vk n r c ti = some res → res.2.2.1.s = r.s)
    (i2 : ∀ el r c ti res, Parse.fragmentLoop vk n el r c ti = some res → res.2.2.1.s = r.s)
    (i3 : ∀ es r res, ElementStart.Parse vk n es r = some res → res.2.2.s = r.s)
    (i7 : ∀ ti r res, TemplateInstance.Parse vk n ti r = some res → res.2.2.s = r.s)
    (i11 : ∀ d r res, TemplateInstanceData.Parse vk n d r = some res → res.2.2.s = r.s) :
    ∀ r c ti res, Parse vk (n + 1) r c ti = some res → res.2.2.1.s = r.s := by
  intro r c ti res h
  rw [Parse] at h
  cases hp : r.s[r.i]? with
  | none => rw [hp] at h; cases h; rfl
  | some token =>
    rw [hp] at h
    dsimp only at h
    by_cases h0 : (token : Int) = FragmentHeaderToken
    · rw [if_pos h0] at h
      generalize hx : Parse vk n _ c ti = x at h
      cases x with
      | none => simp at h
      | some y =>
        have hy := i1 _ _ _ _ hx
        rw [Fragment_Parse_s] at hy
        obtain ⟨elt, e, r2, c2⟩ := y
        cases e with
        | some e => simp only at h; cases h; exact hy
        | none =>
          clear hx i1 i3 i7 i11
          repeat' split at h
          all_goals try cases h
          all_goals try have hB := i2 _ _ _ _ _ (by assumption)
          all_goals clear i2
          all_goals simp_all [tup_eq]
    rw [if_neg h0] at h
    by_cases h1 : (token : Int) = TokenOpenStartElementTag1 ∨ (token : Int) = TokenOpenStartElementTag2
    · rw [if_pos h1] at h
      repeat' split at h
      all_goals try cases h
      all_goals try have hC := i3 _ _ _ (by assumption)
      all_goals clear i1 i2 i3 i7 i11
      all_goals simp_all [tup_eq]
    rw [if_neg h1] at h
    by_cases h2 : (token : Int) = TokenNormalSubstitution
    · rw [if_pos h2] at h
      cases h
      simp
    rw [if_neg h2] at h
    by_cases h3 : (token : Int) = TokenOptionalSubstitution
    · rw [if_pos h3] at h
      cases h
      simp
    rw [if_neg h3] at h
    by_cases h4 : (token : Int) = TokenCharRef1
    · rw [if_pos h4] at h
      cases h
      simp
    rw [if_neg h4] at h
    by_cases h5 : (token : Int) = TokenTemplateInstance
    · rw [if_pos h5] at h
      exact Parse_templateInstanceCase_s _ _ i7 i11 _ _ _ h
    rw [if_neg h5] at h
    by_cases h6 : (token : Int) = TokenValue1 ∨ (token : Int) = TokenValue2
    · rw [if_pos h6] at h
      cases h
      simp
    rw [if_neg h6] at h
    by_cases h7 : (token : Int) = TokenEntityRef1 ∨ (token : Int) = TokenEntityRef2
    · rw [if_pos h7] at h
      cases h
      simp
    rw [if_neg h7] at h
    by_cases h8 : (token : Int) = TokenEndElementTag
    · rw [if_pos h8] at h
      cases h
      simp
    rw [if_neg h8] at h
    by_cases h9 : (token : Int) = TokenCloseStartElementTag
    · rw [if_pos h9] at h
      cases h
      simp
    rw [if_neg h9] at h
    by_cases h10 : (token : Int) = TokenCloseEmptyElementTag
    · rw [if_pos h10] at h
      cases h
      simp
    rw [if_neg h10] at h
    by_cases h11 : (token : Int) = TokenEOF
    · rw [if_pos h11] at h
      cases h
      simp
    rw [if_neg h11] at h
    cases h
    rfl

theorem Parse_keeps_slice (vk : ValueKinds) : ∀ fuel : Nat,
    (∀ r c ti res, Parse vk fuel r c ti = some res → res.2.2.1.s = r.s)
    ∧ (∀ el r c ti res, Parse.fragmentLoop vk fuel el r c ti = some res → res.2.2.1.s = r.s)
    ∧ (∀ es r res, ElementStart.Parse vk fuel es r = some res → res.2.2.s = r.s)
    ∧ (∀ al r res, AttributeList.Parse vk fuel al r = some res → res.2.2.s = r.s)
    ∧ (∀ acc r res, AttributeList.ParseAttributes vk fuel acc r = some res → res.2.2.s = r.s)
    ∧ (∀ a r res, Attribute.Parse vk fuel a r = some res → res.2.2.s = r.s)
    ∧ (∀ ti r res, TemplateInstance.Parse vk fuel ti r = some res → res.2.2.s = r.s)
    ∧ (∀ td r res, TemplateDefinition.Parse vk fuel td r = some res → res.2.2.s = r.s)
    ∧ (∀ td r res, TemplateDefinitionData.Parse vk fuel td r = some res → res.2.2.s = r.s)
    ∧ (∀ el r res, TemplateDefinitionData.elements vk fuel el r = some res → res.2.2.s = r.s)
    ∧ (∀ d r res, TemplateInstanceData.Parse vk fuel d r = some res → res.2.2.s = r.s)
    ∧ (∀ ds r e res, TemplateInstanceData.values vk fuel ds r e = some res → res.2.2.s = r.s)
    ∧ (∀ vd r res, ParseValueReader vk fuel vd r = some res → res.2.2.s = r.s) := by
  intro fuel
  induction fuel with
  | zero =>
    refine ⟨?_, ?_, ?_, ?_, ?_, ?_, ?_, ?_, ?_, ?_, ?_, ?_, ?_⟩
    · intro r c ti res h; rw [Parse] at h; cases h
    · intro el r c ti res h; rw [Parse.fragmentLoop] at h; cases h
    · intro es r res h; rw [ElementStart.Parse] at h; cases h
    · intro al r res h; rw [AttributeList.Parse] at h; cases h
    · intro acc r res h; rw [AttributeList.ParseAttributes] at h; cases h
    · intro a r res h; rw [Attribute.Parse] at h; cases h
    · intro ti r res h; rw [TemplateInstance.Parse] at h; cases h
    · intro td r res h; rw [TemplateDefinition.Parse] at h; cases h
    · intro td r res h; rw [TemplateDefinitionData.Parse] at h; cases h
    · intro el r res h; rw [TemplateDefinitionData.elements] at h; cases h
    · intro d r res h; rw [TemplateInstanceData.Parse] at h; cases h
    · intro ds r e res h; rw [TemplateInstanceData.values] at h; cases h
    · intro vd r res h; rw [ParseValueReader] at h; cases h
  | succ n ih =>
    obtain ⟨i1, i2, i3, i4, i5, i6, i7, i8, i9, i10, i11, i12, i13⟩ := ih
    exact ⟨Parse_step vk n i1 i2 i3 i7 i11,
      Parse_fragmentLoop_step vk n i1 i2,
      ElementStart_Parse_step vk n i4,
      AttributeList_Parse_step vk n i5,
      AttributeList_ParseAttributes_step vk n i5 i6,
      Attribute_Parse_step vk n i1,
      TemplateInstance_Parse_step vk n i8 i11,
      TemplateDefinition_Parse_step vk n i9,
      TemplateDefinitionData_Parse_step vk n i10,
      TemplateDefinitionData_elements_step vk n i1 i10,
      TemplateInstanceData_Parse_step vk n i12,
      TemplateInstanceData_values_step vk n i12 i13,
      ParseValueReader_step vk n i1⟩

theorem ReadFull_i_ge (r : Reader) (n : Nat) : r.i ≤ (ReadFull r n).2.i := by
  unfold ReadFull
  simp only
  split_ifs <;> simp

theorem ReadFull_ok (r : Reader) (n : Nat) (hn : 0 < n) (bs : List Nat) (r1 : Reader)
    (h : ReadFull r n = (.ok bs, r1)) :
    r.i + n ≤ r.s.length ∧ r1.i = r.i + n ∧ bs = (r.s.drop r.i).take n := by
  unfold ReadFull at h
  simp only at h
  split_ifs at h with h1 h2
  · simp only [Prod.mk.injEq, Except.ok.injEq] at h
    obtain ⟨hb, hr⟩ := h
    subst hr
    simp only [List.length_take, List.length_drop] at h1
    refine ⟨by omega, rfl, hb.symm⟩
  · simp at h
  · simp at h

theorem UnmarshalS_i_ge (w : Nat) (old : Int) (r : Reader) :
    r.i ≤ (UnmarshalS w old r).2.2.i := by
  unfold UnmarshalS
  have := ReadFull_i_ge r w
  split <;> simp_all

theorem UnmarshalU_i_ge (w : Nat) (old : Int) (r : Reader) :
    r.i ≤ (UnmarshalU w old r).2.2.i := by
  unfold UnmarshalU
  have := ReadFull_i_ge r w
  split <;> simp_all

theorem UnmarshalS_ok (w : Nat) (hw : 0 < w) (old : Int) (r : Reader) (a : Int) (r1 : Reader)
    (h : UnmarshalS w old r = (a, none, r1)) :
    r.i + w ≤ r.s.length ∧ r1.i = r.i + w ∧ r1.s = r.s := by
  have hs := UnmarshalS_s w old r
  rw [h] at hs
  unfold UnmarshalS at h
  split at h
  · rename_i bs r2 heq
    have := ReadFull_ok r w hw bs r2 heq
    simp only [Prod.mk.injEq, true_and] at h
    obtain ⟨_, rfl⟩ := h
    exact ⟨this.1, this.2.1, hs⟩
  · simp at h

theorem UnmarshalU_ok (w : Nat) (hw : 0 < w) (old : Int) (r : Reader) (a : Int) (r1 : Reader)
    (h : UnmarshalU w old r = (a, none, r1)) :
    r.i + w ≤ r.s.length ∧ r1.i = r.i + w ∧ r1.s = r.s := by
  have hs := UnmarshalU_s w old r
  rw [h] at hs
  unfold UnmarshalU at h
  split at h
  · rename_i bs r2 heq
    have := ReadFull_ok r w hw bs r2 heq
    simp only [Prod.mk.injEq, true_and] at h
    obtain ⟨_, rfl⟩ := h
    exact ⟨this.1, this.2.1, hs⟩
  · simp at h

theorem unmarshalArray_ok : ∀ (l : List Nat) (r : Reader) (vs : List Nat) (r1 : Reader),
    unmarshalArray l r = (vs, none, r1) →
      r1.i = r.i + l.length ∧ (l ≠ [] → r1.i ≤ r.s.length) ∧ r1.s = r.s := by
  intro l
  induction l with
  | nil =>
    intro r vs r1 h
    simp only [unmarshalArray, Prod.mk.injEq, true_and] at h
    obtain ⟨_, rfl⟩ := h
    simp
  | cons b rest ih =>
    intro r vs r1 h
    rw [unmarshalArray] at h
    generalize hx : UnmarshalU 1 (b : Int) r = x at h
    obtain ⟨v, e, r2⟩ := x
    cases e with
    | some e => simp at h
    | none =>
      have h1 := UnmarshalU_ok 1 (by decide) _ r v r2 hx
      dsimp only at h
      generalize hy : unmarshalArray rest r2 = y at h
      obtain ⟨vs2, e2, r3⟩ := y
      dsimp only at h
      simp only [Prod.mk.injEq] at h
      obtain ⟨_, rfl, rfl⟩ := h
      have h2 := ih r2 vs2 r3 hy
      refine ⟨by simp only [List.length_cons]; omega, fun _ => ?_, by rw [h2.2.2, h1.2.2]⟩
      by_cases hr : rest = []
      · subst hr
        simp only [List.length_nil] at h2
        omega
      · have := h2.2.1 hr
        rw [h1.2.2] at this
        exact this

theorem EventHeader_Unmarshal_ok (eh : EventHeader) (hm : eh.Magic.length = 4) (r : Reader)
    (eh1 : EventHeader) (r1 : Reader) (h : EventHeader.Unmarshal eh r = (eh1, none, r1)) :
    r.i + 24 ≤ r.s.length ∧ r1.i = r.i + 24 ∧ r1.s = r.s := by
  unfold EventHeader.Unmarshal at h
  generalize hx : unmarshalArray _ _ = x at h
  obtain ⟨m, e, r2⟩ := x
  cases e with
  | some e => simp at h
  | none =>
  have h1 := unmarshalArray_ok _ _ _ _ hx
  dsimp only at h
  generalize hx2 : UnmarshalS _ _ _ = x at h
  obtain ⟨sz, e, r3⟩ := x
  cases e with
  | some e => simp at h
  | none =>
  have h2 := UnmarshalS_ok _ (by decide) _ _ _ _ hx2
  dsimp only at h
  generalize hx3 : UnmarshalS _ _ _ = x at h
  obtain ⟨id, e, r4⟩ := x
  cases e with
  | some e => simp at h
  | none =>
  have h3 := UnmarshalS_ok _ (by decide) _ _ _ _ hx3
  dsimp only at h
  generalize hx4 : UnmarshalS _ _ _ = x at h
  obtain ⟨ts, e, r5⟩ := x
  dsimp only at h
  simp only [Prod.mk.injEq] at h
  obtain ⟨_, rfl, rfl⟩ := h
  have h4 := UnmarshalS_ok _ (by decide) _ _ _ _ hx4
  rw [hm] at h1
  refine ⟨?_, ?_, ?_⟩
  · have := h4.1; rw [h3.2.2, h2.2.2, h1.2.2] at this; omega
  · omega
  · rw [h4.2.2, h3.2.2, h2.2.2, h1.2.2]

theorem int32_of_range (x : Int) (h0 : 0 ≤ x) (h1 : x < 2 ^ 31) : int32 x = x := by
  unfold int32
  rw [Int.emod_eq_of_lt (by omega) (by omega)]
  omega

theorem GoToSeeker_nonneg (r : Reader) (o : Int) (h : 0 ≤ o) :
    GoToSeeker r o = ⟨r.s, o.toNat⟩ := by
  unfold GoToSeeker
  rw [if_neg (by omega)]

theorem EventHeader_Validate_none (eh : EventHeader) (h : eh.Validate = none) :
    24 ≤ eh.Size ∧ eh.Size < 65536 := by
  unfold EventHeader.Validate ChunkSize EventHeaderSize at h
  split_ifs at h
  simp_all

theorem Chunk_ParseEventOffsets_loop_ok (L lo : Int) (data : List Nat)
    (hlen : data.length ≤ 2 ^ 31 - 2 ^ 16) :
    ∀ (fuel : Nat) (off : Int) (init : List Int) (r : Reader) (res : List Int) (r' : Reader),
      r.s = data → 0 ≤ off → lo ≤ off →
      Chunk.ParseEventOffsets.loop L fuel off (init ++ [off]) r = some (res, none, r') →
      ∃ mid last, res = init ++ mid ++ [last] ∧ L < last ∧
        ((mid = [] ∧ last = off) ∨ (mid ≠ [] ∧ last + 24 < data.length + 65536)) ∧
        ∀ o ∈ mid, lo ≤ o ∧ o ≤ L ∧ 0 ≤ o ∧
          ∃ eh r1, EventHeader.Unmarshal EventHeader.zero ⟨data, o.toNat⟩ = (eh, none, r1)
            ∧ eh.Validate = none := by
  intro fuel
  induction fuel with
  | zero => intro off init r res r' _ _ _ h; rw [Chunk.ParseEventOffsets.loop] at h; cases h
  | succ n ih =>
    intro off init r res r' hs h0 hlo h
    rw [Chunk.ParseEventOffsets.loop] at h
    by_cases hle : off ≤ L
    · rw [if_pos hle, GoToSeeker_nonneg r off h0, hs] at h
      generalize hx : EventHeader.Unmarshal _ _ = x at h
      obtain ⟨eh, e, r1⟩ := x
      cases e with
      | some e => simp at h
      | none =>
        dsimp only at h
        have hok := EventHeader_Unmarshal_ok EventHeader.zero rfl _ _ _ hx
        dsimp only at hok
        cases hv : eh.Validate with
        | some e => rw [hv] at h; simp at h
        | none =>
          rw [hv] at h
          dsimp only at h
          have hsz := EventHeader_Validate_none eh hv
          have hoff : (off.toNat : Int) = off := Int.toNat_of_nonneg h0
          have hnext : int32 (off + eh.Size) = off + eh.Size := by
            apply int32_of_range <;> omega
          rw [hnext, List.append_assoc] at h
          have hh : init ++ ([off] ++ [off + eh.Size]) = (init ++ [off]) ++ [off + eh.Size] := by
            simp
          rw [hh] at h
          obtain ⟨mid, last, hres, hlast, hb, hmid⟩ :=
            ih (off + eh.Size) (init ++ [off]) r1 res r' hok.2.2 (by omega) (by omega) h
          refine ⟨off :: mid, last, by simp [hres], hlast, Or.inr ⟨by simp, ?_⟩, ?_⟩
          · rcases hb with ⟨_, hl⟩ | ⟨_, hl⟩
            · have := hok.1
              omega
            · exact hl
          intro o ho
          rcases List.mem_cons.mp ho with rfl | ho
          · exact ⟨hlo, hle, h0, eh, r1, hx, hv⟩
          · exact hmid o ho
    · rw [if_neg hle] at h
      simp only [Option.some.injEq, Prod.mk.injEq, true_and] at h
      refine ⟨[], off, by simp [h.1], by omega, Or.inl ⟨rfl, rfl⟩, by simp⟩

theorem Chunk_ParseEventOffsets_ok (fuel : Nat) (c : Chunk) (r : Reader) (c1 : Chunk)
    (r1 : Reader) (hlen : r.s.length ≤ 2 ^ 31 - 2 ^ 16) (hpos : r.i ≤ r.s.length)
    (hstart : c.Header.SizeHeader ≤ r.i)
    (h : c.ParseEventOffsets fuel r = some (c1, none, r1)) :
    c1.Header = c.Header ∧
    ∃ mid last, c1.EventOffsets = mid ++ [last] ∧ c.Header.OffsetLastRec < last ∧
      ((mid = [] ∧ last = r.i) ∨ (mid ≠ [] ∧ last + 24 < r.s.length + 65536)) ∧
      ∀ o ∈ mid, c.Header.SizeHeader ≤ o ∧ o ≤ c.Header.OffsetLastRec ∧ 0 ≤ o ∧
        ∃ eh r2, EventHeader.Unmarshal EventHeader.zero ⟨r.s, o.toNat⟩ = (eh, none, r2)
          ∧ eh.Validate = none := by
  unfold Chunk.ParseEventOffsets at h
  have hi : int32 (BackupSeeker r) = (r.i : Int) := by
    unfold BackupSeeker
    apply int32_of_range <;> omega
  rw [hi] at h
  generalize hx : Chunk.ParseEventOffsets.loop _ _ _ _ _ = x at h
  cases x with
  | none => simp at h
  | some y =>
    obtain ⟨offs, e, r2⟩ := y
    simp only [Option.some.injEq, Prod.mk.injEq] at h
    obtain ⟨rfl, rfl, rfl⟩ := h
    have := Chunk_ParseEventOffsets_loop_ok c.Header.OffsetLastRec c.Header.SizeHeader r.s hlen
      fuel (r.i : Int) [] r offs r2 rfl (by omega) hstart (by simpa using hx)
    obtain ⟨mid, last, hres, hlast, hb, hmid⟩ := this
    exact ⟨rfl, mid, last, by simpa using hres, hlast, hb, hmid⟩

/-- Claim C4, as the code behaves: when `ParseEventOffsets` returns without
error (on a reader of at most 2^31 - 2^16 bytes positioned inside the data at or
after the header size) the header is unchanged and `EventOffsets` is a list of
offsets followed by one last entry; every offset before the last lies between
`SizeHeader` and `OffsetLastRec` and the 24 bytes there decode to a header that
passes `Validate`, while the last entry is greater than `OffsetLastRec`. -/
theorem C4_event_offsets (fuel : Nat) (c : Chunk) (r : Reader) (c1 : Chunk) (r1 : Reader)
    (hlen : r.s.length ≤ 2 ^ 31 - 2 ^ 16) (hpos : r.i ≤ r.s.length)
    (hstart : c.Header.SizeHeader ≤ r.i)
    (h : c.ParseEventOffsets fuel r = some (c1, none, r1)) :
    c1.Header = c.Header ∧
    ∃ mid last, c1.EventOffsets = mid ++ [last] ∧ c.Header.OffsetLastRec < last ∧
      ∀ o ∈ mid, c.Header.SizeHeader ≤ o ∧ o ≤ c.Header.OffsetLastRec ∧ 0 ≤ o ∧
        ∃ eh r2, EventHeader.Unmarshal EventHeader.zero ⟨r.s, o.toNat⟩ = (eh, none, r2)
          ∧ eh.Validate = none := by
  obtain ⟨hh, mid, last, h1, h2, _, h3⟩ :=
    Chunk_ParseEventOffsets_ok fuel c r c1 r1 hlen hpos hstart h
  exact ⟨hh, mid, last, h1, h2, h3⟩

set_option maxRecDepth 100000 in
/-- Claim C4 fails on a chunk with one event of size 24 at offset 512 and
`OffsetLastRec` 512: `ParseEventOffsets` succeeds with offsets 512 and 536, and
536 exceeds `OffsetLastRec` and the bytes at 536 do not pass `Validate`. -/
theorem C4_last_offset_is_sentinel :
    (oneEventChunk.ParseEventOffsets 2 ⟨oneEventData, 512⟩).map
        (fun x => (x.1.EventOffsets, x.2.1)) = some ([512, 536], none)
    ∧ ¬ ((536 : Int) ≤ oneEventChunk.Header.OffsetLastRec)
    ∧ (EventHeader.Unmarshal EventHeader.zero ⟨oneEventData, 536⟩).1.Validate ≠ none := by
  decide

set_option maxRecDepth 100000 in
/-- Claim C4, the behaviour of the code at the chunk with one event of size
24 at offset 512. -/
theorem C4_event_offsets_witness :
    oneEventChunk.Header = oneEventChunk.Header ∧
    ∃ mid last, [(512 : Int), 536] = mid ++ [last] ∧ oneEventChunk.Header.OffsetLastRec < last ∧
      ∀ o ∈ mid, oneEventChunk.Header.SizeHeader ≤ o ∧ o ≤ oneEventChunk.Header.OffsetLastRec
        ∧ 0 ≤ o ∧
        ∃ eh r2, EventHeader.Unmarshal EventHeader.zero ⟨oneEventData, o.toNat⟩ = (eh, none, r2)
          ∧ eh.Validate = none :=
  C4_event_offsets 2 oneEventChunk ⟨oneEventData, 512⟩
    { oneEventChunk with EventOffsets := [512, 536] } ⟨oneEventData, 536⟩
    (by decide!) (by decide!) (by decide!) (by rfl)

theorem ChunkHeader_Unmarshal_ok (h0 : ChunkHeader) (hm : h0.Magic.length = 8) (r : Reader)
    (h1 : ChunkHeader) (r1 : Reader) (h : ChunkHeader.Unmarshal h0 r = (h1, none, r1)) :
    r1.i = r.i + 56 ∧ r1.s = r.s := by
  unfold ChunkHeader.Unmarshal at h
  generalize hx : unmarshalArray _ _ = x at h
  obtain ⟨m, e, q1⟩ := x
  cases e with
  | some e => simp at h
  | none =>
  have k1 := unmarshalArray_ok _ _ _ _ hx
  dsimp only at h
  generalize hx2 : UnmarshalS _ _ _ = x at h
  obtain ⟨a, e, q2⟩ := x
  cases e with
  | some e => simp at h
  | none =>
  have k2 := UnmarshalS_ok _ (by decide) _ _ _ _ hx2
  dsimp only at h
  generalize hx3 : UnmarshalS _ _ _ = x at h
  obtain ⟨b, e, q3⟩ := x
  cases e with
  | some e => simp at h
  | none =>
  have k3 := UnmarshalS_ok _ (by decide) _ _ _ _ hx3
  dsimp only at h
  generalize hx4 : UnmarshalS _ _ _ = x at h
  obtain ⟨c, e, q4⟩ := x
  cases e with
  | some e => simp at h
  | none =>
  have k4 := UnmarshalS_ok _ (by decide) _ _ _ _ hx4
  dsimp only at h
  generalize hx5 : UnmarshalS _ _ _ = x at h
  obtain ⟨d, e, q5⟩ := x
  cases e with
  | some e => simp at h
  | none =>
  have k5 := UnmarshalS_ok _ (by decide) _ _ _ _ hx5
  dsimp only at h
  generalize hx6 : UnmarshalS _ _ _ = x at h
  obtain ⟨sh, e, q6⟩ := x
  cases e with
  | some e => simp at h
  | none =>
  have k6 := UnmarshalS_ok _ (by decide) _ _ _ _ hx6
  dsimp only at h
  generalize hx7 : UnmarshalS _ _ _ = x at h
  obtain ⟨ol, e, q7⟩ := x
  cases e with
  | some e => simp at h
  | none =>
  have k7 := UnmarshalS_ok _ (by decide) _ _ _ _ hx7
  dsimp only at h
  generalize hx8 : UnmarshalS _ _ _ = x at h
  obtain ⟨fs, e, q8⟩ := x
  cases e with
  | some e => simp at h
  | none =>
  have k8 := UnmarshalS_ok _ (by decide) _ _ _ _ hx8
  dsimp only at h
  generalize hx9 : UnmarshalU _ _ _ = x at h
  obtain ⟨cs, e, q9⟩ := x
  dsimp only at h
  simp only [Prod.mk.injEq] at h
  obtain ⟨_, rfl, rfl⟩ := h
  have k9 := UnmarshalU_ok _ (by decide) _ _ _ _ hx9
  rw [hm] at k1
  have k1a := k1.1
  refine ⟨by omega, ?_⟩
  rw [k9.2.2, k8.2.2, k7.2.2, k6.2.2, k5.2.2, k4.2.2, k3.2.2, k2.2.2, k1.2.2]

theorem GoToSeeker_backup (r1 r : Reader) : (GoToSeeker r1 (BackupSeeker r)).i = r.i := by
  unfold GoToSeeker BackupSeeker
  rw [if_neg (by omega)]
  simp

theorem StringAt_i (r : Reader) (o : Int) : (StringAt r o).2.2.i = r.i := by
  unfold StringAt
  exact GoToSeeker_backup _ _

theorem Chunk_ParseStringTable_loop_ok :
    ∀ (n : Nat) (so : Int) (st : ChunkStringTable) (r : Reader) (st1 : ChunkStringTable)
      (r1 : Reader),
      Chunk.ParseStringTable.loop n so st r = .ok (st1, r1) → r1.s = r.s ∧ r.i ≤ r1.i := by
  intro n
  induction n with
  | zero =>
    intro so st r st1 r1 h
    simp only [Chunk.ParseStringTable.loop, Outcome.ok.injEq, Prod.mk.injEq] at h
    obtain ⟨_, rfl⟩ := h
    exact ⟨rfl, le_refl _⟩
  | succ n ih =>
    intro so st r st1 r1 h
    rw [Chunk.ParseStringTable.loop] at h
    have k1 := UnmarshalS_s 4 so r
    have k2 := UnmarshalS_i_ge 4 so r
    generalize UnmarshalS 4 so r = x at h k1 k2
    obtain ⟨so1, e, q1⟩ := x
    dsimp only at h k1 k2
    split_ifs at h
    · have k3 := StringAt_s q1 so1
      have k4 := StringAt_i q1 so1
      generalize StringAt q1 so1 = y at h k3 k4
      obtain ⟨cs, e2, q2⟩ := y
      dsimp only at k3 k4
      cases e2 with
      | some e2 => simp at h
      | none =>
        dsimp only at h
        have := ih _ _ _ _ _ h
        exact ⟨by rw [this.1, k3, k1], by omega⟩
    · have := ih _ _ _ _ _ h
      exact ⟨by rw [this.1, k1], by omega⟩

theorem Chunk_ParseTemplateTable_loop_ok (vk : ValueKinds) (fuel : Nat) :
    ∀ (n : Nat) (tdo : Int) (tt : Evtx.TemplateTable) (r : Reader) (tt1 : Evtx.TemplateTable)
      (r1 : Reader),
      Chunk.ParseTemplateTable.loop vk fuel n tdo tt r = some (tt1, none, r1) →
        r1.s = r.s ∧ r.i ≤ r1.i ∧ (0 < n → r1.i ≤ r.s.length) := by
  intro n
  induction n with
  | zero =>
    intro tdo tt r tt1 r1 h
    simp only [Chunk.ParseTemplateTable.loop, Option.some.injEq, Prod.mk.injEq, true_and] at h
    obtain ⟨_, rfl⟩ := h
    exact ⟨rfl, le_refl _, fun h => absurd h (by decide)⟩
  | succ n ih =>
    intro tdo tt r tt1 r1 h
    rw [Chunk.ParseTemplateTable.loop] at h
    generalize hx : UnmarshalS 4 tdo r = x at h
    obtain ⟨tdo1, e, q1⟩ := x
    cases e with
    | some e => simp at h
    | none =>
      have k1 := UnmarshalS_ok 4 (by decide) _ _ _ _ hx
      dsimp only at h
      split_ifs at h
      · generalize hy : TemplateDefinitionData.Parse vk fuel _ _ = y at h
        cases y with
        | none => simp at h
        | some z =>
          obtain ⟨tdd, e2, q2⟩ := z
          have k2 := (Parse_keeps_slice vk fuel).2.2.2.2.2.2.2.2.1 _ _ _ hy
          cases e2 with
          | some e2 => simp at h
          | none =>
            dsimp only at h k2
            have k3 := ih _ _ _ _ _ h
            rw [GoToSeeker_s, GoToSeeker_backup] at k3
            rw [GoToSeeker_s] at k2
            refine ⟨by rw [k3.1, k2, k1.2.2], by omega, fun _ => ?_⟩
            by_cases hn : 0 < n
            · have := k3.2.2 hn
              rw [k2, k1.2.2] at this
              exact this
            · have hn0 : n = 0 := by omega
              subst hn0
              simp only [Chunk.ParseTemplateTable.loop, Option.some.injEq, Prod.mk.injEq,
                true_and] at h
              obtain ⟨_, rfl⟩ := h
              rw [GoToSeeker_backup]
              omega
      · have k3 := ih _ _ _ _ _ h
        refine ⟨by rw [k3.1, k1.2.2], by omega, fun _ => ?_⟩
        by_cases hn : 0 < n
        · have := k3.2.2 hn
          rw [k1.2.2] at this
          exact this
        · have hn0 : n = 0 := by omega
          subst hn0
          simp only [Chunk.ParseTemplateTable.loop, Option.some.injEq, Prod.mk.injEq,
            true_and] at h
          obtain ⟨_, rfl⟩ := h
          omega

theorem File_FetchChunk_ok (vk : ValueKinds) (fuel : Nat) (offset : Int) (data : List Nat)
    (c : Chunk) (hlen : data.length = 65536)
    (h : File.FetchChunk vk fuel offset data = .ok (c, none)) :
    ∃ mid last, c.EventOffsets = mid ++ [last] ∧ c.Header.OffsetLastRec < last ∧
      ((mid = [] ∧ c.Header.SizeHeader ≤ last ∧ last ≤ 65536)
        ∨ (mid ≠ [] ∧ last + 24 < 131072)) ∧
      c.Header.SizeHeader ≤ 65536 ∧
      ∀ o ∈ mid, c.Header.SizeHeader ≤ o ∧ o ≤ c.Header.OffsetLastRec ∧ 0 ≤ o ∧
        ∃ eh r2, EventHeader.Unmarshal EventHeader.zero ⟨data, o.toNat⟩ = (eh, none, r2)
          ∧ eh.Validate = none := by
  unfold File.FetchChunk at h
  dsimp only at h
  -- the chunk header
  unfold Chunk.ParseChunkHeader at h
  generalize hx : ChunkHeader.Unmarshal _ _ = x at h
  obtain ⟨hd, e, r1⟩ := x
  cases e with
  | some e => simp at h
  | none =>
  have k1 := ChunkHeader_Unmarshal_ok ChunkHeader.zero rfl _ _ _ hx
  dsimp only at h k1
  -- the string table
  unfold Chunk.ParseStringTable at h
  dsimp only at h
  generalize hy : Chunk.ParseStringTable.loop _ _ _ _ = y at h
  cases y with
  | panic => simp at h
  | outOfFuel => simp at h
  | ok p =>
  obtain ⟨st, r2⟩ := p
  have k2 := Chunk_ParseStringTable_loop_ok _ _ _ _ _ _ hy
  rw [GoToSeeker_s] at k2
  dsimp only at h
  -- the template table
  unfold Chunk.ParseTemplateTable at h
  dsimp only at h
  generalize hz : Chunk.ParseTemplateTable.loop _ _ _ _ _ _ = z at h
  cases z with
  | none => simp at h
  | some q =>
  obtain ⟨tt, e, r3⟩ := q
  cases e with
  | some e => simp at h
  | none =>
  have k3 := Chunk_ParseTemplateTable_loop_ok vk fuel _ _ _ _ _ _ hz
  dsimp only at h
  -- the event offsets
  generalize hw : Chunk.ParseEventOffsets _ _ _ = w at h
  cases w with
  | none => simp at h
  | some q =>
  obtain ⟨c4, e, r4⟩ := q
  simp only [Outcome.ok.injEq, Prod.mk.injEq] at h
  obtain ⟨rfl, rfl⟩ := h
  have hs3 : r3.s = data := by rw [k3.1, k2.1, k1.2]
  have hpos : r3.i ≤ r3.s.length := by
    have := k3.2.2 (by decide)
    rw [hs3]
    rw [k2.1, k1.2] at this
    exact this
  have hstart : hd.SizeHeader ≤ (r3.i : Int) := by
    have g : hd.SizeHeader ≤ ((GoToSeeker r1 hd.SizeHeader).i : Int) := by
      unfold GoToSeeker
      split_ifs with hneg
      · omega
      · simp only [Int.toNat_of_nonneg (not_lt.mp hneg)]
        exact le_refl _
    have := k2.2
    have := k3.2.1
    omega
  obtain ⟨hh, mid, last, h1, h2, hb, h3⟩ :=
    Chunk_ParseEventOffsets_ok fuel _ r3 c4 r4 (by rw [hs3, hlen]; decide) hpos hstart hw
  dsimp only at hh h2 h3
  rw [hs3] at h3 hb
  have hpos2 : (r3.i : Int) ≤ 65536 := by
    rw [hs3, hlen] at hpos
    omega
  refine ⟨mid, last, h1, by rw [hh]; exact h2, ?_, ?_, ?_⟩
  · rcases hb with ⟨hm, hl⟩ | ⟨hm, hl⟩
    · refine Or.inl ⟨hm, ?_, ?_⟩
      · rw [hh, hl]
        exact hstart
      · rw [hl]
        exact hpos2
    · exact Or.inr ⟨hm, by rw [hlen] at hl; omega⟩
  · rw [hh]
    show hd.SizeHeader ≤ 65536
    omega
  · intro o ho
    rw [hh]
    exact h3 o ho

/-- Claim C5, as the code behaves: `FetchChunk` does not check the header. For
a 64 KiB buffer on which it succeeds, `SizeHeader ≤ ChunkSize` and
`OffsetLastRec < 2 * ChunkSize`. When at least one event was discovered (two
entries or more in `EventOffsets`), `SizeHeader ≤ OffsetLastRec`. When none was,
`EventOffsets` holds the offset at which the discovery started and nothing
else; that offset is at least `SizeHeader` and at most `ChunkSize`, and
`OffsetLastRec` is below it, hence below `ChunkSize`. -/
theorem C5_header_bounds (vk : ValueKinds) (fuel : Nat) (offset : Int) (data : List Nat)
    (c : Chunk) (hlen : data.length = 65536)
    (h : File.FetchChunk vk fuel offset data = .ok (c, none)) :
    c.Header.SizeHeader ≤ ChunkSize ∧ c.Header.OffsetLastRec < 2 * ChunkSize
    ∧ (2 ≤ c.EventOffsets.length → c.Header.SizeHeader ≤ c.Header.OffsetLastRec)
    ∧ (c.EventOffsets.length < 2 →
        ∃ start, c.EventOffsets = [start] ∧ c.Header.SizeHeader ≤ start ∧ start ≤ ChunkSize
          ∧ c.Header.OffsetLastRec < start ∧ c.Header.OffsetLastRec < ChunkSize) := by
  obtain ⟨mid, last, h1, h2, hb, hsz, h3⟩ := File_FetchChunk_ok vk fuel offset data c hlen h
  unfold ChunkSize
  cases mid with
  | nil =>
    rcases hb with ⟨_, hl1, hl2⟩ | ⟨hm, _⟩
    · refine ⟨hsz, by omega, ?_, ?_⟩
      · intro hev
        rw [h1] at hev
        simp at hev
      · intro _
        exact ⟨last, by simpa using h1, hl1, hl2, h2, by omega⟩
    · exact absurd rfl hm
  | cons o rest =>
    have ho := h3 o (List.mem_cons_self o rest)
    rcases hb with ⟨hm, _⟩ | ⟨_, hl⟩
    · cases hm
    · refine ⟨hsz, by omega, fun _ => by omega, ?_⟩
      intro hev
      rw [h1] at hev
      simp only [List.length_append, List.length_cons, List.length_nil] at hev
      omega

theorem longRecordBuffer_length : longRecordBuffer.length = 65536 := by
  simp only [longRecordBuffer, chunkHeaderBytes, ChunkMagic, List.length_append,
    List.length_replicate, List.length_cons, List.length_nil]

/-- Claim C5 fails: `FetchChunk` succeeds on a 64 KiB buffer whose header has
`SizeHeader` 128 and `OffsetLastRec` 0, and on one whose `OffsetLastRec` is 65537,
above `ChunkSize`; no header field is checked. -/
theorem C5_header_not_checked :
    (File.FetchChunk noValues 1 0 noRecordBuffer).result.map
        (fun x => (x.1.Header.SizeHeader, x.1.Header.OffsetLastRec, x.1.EventOffsets, x.2))
      = some (128, 0, [512], none)
    ∧ (File.FetchChunk noValues 2 0 longRecordBuffer).result.map
        (fun x => (x.1.Header.SizeHeader, x.1.Header.OffsetLastRec, x.1.EventOffsets, x.2))
      = some (128, 65537, [512, 66047], none) := by
  decide!

set_option maxRecDepth 20000 in
/-- Claim C5, the behaviour of the code at the buffer whose single event has
size 65535 and whose `OffsetLastRec` is 65537. -/
theorem C5_header_bounds_witness :
    (128 : Int) ≤ ChunkSize ∧ (65537 : Int) < 2 * ChunkSize
    ∧ (2 ≤ [(512 : Int), 66047].length → (128 : Int) ≤ 65537)
    ∧ ([(512 : Int), 66047].length < 2 →
        ∃ start, [(512 : Int), 66047] = [start] ∧ (128 : Int) ≤ start ∧ start ≤ ChunkSize
          ∧ (65537 : Int) < start ∧ (65537 : Int) < ChunkSize) :=
  C5_header_bounds noValues 2 0 longRecordBuffer
    { Offset := 0, Header := ⟨ChunkMagic, 0, 0, 0, 0, 128, 65537, 0, 0⟩, StringTable := [],
      TemplateTable := [], EventOffsets := [512, 66047], Data := longRecordBuffer }
    longRecordBuffer_length (by rfl)

theorem Parse_unknown_token (vk : ValueKinds) (fuel : Nat) (r : Reader) (c : Option Chunk)
    (ti : Bool) (b : Nat) (hb : r.s[r.i]? = some b) (hu : b ∉ mappedTokens) :
    Parse vk (fuel + 1) r c ti = some (.EmptyElement, some (.ErrUnknownToken b), r, c) := by
  simp only [mappedTokens, List.mem_cons, List.mem_singleton, List.not_mem_nil, or_false,
    not_or] at hu
  obtain ⟨h1, h2, h3, h4, h5, h6, h7, h8, h9, h10, h11, h12, h13, h14, h15⟩ := hu
  rw [Parse, hb]
  dsimp only
  rw [if_neg (by unfold FragmentHeaderToken; omega),
    if_neg (by unfold TokenOpenStartElementTag1 TokenOpenStartElementTag2; omega),
    if_neg (by unfold TokenNormalSubstitution; omega),
    if_neg (by unfold TokenOptionalSubstitution; omega),
    if_neg (by unfold TokenCharRef1; omega),
    if_neg (by unfold TokenTemplateInstance; omega),
    if_neg (by unfold TokenValue1 TokenValue2; omega),
    if_neg (by unfold TokenEntityRef1 TokenEntityRef2; omega),
    if_neg (by unfold TokenEndElementTag; omega),
    if_neg (by unfold TokenCloseStartElementTag; omega),
    if_neg (by unfold TokenCloseEmptyElementTag; omega),
    if_neg (by unfold TokenEOF; omega)]

/-- Claim C1, as the code behaves: for an event with a valid header at a
non-negative offset whose payload starts with a byte outside the mapped tokens,
`Parse` reports `ErrUnknownToken` with an element that is not a fragment, so the
type assertion of `Event.GoEvtxMap` panics instead of returning an error, and
the loop of `Chunk.Events` stops at that event: nothing more is sent, whatever
offsets follow. -/
theorem C1_unknown_token_panics (vk : ValueKinds) (fuel : Nat) (c : Chunk) (e : Event)
    (b : Nat) (hvalid : e.IsValid = true) (hoff : 0 ≤ e.Offset)
    (hb : c.Data[(e.Offset + EventHeaderSize).toNat]? = some b) (hu : b ∉ mappedTokens) :
    Parse vk (fuel + 1) ⟨c.Data, (e.Offset + EventHeaderSize).toNat⟩ (some c) false
        = some (.EmptyElement, some (.ErrUnknownToken b),
            ⟨c.Data, (e.Offset + EventHeaderSize).toNat⟩, some c)
    ∧ e.GoEvtxMap vk (fuel + 1) c = .panic
    ∧ ∀ (eo : Int) (rest : List Int) (sent : List (Option GoEvtxMap)),
        c.ParseEvent eo = .ok e →
          Chunk.Events.loop vk (fuel + 1) (eo :: rest) c sent = some ⟨sent, true⟩ := by
  have hp := Parse_unknown_token vk fuel ⟨c.Data, (e.Offset + EventHeaderSize).toNat⟩
    (some c) false b hb hu
  have hg : e.GoEvtxMap vk (fuel + 1) c = .panic := by
    unfold Event.GoEvtxMap
    rw [if_neg (by simp [hvalid]),
      GoToSeeker_nonneg _ _ (by unfold EventHeaderSize; omega), hp]
  refine ⟨hp, hg, ?_⟩
  intro eo rest sent hpe
  rw [Chunk.Events.loop, hpe]
  dsimp only
  rw [hg]

/-- Claim C1 fails on a chunk of two events, the first starting with the
unmapped byte 0x07 and the second well formed: the first event has a valid
header, `Event.GoEvtxMap` panics on it, and `Chunk.Events` sends nothing at all,
although the second event alone (same bytes, first offset left out) is sent. -/
theorem C1_unknown_token_aborts :
    badThenGoodChunk.Data[24]? = some 0x07 ∧ 0x07 ∉ mappedTokens
    ∧ (badThenGoodChunk.ParseEvent 0).result.map (fun e => e.IsValid) = some true
    ∧ (badThenGoodChunk.ParseEvent 0).result.map
        (fun e => (e.GoEvtxMap noValues 20 badThenGoodChunk).panicked) = some true
    ∧ (Chunk.Events noValues 20 badThenGoodChunk).map (fun x => (x.sent.length, x.panicked))
        = some (0, true)
    ∧ (Chunk.Events noValues 20 goodOnlyChunk).map (fun x => (x.sent.length, x.panicked))
        = some (1, false) := by
  decide!

/-- Claim C1, the behaviour of the code at the two-event chunk whose first
payload byte is 0x07. -/
theorem C1_unknown_token_panics_witness :
    Parse noValues 20 ⟨badThenGoodChunk.Data, 24⟩ (some badThenGoodChunk) false
        = some (.EmptyElement, some (.ErrUnknownToken 7), ⟨badThenGoodChunk.Data, 24⟩,
            some badThenGoodChunk)
    ∧ Event.GoEvtxMap noValues 20 ⟨0, ⟨[0x2a, 0x2a, 0, 0], 25, 1, 0⟩⟩ badThenGoodChunk = .panic
    ∧ ∀ (eo : Int) (rest : List Int) (sent : List (Option GoEvtxMap)),
        badThenGoodChunk.ParseEvent eo = .ok ⟨0, ⟨[0x2a, 0x2a, 0, 0], 25, 1, 0⟩⟩ →
          Chunk.Events.loop noValues 20 (eo :: rest) badThenGoodChunk sent = some ⟨sent, true⟩ :=
  C1_unknown_token_panics noValues 19 badThenGoodChunk ⟨0, ⟨[0x2a, 0x2a, 0, 0], 25, 1, 0⟩⟩ 7
    (by decide) (by decide) (by decide!) (by decide)

/-- Claim C2 fails in the code: for the node with leaves text `a` then a
normal substitution of a null-typed slot, the last leaf renders to null (neither
map nor string), yet `NodeToGoEvtx` stores under `Value` the rendering of the
first leaf, the string `a`, because the default case renders `n.Element[0]`. -/
theorem C2_value_from_first_leaf :
    ElementToGoEvtx 2 nullSlotInstance (.NormalSubstitution ⟨0x0d, 0, 0⟩) = .ok .nil
    ∧ NodeToGoEvtx 3 nullSlotInstance textThenNullNode = .ok [("Value", .str "a")] := by
  constructor <;> rfl

/-- Claim C3 fails for `<Data><X>%0</X></Data>` with an optional
substitution over a null-typed slot: the node of `X` renders to `Value` null and
the map of the parent does contain the key `X` (with value null). -/
theorem C3_optional_null_emitted :
    NodeToGoEvtx 3 nullSlotInstance optionalNullNode = .ok [("Value", .nil)]
    ∧ NodeToGoEvtx 4 nullSlotInstance optionalNullParent = .ok [("X", .nil)]
    ∧ (NodeToGoEvtx 4 nullSlotInstance optionalNullParent).result.map
        (fun m => (mapGet m "X").isSome) = some true := by
  refine ⟨rfl, rfl, rfl⟩

theorem ElementToGoEvtx_null_slot (fuel : Nat) (ti : TemplateInstance Element)
    (s : NormalSubstitution) (sz : Int) (h0 : 0 ≤ s.SubID)
    (hv : ti.Data.Values[s.SubID.toNat]? = some (.Value (.ValueNull sz))) :
    ElementToGoEvtx (fuel + 2) ti (.OptionalSubstitution s) = .ok .nil
    ∧ ElementToGoEvtx (fuel + 2) ti (.NormalSubstitution s) = .ok .nil := by
  have hlt : s.SubID < ti.Data.Values.length := by
    have := (List.getElem?_eq_some_iff.mp hv).1
    omega
  constructor
  · rw [ElementToGoEvtx]
    simp only [hlt, if_true, if_neg (not_lt.mpr h0), hv]
    rw [ElementToGoEvtx]
  · rw [ElementToGoEvtx]
    simp only [hlt, if_true, if_neg (not_lt.mpr h0), hv]
    rw [ElementToGoEvtx]

/-- Claim C3, as the code behaves: when the slot of a substitution holds a
null value, an element without attributes whose only content is that
substitution, optional or normal alike, renders to the map with `Value` null.
The map of a parent whose only content is that element has the key of the
element: with the value null when the parent has a start element (without
attributes), with the map `Value` -> null of the element when the parent has no
start element. -/
theorem C3_null_slot_rendered_alike (fuel : Nat) (ti : TemplateInstance Element)
    (s : NormalSubstitution) (sz : Int) (es ps : ElementStart Element) (leaf : Element)
    (h0 : 0 ≤ s.SubID)
    (hv : ti.Data.Values[s.SubID.toNat]? = some (.Value (.ValueNull sz)))
    (hleaf : leaf = .OptionalSubstitution s ∨ leaf = .NormalSubstitution s)
    (hes : es.AttributeList.Attributes = []) (hps : ps.AttributeList.Attributes = []) :
    NodeToGoEvtx (fuel + 3) ti (.mk (some es) [leaf] []) = .ok [("Value", .nil)]
    ∧ NodeToGoEvtx (fuel + 4) ti (.mk (some ps) [] [.mk (some es) [leaf] []])
        = .ok [(es.Name.String, .nil)]
    ∧ NodeToGoEvtx (fuel + 4) ti (.mk none [] [.mk (some es) [leaf] []])
        = .ok [(es.Name.String, .map [("Value", .nil)])] := by
  have hr : ElementToGoEvtx (fuel + 2) ti leaf = .ok .nil := by
    rcases hleaf with rfl | rfl
    · exact (ElementToGoEvtx_null_slot fuel ti s sz h0 hv).1
    · exact (ElementToGoEvtx_null_slot fuel ti s sz h0 hv).2
  have hx : NodeToGoEvtx (fuel + 3) ti (.mk (some es) [leaf] []) = .ok [("Value", .nil)] := by
    rw [NodeToGoEvtx]
    simp [Node.Start, Node.Child, Node.Element, NodeToGoEvtx.children, NodeToGoEvtx.elements,
      NodeToGoEvtx.attributes, hr, hes, mapSet]
  refine ⟨hx, ?_, ?_⟩
  · rw [NodeToGoEvtx]
    simp [Node.Start, Node.Child, Node.Element, NodeToGoEvtx.children, NodeToGoEvtx.elements,
      NodeToGoEvtx.attributes, hx, hps, mapSet, mapGet, GoEvtxMap.HasKeys]
  · rw [NodeToGoEvtx]
    simp only [Node.Start, Node.Child, hx]

/-- Claim C3, the behaviour of the code at `<Data><X>%0</X></Data>` with an
optional substitution over a null-typed slot. -/
theorem C3_null_slot_rendered_alike_witness :
    NodeToGoEvtx 3 nullSlotInstance (.mk (some (startOf [88])) [.OptionalSubstitution ⟨0x0e, 0, 0⟩] [])
        = .ok [("Value", .nil)]
    ∧ NodeToGoEvtx 4 nullSlotInstance
        (.mk (some (startOf [68, 97, 116, 97])) []
          [.mk (some (startOf [88])) [.OptionalSubstitution ⟨0x0e, 0, 0⟩] []])
        = .ok [((startOf [88]).Name.String, .nil)]
    ∧ NodeToGoEvtx 4 nullSlotInstance
        (.mk none [] [.mk (some (startOf [88])) [.OptionalSubstitution ⟨0x0e, 0, 0⟩] []])
        = .ok [((startOf [88]).Name.String, .map [("Value", .nil)])] :=
  C3_null_slot_rendered_alike 0 nullSlotInstance ⟨0x0e, 0, 0⟩ 0 (startOf [88])
    (startOf [68, 97, 116, 97]) (.OptionalSubstitution ⟨0x0e, 0, 0⟩) (by decide) rfl
    (Or.inl rfl) rfl rfl

theorem ElementToGoEvtx_substitution (fuel : Nat) (ti : TemplateInstance Element)
    (s : NormalSubstitution) (v : Element) (h0 : 0 ≤ s.SubID)
    (hv : ti.Data.Values[s.SubID.toNat]? = some v) :
    ElementToGoEvtx (fuel + 1) ti (.NormalSubstitution s) = ElementToGoEvtx fuel ti v
    ∧ ElementToGoEvtx (fuel + 1) ti (.OptionalSubstitution s) = ElementToGoEvtx fuel ti v := by
  have hlt : s.SubID < ti.Data.Values.length := by
    have := (List.getElem?_eq_some_iff.mp hv).1
    omega
  constructor
  · rw [ElementToGoEvtx]
    simp only [hlt, if_true, if_neg (not_lt.mpr h0), hv]
  · rw [ElementToGoEvtx]
    simp only [hlt, if_true, if_neg (not_lt.mpr h0), hv]

theorem ElementToGoEvtx_value (fuel : Nat) (ti : TemplateInstance Element) (val : Value) :
    ElementToGoEvtx (fuel + 1) ti (.Value val) = .ok (valueRendering val) := by
  cases val <;> (rw [ElementToGoEvtx]; try rfl)

/-- Claim C11: for a substitution, normal or optional, with sub-id k over a
template instance with n values, `ElementToGoEvtx` returns the rendering of
`values[k]` when 0 ≤ k < n: what `ElementToGoEvtx` gives for `values[k]`, which
is null for a null value, the representation of any other decoded value, and
the string of a text. It panics for every other k: with the explicit
`Index out of range` when k ≥ n, on the slice index when k is negative. A
substitution of slot 0 renders to the number 5 when the slot holds the integer
5 and to null when it holds the null value. -/
theorem C11_substitution_index (fuel : Nat) (ti : TemplateInstance Element)
    (s : NormalSubstitution) :
    (0 ≤ s.SubID ∧ s.SubID < ti.Data.Values.length →
      ∃ v, ti.Data.Values[s.SubID.toNat]? = some v
        ∧ ElementToGoEvtx (fuel + 1) ti (.NormalSubstitution s) = ElementToGoEvtx fuel ti v
        ∧ ElementToGoEvtx (fuel + 1) ti (.OptionalSubstitution s) = ElementToGoEvtx fuel ti v
        ∧ (∀ val, v = .Value val →
            ElementToGoEvtx (fuel + 2) ti (.NormalSubstitution s) = .ok (valueRendering val)
            ∧ ElementToGoEvtx (fuel + 2) ti (.OptionalSubstitution s)
                = .ok (valueRendering val))
        ∧ (∀ vt, v = .ValueText vt →
            ElementToGoEvtx (fuel + 2) ti (.NormalSubstitution s) = .ok (.str vt.String)
            ∧ ElementToGoEvtx (fuel + 2) ti (.OptionalSubstitution s) = .ok (.str vt.String)))
    ∧ (¬ (0 ≤ s.SubID ∧ s.SubID < ti.Data.Values.length) →
        ElementToGoEvtx (fuel + 1) ti (.NormalSubstitution s) = .panic
        ∧ ElementToGoEvtx (fuel + 1) ti (.OptionalSubstitution s) = .panic)
    ∧ ElementToGoEvtx 2 numberSlotInstance (.NormalSubstitution ⟨0x0d, 0, Int32Type⟩)
        = .ok (.int 5)
    ∧ ElementToGoEvtx 2 numberSlotInstance (.OptionalSubstitution ⟨0x0e, 0, Int32Type⟩)
        = .ok (.int 5)
    ∧ ElementToGoEvtx 2 nullSlotInstance (.NormalSubstitution ⟨0x0d, 0, 0⟩) = .ok .nil
    ∧ ElementToGoEvtx 2 nullSlotInstance (.OptionalSubstitution ⟨0x0e, 0, 0⟩) = .ok .nil
    ∧ ElementToGoEvtx 2 numberSlotInstance (.NormalSubstitution ⟨0x0d, 1, Int32Type⟩) = .panic
    ∧ ElementToGoEvtx 2 numberSlotInstance (.NormalSubstitution ⟨0x0d, -1, Int32Type⟩)
        = .panic := by
  refine ⟨?_, ?_, rfl, rfl, rfl, rfl, rfl, rfl⟩
  · rintro ⟨h0, hlt⟩
    have hl : s.SubID.toNat < ti.Data.Values.length := by omega
    have hv := List.getElem?_eq_getElem hl
    refine ⟨ti.Data.Values[s.SubID.toNat], hv,
      (ElementToGoEvtx_substitution fuel ti s _ h0 hv).1,
      (ElementToGoEvtx_substitution fuel ti s _ h0 hv).2, ?_, ?_⟩
    · intro val hval
      rw [hval] at hv
      rw [(ElementToGoEvtx_substitution (fuel + 1) ti s _ h0 hv).1,
        (ElementToGoEvtx_substitution (fuel + 1) ti s _ h0 hv).2,
        ElementToGoEvtx_value]
      exact ⟨rfl, rfl⟩
    · intro vt hvt
      rw [hvt] at hv
      rw [(ElementToGoEvtx_substitution (fuel + 1) ti s _ h0 hv).1,
        (ElementToGoEvtx_substitution (fuel + 1) ti s _ h0 hv).2, ElementToGoEvtx]
      exact ⟨rfl, rfl⟩
  · intro h
    by_cases hlt : s.SubID < ti.Data.Values.length
    · have hneg : s.SubID < 0 := by
        by_contra hc
        exact h ⟨by omega, hlt⟩
      constructor <;> (rw [ElementToGoEvtx]; simp only [hlt, if_true, if_pos hneg])
    · constructor <;> (rw [ElementToGoEvtx]; simp only [hlt, if_false])

/-- Claim C12: an entity reference renders to `&`, `<`, `>`, the double quote
and the apostrophe when its resolved name (trailing NULs trimmed, as for the
name `amp` followed by NUL) is amp, lt, gt, quot, apos respectively, and
`ElementToGoEvtx` panics for every other name. -/
theorem C12_entity_reference (fuel : Nat) (ti : TemplateInstance Element)
    (e : BinXMLEntityReference) :
    (e.Name.String = "amp" →
      ElementToGoEvtx (fuel + 1) ti (.BinXMLEntityReference e) = .ok (.str "&"))
    ∧ (e.Name.String = "lt" →
      ElementToGoEvtx (fuel + 1) ti (.BinXMLEntityReference e) = .ok (.str "<"))
    ∧ (e.Name.String = "gt" →
      ElementToGoEvtx (fuel + 1) ti (.BinXMLEntityReference e) = .ok (.str ">"))
    ∧ (e.Name.String = "quot" →
      ElementToGoEvtx (fuel + 1) ti (.BinXMLEntityReference e) = .ok (.str "\""))
    ∧ (e.Name.String = "apos" →
      ElementToGoEvtx (fuel + 1) ti (.BinXMLEntityReference e) = .ok (.str "'"))
    ∧ (e.Name.String ∉ ["amp", "lt", "gt", "quot", "apos"] →
      ElementToGoEvtx (fuel + 1) ti (.BinXMLEntityReference e) = .panic)
    ∧ (entityOf [97, 109, 112]).Name.UTF16String = [97, 109, 112, 0]
    ∧ (entityOf [97, 109, 112]).Name.String = "amp" := by
  refine ⟨?_, ?_, ?_, ?_, ?_, ?_, rfl, by decide⟩
  all_goals intro h
  all_goals rw [ElementToGoEvtx]
  all_goals simp only [BinXMLEntityReference.String]
  · simp [h]
  · simp [h]
  · simp [h]
  · simp [h]
  · simp [h]
  · simp only [List.mem_cons, List.mem_singleton, List.not_mem_nil, or_false, not_or] at h
    simp [h.1, h.2.1, h.2.2.1, h.2.2.2.1, h.2.2.2.2]

theorem mapGet_cons {β : Type} (k1 : String) (v : β) (rest : List (String × β)) (k : String) :
    mapGet ((k1, v) :: rest) k = if k1 = k then some v else mapGet rest k := rfl

theorem mapSet_cons {β : Type} (k1 : String) (v1 : β) (rest : List (String × β)) (k : String)
    (v : β) :
    mapSet ((k1, v1) :: rest) k v
      = if k1 = k then (k, v) :: rest else (k1, v1) :: mapSet rest k v := rfl

theorem mapDel_cons {β : Type} (k1 : String) (v1 : β) (rest : List (String × β)) (k : String) :
    mapDel ((k1, v1) :: rest) k = if k1 = k then rest else (k1, v1) :: mapDel rest k := rfl

theorem mapGet_isSome_iff {β : Type} (m : List (String × β)) (k : String) :
    (mapGet m k).isSome ↔ k ∈ m.map Prod.fst := by
  induction m with
  | nil => simp [mapGet]
  | cons kv rest ih =>
    obtain ⟨k1, v⟩ := kv
    unfold mapGet
    by_cases h : k1 = k
    · simp [h]
    · simp only [h, if_false, ih, List.map_cons, List.mem_cons]
      constructor
      · exact fun hm => Or.inr hm
      · rintro (hk | hm)
        · exact absurd hk.symm h
        · exact hm

theorem mapGet_eq_none_iff {β : Type} (m : List (String × β)) (k : String) :
    mapGet m k = none ↔ k ∉ m.map Prod.fst := by
  rw [← mapGet_isSome_iff]
  cases mapGet m k <;> simp

theorem mapSet_absent {β : Type} (m : List (String × β)) (k : String) (v : β)
    (h : mapGet m k = none) : mapSet m k v = m ++ [(k, v)] := by
  induction m with
  | nil => rfl
  | cons kv rest ih =>
    obtain ⟨k1, v1⟩ := kv
    unfold mapGet at h
    unfold mapSet
    by_cases hk : k1 = k
    · simp [hk] at h
    · simp only [hk, if_false] at h ⊢
      rw [ih h]
      rfl

theorem mapGet_append {β : Type} (m1 m2 : List (String × β)) (k : String) :
    mapGet (m1 ++ m2) k = match mapGet m1 k with
      | some v => some v
      | none => mapGet m2 k := by
  induction m1 with
  | nil => rfl
  | cons kv rest ih =>
    obtain ⟨k1, v1⟩ := kv
    simp only [List.cons_append, mapGet_cons]
    by_cases hk : k1 = k
    · simp [hk]
    · simp only [hk, if_false]
      exact ih

theorem GoEvtxMap_Add_spec (other : GoEvtxMap) :
    ∀ pg : GoEvtxMap, (other.map Prod.fst).Nodup →
      ((∃ k, k ∈ pg.map Prod.fst ∧ k ∈ other.map Prod.fst) →
        GoEvtxMap.Add.loop pg other = .panic)
      ∧ ((∀ k, k ∈ pg.map Prod.fst → k ∉ other.map Prod.fst) →
          GoEvtxMap.Add.loop pg other = .ok (pg ++ other)) := by
  induction other with
  | nil =>
    intro pg _
    refine ⟨?_, ?_⟩
    · rintro ⟨k, _, hk⟩
      simp at hk
    · intro _
      simp [GoEvtxMap.Add.loop]
  | cons kv rest ih =>
    obtain ⟨k, v⟩ := kv
    intro pg hnd
    simp only [List.map_cons, List.nodup_cons] at hnd
    obtain ⟨hk, hrest⟩ := hnd
    rw [GoEvtxMap.Add.loop]
    cases hg : mapGet pg k with
    | some x =>
      have hin : k ∈ pg.map Prod.fst := (mapGet_isSome_iff pg k).mp (by simp [hg])
      refine ⟨fun _ => rfl, fun hd => ?_⟩
      exact absurd (by simp) (hd k hin)
    | none =>
      have hout : k ∉ pg.map Prod.fst := (mapGet_eq_none_iff pg k).mp hg
      simp only
      rw [mapSet_absent pg k v hg]
      obtain ⟨ih1, ih2⟩ := ih (pg ++ [(k, v)]) hrest
      refine ⟨?_, ?_⟩
      · rintro ⟨k1, h1, h2⟩
        apply ih1
        simp only [List.map_cons, List.mem_cons] at h2
        rcases h2 with rfl | h2
        · exact absurd h1 hout
        · exact ⟨k1, by simp [h1], h2⟩
      · intro hd
        rw [ih2]
        · simp
        · intro k1 h1
          simp only [List.map_append, List.map_cons, List.map_nil, List.mem_append,
            List.mem_singleton] at h1
          rcases h1 with h1 | rfl
          · have := hd k1 h1
            simp only [List.map_cons, List.mem_cons, not_or] at this
            exact this.2
          · exact hk

/-- Claim C15 fails on a receiver that is the nil map: it shares no key with
the map `a` -> 1, having none, yet `Add` panics, on the assignment to an entry
of a nil map. -/
theorem C15_nil_receiver_panics :
    GoEvtxMap.Add none [("a", .int 1)] = .panic
    ∧ ¬ ∃ k, (mapGet (mapEntries none) k).isSome
        ∧ (mapGet [("a", GoEvtxElement.int 1)] k).isSome := by
  refine ⟨rfl, ?_⟩
  rintro ⟨k, hk, _⟩
  simp [mapEntries, mapGet] at hk

/-- Claim C15, as the code behaves. On a receiver that is an initialised map,
`GoEvtxMap.Add` panics with `Duplicated key` if and only if the receiver and
`other` (a Go map, so without repeated keys) share a key; when they share none
it returns normally and the receiver is then the union of the two maps: a key of
the receiver keeps its entry and every other key has the entry of `other`. On a
receiver that is the nil map, `Add` panics if and only if `other` has an entry,
and leaves the receiver nil when `other` is empty. -/
theorem C15_add_duplicate_key (pg other : GoEvtxMap)
    (hnd : (other.map Prod.fst).Nodup) :
    (GoEvtxMap.Add (some pg) other = .panic ↔
      ∃ k, (mapGet pg k).isSome ∧ (mapGet other k).isSome)
    ∧ ((¬ ∃ k, (mapGet pg k).isSome ∧ (mapGet other k).isSome) →
        ∃ m, GoEvtxMap.Add (some pg) other = .ok (some m)
          ∧ (∀ k v, mapGet pg k = some v → mapGet m k = some v)
          ∧ (∀ k, mapGet pg k = none → mapGet m k = mapGet other k))
    ∧ (GoEvtxMap.Add none other = .panic ↔ other ≠ [])
    ∧ (other = [] → GoEvtxMap.Add none other = .ok none) := by
  obtain ⟨h1, h2⟩ := GoEvtxMap_Add_spec other pg hnd
  have hok : (¬ ∃ k, (mapGet pg k).isSome ∧ (mapGet other k).isSome) →
      GoEvtxMap.Add.loop pg other = .ok (pg ++ other) := by
    intro hno
    apply h2
    intro k hk hk2
    exact hno ⟨k, (mapGet_isSome_iff pg k).mpr hk, (mapGet_isSome_iff other k).mpr hk2⟩
  refine ⟨⟨fun hp => ?_, ?_⟩, fun hno => ⟨pg ++ other, ?_, ?_, ?_⟩, ?_, ?_⟩
  · by_contra hno
    rw [GoEvtxMap.Add, hok hno] at hp
    cases hp
  · rintro ⟨k, hk1, hk2⟩
    rw [GoEvtxMap.Add,
      h1 ⟨k, (mapGet_isSome_iff pg k).mp hk1, (mapGet_isSome_iff other k).mp hk2⟩]
  · rw [GoEvtxMap.Add, hok hno]
  · intro k v hv
    rw [mapGet_append, hv]
  · intro k hv
    rw [mapGet_append, hv]
  · cases other with
    | nil => simp [GoEvtxMap.Add]
    | cons a rest => simp [GoEvtxMap.Add]
  · intro h
    subst h
    rfl

/-- Claim C15 at the receiver with keys `a`, `b` and the map with key `c`. -/
theorem C15_add_duplicate_key_witness :
    GoEvtxMap.Add (some [("a", .nil), ("b", .str "x")]) [("c", .str "y")]
      = .ok (some [("a", .nil), ("b", .str "x"), ("c", .str "y")])
    ∧ GoEvtxMap.Add (some [("a", .nil), ("b", .str "x")]) [("b", .str "y")] = .panic
    ∧ ((GoEvtxMap.Add (some [("a", .nil), ("b", .str "x")]) [("c", .str "y")] = .panic ↔
      ∃ k, (mapGet [("a", GoEvtxElement.nil), ("b", .str "x")] k).isSome
        ∧ (mapGet [("c", GoEvtxElement.str "y")] k).isSome)
    ∧ ((¬ ∃ k, (mapGet [("a", GoEvtxElement.nil), ("b", .str "x")] k).isSome
          ∧ (mapGet [("c", GoEvtxElement.str "y")] k).isSome) →
        ∃ m, GoEvtxMap.Add (some [("a", .nil), ("b", .str "x")]) [("c", .str "y")] = .ok (some m)
          ∧ (∀ k v, mapGet [("a", GoEvtxElement.nil), ("b", .str "x")] k = some v →
              mapGet m k = some v)
          ∧ (∀ k, mapGet [("a", GoEvtxElement.nil), ("b", .str "x")] k = none →
              mapGet m k = mapGet [("c", GoEvtxElement.str "y")] k))
    ∧ (GoEvtxMap.Add none [("c", .str "y")] = .panic ↔ [("c", GoEvtxElement.str "y")] ≠ [])
    ∧ ([("c", GoEvtxElement.str "y")] = [] → GoEvtxMap.Add none [("c", .str "y")] = .ok none)) :=
  ⟨rfl, rfl,
    C15_add_duplicate_key [("a", .nil), ("b", .str "x")] [("c", .str "y")] (by decide)⟩

theorem NodeToGoEvtx_elements_strings (render : Element → Outcome GoEvtxElement)
    (all : List Element) :
    ∀ (es : List Element) (ss : List String) (acc : String),
      List.Forall₂ (fun e s => render e = .ok (.str s)) es ss →
      NodeToGoEvtx.elements render all es [("Value", .str acc)]
        = .ok [("Value", .str (ss.foldl (fun r s => r ++ s) acc))] := by
  intro es ss acc h
  induction h generalizing acc with
  | nil => rfl
  | cons hes _ ih =>
    rw [NodeToGoEvtx.elements, hes]
    simp only [mapGet_cons, if_true, mapSet_cons]
    exact ih _

/-- Claim C13: for a node without children and without attributes whose leaf
elements (one at least) all render to strings, `NodeToGoEvtx` returns the map
whose only entry is `Value`, the concatenation of these strings in the order of
the leaves. -/
theorem C13_strings_concatenated (fuel : Nat) (ti : TemplateInstance Element)
    (start : Option (ElementStart Element)) (es : List Element) (ss : List String)
    (hk : es ≠ [])
    (hattr : ∀ s, start = some s → s.AttributeList.Attributes = [])
    (hr : List.Forall₂ (fun e s => ElementToGoEvtx fuel ti e = .ok (.str s)) es ss) :
    NodeToGoEvtx (fuel + 1) ti (.mk start es []) = .ok [("Value", .str (String.join ss))] := by
  cases hr with
  | nil => exact absurd rfl hk
  | cons h1 hrest =>
    rename_i e s es1 ss1
    have hel : NodeToGoEvtx.elements (ElementToGoEvtx fuel ti) (e :: es1) (e :: es1) []
        = .ok [("Value", .str (String.join (s :: ss1)))] := by
      rw [NodeToGoEvtx.elements, h1]
      simp only [mapGet, mapSet]
      rw [NodeToGoEvtx_elements_strings _ _ es1 ss1 s hrest]
      simp [String.join]
    rw [NodeToGoEvtx]
    cases start with
    | none =>
      simp only [Node.Start, Node.Child, Node.Element, NodeToGoEvtx.children, hel]
    | some st =>
      simp only [Node.Start, Node.Child, Node.Element, NodeToGoEvtx.children, hel,
        hattr st rfl, NodeToGoEvtx.attributes]

/-- Claim C13 at the case of the specification: the entity references amp, lt
and gt give `Value` = `&<>`. -/
theorem C13_strings_concatenated_witness :
    NodeToGoEvtx 2 nullSlotInstance
        (.mk (some (startOf [68, 97, 116, 97]))
          [.BinXMLEntityReference (entityOf [97, 109, 112]),
           .BinXMLEntityReference (entityOf [108, 116]),
           .BinXMLEntityReference (entityOf [103, 116])] [])
      = .ok [("Value", .str (String.join ["&", "<", ">"]))]
    ∧ String.join ["&", "<", ">"] = "&<>" :=
  ⟨C13_strings_concatenated 1 nullSlotInstance (some (startOf [68, 97, 116, 97]))
    [.BinXMLEntityReference (entityOf [97, 109, 112]),
     .BinXMLEntityReference (entityOf [108, 116]),
     .BinXMLEntityReference (entityOf [103, 116])] ["&", "<", ">"]
    (by simp) (fun s hs => by cases hs; rfl)
    (.cons rfl (.cons rfl (.cons rfl .nil))), by decide⟩

/-- Claim C14 fails for a node without start element: the child `<X>a</X>` has
the map with the only key `Value`, yet the map of the root over it is
`X` -> (`Value` -> `a`), not `X` -> `a`. -/
theorem C14_root_keeps_child_map :
    rootOverText.Start = none ∧ rootOverText.Element = [] ∧ rootOverText.Child = [textNode]
    ∧ NodeToGoEvtx 2 nullSlotInstance textNode = .ok [("Value", .str "a")]
    ∧ NodeToGoEvtx 3 nullSlotInstance rootOverText
        = .ok [("X", .map [("Value", .str "a")])] := by
  refine ⟨rfl, rfl, rfl, rfl, rfl⟩

/-- Claim C14, as the code behaves, for a node with the single child `c` (which
has a start element) and no leaves or attributes, `mc` being the map of `c`.
Without start element the map of the node is always `c.start.name` -> `mc`.
With a start element: if `mc` has exactly the key `Name`, a string, it is
`mc.Name` -> the empty string; if `mc` has exactly `Name`, a string, and `Value`
it is `mc.Name` -> `mc.Value`; if `mc` has exactly the key `Value` it is
`c.start.name` -> `mc.Value`; in every case where `mc` has none of these three
shapes of keys it is `c.start.name` -> `mc`. Nothing is said of a `Name` that is
not a string in the first two shapes. -/
theorem C14_single_child (fuel : Nat) (ti : TemplateInstance Element)
    (s cs : ElementStart Element) (c : Node) (mc : GoEvtxMap)
    (hs : s.AttributeList.Attributes = []) (hc : c.Start = some cs)
    (hmc : NodeToGoEvtx fuel ti c = .ok mc) :
    NodeToGoEvtx (fuel + 1) ti (.mk none [] [c]) = .ok [(cs.Name.String, .map mc)]
    ∧ (∀ nm, mc.length = 1 → mapGet mc "Name" = some (.str nm) →
        NodeToGoEvtx (fuel + 1) ti (.mk (some s) [] [c]) = .ok [(nm, .str "")])
    ∧ (∀ nm v, mc.length = 2 → mapGet mc "Name" = some (.str nm) → mapGet mc "Value" = some v →
        NodeToGoEvtx (fuel + 1) ti (.mk (some s) [] [c]) = .ok [(nm, v)])
    ∧ (∀ v, mc.length = 1 → mapGet mc "Value" = some v →
        NodeToGoEvtx (fuel + 1) ti (.mk (some s) [] [c]) = .ok [(cs.Name.String, v)])
    ∧ ((mc.length = 1 → mapGet mc "Name" = none ∧ mapGet mc "Value" = none) →
        (mc.length = 2 → mapGet mc "Name" = none ∨ mapGet mc "Value" = none) →
        NodeToGoEvtx (fuel + 1) ti (.mk (some s) [] [c]) = .ok [(cs.Name.String, .map mc)]) := by
  obtain ⟨cst, cel, cch⟩ := c
  simp only [Node.Start] at hc
  subst hc
  have hc : (Node.mk (some cs) cel cch).Start = some cs := rfl
  have hdef : NodeToGoEvtx (fuel + 1) ti (.mk (some s) [] [.mk (some cs) cel cch])
      = NodeToGoEvtx.children (NodeToGoEvtx fuel ti) [.mk (some cs) cel cch] 0 [] := by
    rw [NodeToGoEvtx]
    simp only [Node.Start, Node.Child, Node.Element]
    cases hch : NodeToGoEvtx.children (NodeToGoEvtx fuel ti) [.mk (some cs) cel cch] 0 [] with
    | ok m => simp only [NodeToGoEvtx.elements, hs, NodeToGoEvtx.attributes]
    | panic => rfl
    | outOfFuel => rfl
  refine ⟨?_, ?_, ?_, ?_, ?_⟩
  · rw [NodeToGoEvtx]
    simp only [Node.Start, Node.Child, hc, hmc]
  · intro nm hl hn
    rw [hdef, NodeToGoEvtx.children, hmc]
    simp [GoEvtxMap.HasKeys, hl, hn, NodeToGoEvtx.children, mapSet]
  · intro nm v hl hn hv
    rw [hdef, NodeToGoEvtx.children, hmc]
    simp [GoEvtxMap.HasKeys, hl, hn, hv, NodeToGoEvtx.children, mapSet]
  · intro v hl hv
    have hn : mapGet mc "Name" = none := by
      match mc, hl, hv with
      | [(k, x)], _, hv =>
        simp only [mapGet_cons] at hv ⊢
        by_cases hk : k = "Value"
        · subst hk
          simp [mapGet]
        · simp [hk, mapGet] at hv
    rw [hdef, NodeToGoEvtx.children, hmc]
    simp [GoEvtxMap.HasKeys, hl, hn, hv, hc, NodeToGoEvtx.children, mapSet, mapGet]
  · intro h1 h2
    rw [hdef, NodeToGoEvtx.children, hmc]
    by_cases hl1 : mc.length = 1
    · obtain ⟨hn, hv⟩ := h1 hl1
      simp [GoEvtxMap.HasKeys, hl1, hn, hv, hc, NodeToGoEvtx.children, mapSet, mapGet]
    · by_cases hl2 : mc.length = 2
      · rcases h2 hl2 with hn | hv
        · simp [GoEvtxMap.HasKeys, hl2, hn, hc, NodeToGoEvtx.children, mapSet, mapGet]
        · simp [GoEvtxMap.HasKeys, hl2, hv, hc, NodeToGoEvtx.children, mapSet, mapGet]
      · simp [GoEvtxMap.HasKeys, hl1, hl2, hc, NodeToGoEvtx.children, mapSet, mapGet]

/-- Claim C14, the behaviour of the code at the single child `<X>a</X>`. -/
theorem C14_single_child_witness :
    NodeToGoEvtx 3 nullSlotInstance (.mk none [] [textNode])
        = .ok [((startOf [88]).Name.String, .map [("Value", .str "a")])]
    ∧ NodeToGoEvtx 3 nullSlotInstance (.mk (some (startOf [68])) [] [textNode])
        = .ok [((startOf [88]).Name.String, .str "a")] :=
  have h := C14_single_child 2 nullSlotInstance (startOf [68]) (startOf [88]) textNode
    [("Value", .str "a")] rfl rfl rfl
  ⟨h.1, h.2.2.2.1 (.str "a") rfl rfl⟩

theorem mapGet_mapSet_same {β : Type} (m : List (String × β)) (k : String) (v : β) :
    mapGet (mapSet m k v) k = some v := by
  induction m with
  | nil => simp [mapSet, mapGet]
  | cons kv rest ih =>
    obtain ⟨k1, v1⟩ := kv
    rw [mapSet_cons]
    by_cases hk : k1 = k
    · simp [hk, mapGet_cons]
    · simp [hk, mapGet_cons, ih]

theorem mapGet_mapSet_ne {β : Type} (m : List (String × β)) (k k2 : String) (v : β)
    (h : k2 ≠ k) : mapGet (mapSet m k v) k2 = mapGet m k2 := by
  induction m with
  | nil => simp [mapSet, mapGet, Ne.symm h]
  | cons kv rest ih =>
    obtain ⟨k1, v1⟩ := kv
    rw [mapSet_cons]
    by_cases hk : k1 = k
    · subst hk
      simp [mapGet_cons, Ne.symm h]
    · simp only [hk, if_false, mapGet_cons, ih]

theorem mapGet_mapDel_ne {β : Type} (m : List (String × β)) (k k2 : String)
    (h : k2 ≠ k) : mapGet (mapDel m k) k2 = mapGet m k2 := by
  induction m with
  | nil => rfl
  | cons kv rest ih =>
    obtain ⟨k1, v1⟩ := kv
    rw [mapDel_cons]
    by_cases hk : k1 = k
    · subst hk
      simp [mapGet_cons, Ne.symm h]
    · simp only [hk, if_false, mapGet_cons, ih]

theorem mapGet_mapDel_same {β : Type} (m : List (String × β)) (k : String)
    (hnd : (m.map Prod.fst).Nodup) : mapGet (mapDel m k) k = none := by
  induction m with
  | nil => rfl
  | cons kv rest ih =>
    obtain ⟨k1, v1⟩ := kv
    simp only [List.map_cons, List.nodup_cons] at hnd
    rw [mapDel_cons]
    by_cases hk : k1 = k
    · subst hk
      simp only [if_true]
      exact (mapGet_eq_none_iff rest k1).mpr hnd.1
    · simp only [hk, if_false, mapGet_cons]
      exact ih hnd.2

theorem GoEvtxMap_Get_Del_other (p : GoEvtxMap) (k1 : String) (rest : List String)
    (h : k1 ≠ "xmlns") :
    GoEvtxMap.Get (mapDel p "xmlns") (k1 :: rest) = GoEvtxMap.Get p (k1 :: rest) := by
  cases rest with
  | nil => simp only [GoEvtxMap.Get, mapGet_mapDel_ne p "xmlns" k1 h]
  | cons k2 rest2 => simp only [GoEvtxMap.Get, mapGet_mapDel_ne p "xmlns" k1 h]

/-- Claim C16 fails at the path `/Event`: for `<Event xmlns="u">a</Event>` the
map of the template instance has `Value` and `xmlns` under `Event`, the map of
the fragment has `Value` only there, so the elements that `Get` returns at
`/Event`, which is not the path `/Event/xmlns`, differ. -/
theorem C16_event_entry_differs :
    xmlnsEvent.GoEvtxMap 3 = .ok [("Event", .map [("Value", .str "a"), ("xmlns", .str "u")])]
    ∧ xmlnsFragment.GoEvtxMap 3 = .ok (some [("Event", .map [("Value", .str "a")])])
    ∧ ["Event"] ≠ XmlnsPath
    ∧ GoEvtxMap.Get [("Event", .map [("Value", .str "a"), ("xmlns", .str "u")])] ["Event"]
        = some (.map [("Value", .str "a"), ("xmlns", .str "u")])
    ∧ GoEvtxMap.Get [("Event", .map [("Value", .str "a")])] ["Event"]
        = some (.map [("Value", .str "a")])
    ∧ GoEvtxElement.map [("Value", .str "a"), ("xmlns", .str "u")]
        ≠ GoEvtxElement.map [("Value", .str "a")] := by
  refine ⟨rfl, rfl, by decide, rfl, rfl, ?_⟩
  intro h
  simp at h

/-- Claim C16, as the code behaves: for a fragment whose element is a
template instance with map `pg` (a map under `Event` having no repeated key), the map of
the fragment has no element at `/Event/xmlns`, and `Get` agrees with `pg` on
every path that is neither `/Event` nor an extension of `/Event/xmlns`; at
`/Event` it returns the map of `pg` there with the key `xmlns` deleted, and the
whole map is `pg` when `pg` has no map under `Event`. -/
theorem C16_xmlns_pruned (fuel : Nat) (f : Fragment Element) (ti : TemplateInstance Element)
    (pg : GoEvtxMap) (hf : f.BinXMLElement = .TemplateInstance ti)
    (hpg : ti.GoEvtxMap fuel = .ok pg)
    (hwf : ∀ p, mapGet pg "Event" = some (.map p) → (p.map Prod.fst).Nodup) :
    ∃ m, f.GoEvtxMap fuel = .ok (some m)
      ∧ GoEvtxMap.Get m XmlnsPath = none
      ∧ (∀ path, path ≠ ["Event"] → ¬ XmlnsPath <+: path →
          GoEvtxMap.Get m path = GoEvtxMap.Get pg path)
      ∧ (∀ p, mapGet pg "Event" = some (.map p) →
          GoEvtxMap.Get m ["Event"] = some (.map (mapDel p "xmlns")))
      ∧ ((∀ p, mapGet pg "Event" ≠ some (.map p)) → m = pg) := by
  refine ⟨GoEvtxMap.DelXmlns pg, ?_, ?_⟩
  · unfold Fragment.GoEvtxMap
    rw [hf]
    simp only [hpg]
  unfold GoEvtxMap.DelXmlns XmlnsPath
  cases hev : mapGet pg "Event" with
  | none =>
    have hd : GoEvtxMap.Del pg ["Event", "xmlns"] = pg := by
      simp only [GoEvtxMap.Del, hev]
    rw [hd]
    refine ⟨?_, fun _ _ _ => rfl, ?_, fun _ => rfl⟩
    · simp only [GoEvtxMap.Get, hev]
    · intro p hp
      cases hp
  | some x =>
    by_cases hx : ∃ p, x = .map p
    · obtain ⟨p, rfl⟩ := hx
      have hd : GoEvtxMap.Del pg ["Event", "xmlns"]
          = mapSet pg "Event" (.map (mapDel p "xmlns")) := by
        simp only [GoEvtxMap.Del, hev]
      rw [hd]
      refine ⟨?_, ?_, ?_, ?_⟩
      · simp only [GoEvtxMap.Get, mapGet_mapSet_same]
        exact mapGet_mapDel_same p "xmlns" (hwf p hev)
      · intro path hne hpre
        match path, hne, hpre with
        | [], _, _ => rfl
        | [k], hne, _ =>
          have hk : k ≠ "Event" := fun hk => hne (by rw [hk])
          simp only [GoEvtxMap.Get, mapGet_mapSet_ne _ _ _ _ hk]
        | k :: k1 :: rest, _, hpre =>
          by_cases hk : k = "Event"
          · subst hk
            have hk1 : k1 ≠ "xmlns" := by
              intro hk1
              apply hpre
              rw [hk1]
              exact ⟨rest, rfl⟩
            simp only [GoEvtxMap.Get, mapGet_mapSet_same, hev]
            exact GoEvtxMap_Get_Del_other p k1 rest hk1
          · simp only [GoEvtxMap.Get, mapGet_mapSet_ne _ _ _ _ hk]
      · intro p2 hp2
        cases hp2
        simp only [GoEvtxMap.Get, mapGet_mapSet_same]
      · intro hno
        exact absurd rfl (hno p)
    · have hd : GoEvtxMap.Del pg ["Event", "xmlns"] = pg := by
        simp only [GoEvtxMap.Del, hev]
        cases x with
        | map p => exact absurd ⟨p, rfl⟩ hx
        | _ => rfl
      rw [hd]
      refine ⟨?_, fun _ _ _ => rfl, ?_, fun _ => rfl⟩
      · simp only [GoEvtxMap.Get, hev]
        cases x with
        | map p => exact absurd ⟨p, rfl⟩ hx
        | _ => rfl
      · intro p hp
        cases hp
        exact absurd ⟨p, rfl⟩ hx

/-- Claim C16, the behaviour of the code at `<Event xmlns="u">a</Event>`. -/
theorem C16_xmlns_pruned_witness :
    ∃ m, xmlnsFragment.GoEvtxMap 3 = .ok (some m)
      ∧ GoEvtxMap.Get m XmlnsPath = none
      ∧ (∀ path, path ≠ ["Event"] → ¬ XmlnsPath <+: path →
          GoEvtxMap.Get m path
            = GoEvtxMap.Get [("Event", .map [("Value", .str "a"), ("xmlns", .str "u")])] path)
      ∧ (∀ p, mapGet [("Event", GoEvtxElement.map [("Value", .str "a"), ("xmlns", .str "u")])]
            "Event" = some (.map p) →
          GoEvtxMap.Get m ["Event"] = some (.map (mapDel p "xmlns")))
      ∧ ((∀ p, mapGet [("Event", GoEvtxElement.map [("Value", .str "a"), ("xmlns", .str "u")])]
            "Event" ≠ some (.map p)) →
          m = [("Event", .map [("Value", .str "a"), ("xmlns", .str "u")])]) :=
  C16_xmlns_pruned 3 xmlnsFragment xmlnsEvent
    [("Event", .map [("Value", .str "a"), ("xmlns", .str "u")])] rfl rfl
    (fun p hp => by
      simp only [mapGet_cons, if_true, Option.some.injEq, GoEvtxElement.map.injEq] at hp
      subst hp
      decide)

theorem unmarshalElems_length {α : Type} (um : α → Reader → α × error × Reader)
    (l : List α) : ∀ r, (unmarshalElems um l r).1.length = l.length := by
  induction l with
  | nil => intro r; rfl
  | cons x rest ih =>
    intro r
    unfold unmarshalElems
    repeat' split
    · rfl
    · rename_i _ _ r1 _ _ ys e r2 h2
      have := ih r1
      rw [h2] at this
      simpa using this

theorem UnmarshaInitSlice_length {α : Type} (um : α → Reader → α × error × Reader)
    (l : List α) (r : Reader) : (UnmarshaInitSlice um l r).1.length = l.length := by
  unfold UnmarshaInitSlice
  split_ifs
  · rfl
  · exact unmarshalElems_length um l r

theorem TemplateInstanceData_values_length (vk : ValueKinds) :
    ∀ fuel ds r e res, TemplateInstanceData.values vk fuel ds r e = some res →
      res.1.length = ds.length := by
  intro fuel
  induction fuel with
  | zero =>
    intro ds r e res h
    rw [TemplateInstanceData.values] at h
    cases h
  | succ n ih =>
    intro ds r e res h
    cases ds with
    | nil =>
      rw [TemplateInstanceData.values] at h
      cases h
      rfl
    | cons vd rest =>
      rw [TemplateInstanceData.values] at h
      split at h
      · cases h
      · split at h
        · cases h
        · rename_i hv
          cases h
          have := ih _ _ _ _ hv
          simpa using this

/-- Claim C19: when the declared `NumValues` (read without error) is negative
or greater than 0x10000, `TemplateInstanceData.Parse` returns an error with the
reader right after the four bytes of the count and the descriptors untouched;
and whenever it returns without error, `ValDescs` and `Values` both have
`NumValues` entries and 0 ≤ `NumValues` ≤ 0x10000. -/
theorem C19_num_values (vk : ValueKinds) (fuel : Nat) (tid : TemplateInstanceData Element)
    (r : Reader) :
    (∀ n r1, UnmarshalS 4 tid.NumValues r = (n, none, r1) → n < 0 ∨ 0x10000 < n →
      (∃ e, TemplateInstanceData.Parse vk (fuel + 1) tid r
          = some ({ tid with NumValues := n }, some e, r1))
      ∧ r1 = ⟨r.s, r.i + 4⟩)
    ∧ (∀ d r2, TemplateInstanceData.Parse vk fuel tid r = some (d, none, r2) →
        0 ≤ d.NumValues ∧ d.NumValues ≤ 0x10000
        ∧ d.ValDescs.length = d.NumValues.toNat ∧ d.Values.length = d.NumValues.toNat) := by
  constructor
  · intro n r1 hn hbad
    obtain ⟨_, hi, hs⟩ := UnmarshalS_ok 4 (by decide) _ _ _ _ hn
    refine ⟨?_, ?_⟩
    · rw [TemplateInstanceData.Parse, hn]
      simp only
      by_cases hneg : n < 0
      · rw [if_pos hneg]
        exact ⟨_, rfl⟩
      · have hbig : n > MaxSliceSize := by
          unfold MaxSliceSize ChunkSize
          omega
        rw [if_neg hneg, if_pos hbig]
        exact ⟨_, rfl⟩
    · obtain ⟨s1, i1⟩ := r1
      simp only at hi hs
      subst hi hs
      rfl
  · intro d r2 h
    cases fuel with
    | zero =>
      rw [TemplateInstanceData.Parse] at h
      cases h
    | succ k =>
      rw [TemplateInstanceData.Parse] at h
      generalize hx : UnmarshalS 4 tid.NumValues r = x at h
      obtain ⟨n, e, r1⟩ := x
      cases e with
      | some e => simp at h
      | none =>
        simp only at h
        by_cases hneg : n < 0
        · rw [if_pos hneg] at h
          simp at h
        · rw [if_neg hneg] at h
          by_cases hbig : n > MaxSliceSize
          · rw [if_pos hbig] at h
            simp at h
          · rw [if_neg hbig] at h
            have hdl : (if n > 0 then
                  UnmarshaInitSlice ValueDescriptor.Unmarshal
                    (List.replicate n.toNat (⟨0, 0, 0⟩ : ValueDescriptor)) r1
                else (List.replicate n.toNat ⟨0, 0, 0⟩, none, r1)).1.length = n.toNat := by
              split_ifs
              · rw [UnmarshaInitSlice_length, List.length_replicate]
              · simp
            generalize hy : (if n > 0 then
                  UnmarshaInitSlice ValueDescriptor.Unmarshal
                    (List.replicate n.toNat (⟨0, 0, 0⟩ : ValueDescriptor)) r1
                else (List.replicate n.toNat ⟨0, 0, 0⟩, none, r1)) = y at h hdl
            obtain ⟨ds, e2, r3⟩ := y
            cases e2 with
            | some e2 => simp at h
            | none =>
              simp only at h hdl
              cases hv : TemplateInstanceData.values vk k ds r3 none with
              | none => rw [hv] at h; cases h
              | some res =>
                obtain ⟨vs, e3, r4⟩ := res
                rw [hv] at h
                simp only [Option.some.injEq, Prod.mk.injEq] at h
                obtain ⟨hd, he, hr⟩ := h
                subst hd
                have hvl := TemplateInstanceData_values_length vk _ _ _ _ _ hv
                simp only at hvl
                unfold MaxSliceSize ChunkSize at hbig
                refine ⟨by simpa using hneg, by simpa using hbig, hdl, ?_⟩
                simp only
                omega

/-- Claim C20: for a value descriptor (its `Size` a `uint16`) whose type tag is
none of the handled kinds, `ParseValueReader` returns an `UnkVal` recording the
position, the tag and the descriptor, with no error, and leaves the reader
`Size` bytes past where it started. -/
theorem C20_unknown_value (vk : ValueKinds) (fuel : Nat) (vd : ValueDescriptor) (r : Reader)
    (hsz : 0 ≤ vd.Size)
    (h0 : IsType vd.ValType NullType = false)
    (h1 : scalarKinds.any (IsType vd.ValType) = false)
    (h2 : IsType vd.ValType BinXmlType = false)
    (h3 : arrayKinds.any (IsArrayOf vd.ValType) = false) :
    ParseValueReader vk (fuel + 1) vd r
      = some (.Value (.UnkVal r.i vd.ValType vd (vk.unkRepr r.i vd.ValType vd)), none,
          ⟨r.s, r.i + vd.Size.toNat⟩) := by
  rw [ParseValueReader]
  simp only [h0, h1, h2, h3, Bool.false_eq_true, if_false, BackupSeeker, RelGoToSeeker]
  rw [if_neg (by omega)]
  have : ((r.i : Int) + vd.Size).toNat = r.i + vd.Size.toNat := by omega
  rw [this]

/-- Claim C20 at the unhandled tag 0x30 with `Size` 5, the reader at index 1. -/
theorem C20_unknown_value_witness :
    ParseValueReader noValues 1 ⟨5, 0x30, 0⟩ ⟨[1, 2, 3], 1⟩
      = some (.Value (.UnkVal 1 0x30 ⟨5, 0x30, 0⟩ .nil), none, ⟨[1, 2, 3], 6⟩) :=
  C20_unknown_value noValues 0 ⟨5, 0x30, 0⟩ ⟨[1, 2, 3], 1⟩ (by decide) (by decide) (by decide)
    (by decide) (by decide)

theorem ReadFull_enough (r : Reader) (n : Nat) (h : r.i + n ≤ r.s.length) :
    ReadFull r n = (.ok ((r.s.drop r.i).take n), ⟨r.s, r.i + n⟩) := by
  unfold ReadFull
  have hl : ((r.s.drop r.i).take n).length = n := by
    rw [List.length_take, List.length_drop]
    omega
  simp only [hl, if_true]

theorem UnmarshalS_enough (w : Nat) (old : Int) (r : Reader) (h : r.i + w ≤ r.s.length) :
    UnmarshalS w old r
      = (toSigned w (leNat ((r.s.drop r.i).take w)), none, ⟨r.s, r.i + w⟩) := by
  unfold UnmarshalS
  rw [ReadFull_enough r w h]

theorem TemplateInstance_DataOffset_ok (r : Reader) (offset : Int) (r1 : Reader)
    (h : TemplateInstance.DataOffset r = (offset, none, r1)) :
    r.i + 10 ≤ r.s.length ∧ r1 = r
      ∧ offset = toSigned 4 (leNat ((r.s.drop (r.i + 6)).take 4)) := by
  unfold TemplateInstance.DataOffset at h
  have hg : GoToSeeker r (BackupSeeker r + 6) = ⟨r.s, r.i + 6⟩ := by
    unfold GoToSeeker BackupSeeker
    rw [if_neg (by omega)]
    have : ((r.i : Int) + 6).toNat = r.i + 6 := by omega
    rw [this]
  rw [hg] at h
  generalize hx : UnmarshalS 4 0 ⟨r.s, r.i + 6⟩ = x at h
  obtain ⟨a, e, r2⟩ := x
  simp only [Prod.mk.injEq] at h
  obtain ⟨ha, he, hr⟩ := h
  subst ha he
  obtain ⟨hlen, _, hs⟩ := UnmarshalS_ok 4 (by decide) _ _ _ _ hx
  simp only at hlen hs
  have hlen2 : r.i + 6 + 4 ≤ r.s.length := hlen
  rw [UnmarshalS_enough 4 0 ⟨r.s, r.i + 6⟩ hlen2] at hx
  simp only [Prod.mk.injEq] at hx
  refine ⟨by omega, ?_, hx.1.symm⟩
  rw [← hr]
  unfold GoToSeeker BackupSeeker
  rw [if_neg (by omega)]
  obtain ⟨s2, i2⟩ := r2
  obtain ⟨s, i⟩ := r
  simp only at hs
  subst hs
  simp

theorem TemplateInstance_ParseTemplateDefinitionHeader_enough (ti : TemplateInstance Element)
    (r : Reader) (h : r.i + 10 ≤ r.s.length) :
    ∃ tok hdr, TemplateInstance.ParseTemplateDefinitionHeader ti r
        = ({ ti with Token := tok, Definition := { ti.Definition with Header := hdr } }, none,
            ⟨r.s, r.i + 10⟩)
      ∧ hdr.DataOffset = toSigned 4 (leNat ((r.s.drop (r.i + 6)).take 4)) := by
  unfold TemplateInstance.ParseTemplateDefinitionHeader TemplateDefinitionHeader.Parse
  rw [UnmarshalS_enough 1 _ r (by omega)]
  simp only
  rw [UnmarshalS_enough 1 _ ⟨r.s, r.i + 1⟩ (by simp only; omega)]
  simp only
  rw [UnmarshalS_enough 4 _ ⟨r.s, r.i + 1 + 1⟩ (by simp only; omega)]
  simp only
  rw [UnmarshalS_enough 4 _ ⟨r.s, r.i + 1 + 1 + 4⟩ (by simp only; omega)]
  exact ⟨_, _, rfl, rfl⟩

/-- Claim C18 fails when the instance data cannot be read: on the ten bytes
of a template-instance token whose data offset 10 is a key of the template
table and nothing after them, `Parse` returns no instance but the nil element
and `EOF`. -/
theorem C18_no_instance_on_error :
    instanceHead[0]? = some 0x0c
    ∧ TemplateInstance.DataOffset ⟨instanceHead, 0⟩ = (10, none, ⟨instanceHead, 0⟩)
    ∧ mapGet internedChunk.TemplateTable 10 = some internedBody
    ∧ Parse noValues 2 ⟨instanceHead, 0⟩ (some internedChunk) false
        = some (.Nil, some .EOF, ⟨instanceHead, 36⟩, some internedChunk) := by
  refine ⟨rfl, by decide, rfl, rfl⟩

/-- Claim C18, as the code behaves: for a template-instance token whose data
offset (the i32 at cursor+6, read without error) is a key of the template table
of the chunk, `Parse` reads the ten bytes of token and header, moves the reader
by `Size + 24` of the interned entry exactly when the data offset equals the
position after these ten bytes (the move is dropped when it would lead before
the start), and then parses the instance data: when that succeeds it returns
the instance whose definition data is the interned entry, otherwise the nil element
and the error; the chunk, its template table included, is returned unchanged. -/
theorem C18_interned_template (vk : ValueKinds) (fuel : Nat) (reader : Reader) (ch : Chunk)
    (tiFlag : Bool) (offset : Int) (r1 : Reader) (t : TemplateDefinitionData Element)
    (htok : reader.s[reader.i]? = some 0x0c)
    (hoff : TemplateInstance.DataOffset reader = (offset, none, r1))
    (ht : mapGet ch.TemplateTable offset = some t) :
    (∃ tok hdr,
      Parse vk (fuel + 1) reader (some ch) tiFlag =
        match TemplateInstanceData.Parse vk fuel TemplateInstanceData.zero
            (if offset = (reader.i : Int) + 10 then
               RelGoToSeeker ⟨reader.s, reader.i + 10⟩ (t.Size + 24)
             else ⟨reader.s, reader.i + 10⟩) with
        | none => none
        | some (_, some e, r4) => some (.Nil, some e, r4, some ch)
        | some (d, none, r4) =>
          some (.TemplateInstance ⟨tok, ⟨hdr, t⟩, d⟩, none, r4, some ch))
    ∧ (0 ≤ (reader.i : Int) + 10 + (t.Size + 24) →
        RelGoToSeeker ⟨reader.s, reader.i + 10⟩ (t.Size + 24)
          = ⟨reader.s, ((reader.i : Int) + 10 + (t.Size + 24)).toNat⟩)
    ∧ ((reader.i : Int) + 10 + (t.Size + 24) < 0 →
        RelGoToSeeker ⟨reader.s, reader.i + 10⟩ (t.Size + 24) = ⟨reader.s, reader.i + 10⟩) := by
  obtain ⟨hlen, hr1, _⟩ := TemplateInstance_DataOffset_ok reader offset r1 hoff
  subst hr1
  obtain ⟨tok, hdr, hh, _⟩ :=
    TemplateInstance_ParseTemplateDefinitionHeader_enough TemplateInstance.zero r1 hlen
  refine ⟨⟨tok, hdr, ?_⟩, ?_, ?_⟩
  · rw [Parse, htok]
    simp only [FragmentHeaderToken, TokenOpenStartElementTag1, TokenOpenStartElementTag2,
      TokenNormalSubstitution, TokenOptionalSubstitution, TokenCharRef1, TokenTemplateInstance]
    norm_num
    rw [Parse.templateInstanceCase]
    simp only [hoff, ht, hh, BackupSeeker]
    push_cast
    rfl
  · intro h
    unfold RelGoToSeeker
    simp only
    rw [if_neg (by push_cast; omega)]
    push_cast
    rfl
  · intro h
    unfold RelGoToSeeker
    simp only
    rw [if_pos (by push_cast; omega)]

/-- Claim C18, the behaviour of the code at a token with data offset 10 at the
start of the data, the interned body having size 2: the reader skips to index 36
and the instance without values is returned with the interned body. -/
theorem C18_interned_template_witness :
    (∃ tok hdr,
      Parse noValues 3 ⟨instanceBytes, 0⟩ (some internedChunk) false =
        match TemplateInstanceData.Parse noValues 2 TemplateInstanceData.zero
            (if (10 : Int) = ((0 : Nat) : Int) + 10 then
               RelGoToSeeker ⟨instanceBytes, 0 + 10⟩ (internedBody.Size + 24)
             else ⟨instanceBytes, 0 + 10⟩) with
        | none => none
        | some (_, some e, r4) => some (.Nil, some e, r4, some internedChunk)
        | some (d, none, r4) =>
          some (.TemplateInstance ⟨tok, ⟨hdr, internedBody⟩, d⟩, none, r4, some internedChunk))
    ∧ Parse noValues 3 ⟨instanceBytes, 0⟩ (some internedChunk) false
        = some (.TemplateInstance ⟨12, ⟨⟨1, 0, 10⟩, internedBody⟩, ⟨0, [], [], []⟩⟩, none,
            ⟨instanceBytes, 40⟩, some internedChunk) :=
  ⟨(C18_interned_template noValues 2 ⟨instanceBytes, 0⟩ internedChunk false 10
    ⟨instanceBytes, 0⟩ internedBody rfl (by decide) rfl).1, rfl⟩

@[simp] theorem carriesMappedToken_none : carriesMappedToken none = false := rfl

@[simp] theorem carriesMappedToken_errorf (msg : String) :
    carriesMappedToken (some (.errorf msg)) = false := rfl

@[simp] theorem carriesMappedToken_EOF : carriesMappedToken (some .EOF) = false := rfl

@[simp] theorem UnmarshalS_token (w : Nat) (old : Int) (r : Reader) :
    carriesMappedToken (UnmarshalS w old r).2.1 = false := by
  unfold UnmarshalS ReadFull
  simp only
  split_ifs <;> rfl

@[simp] theorem UnmarshalU_token (w : Nat) (old : Int) (r : Reader) :
    carriesMappedToken (UnmarshalU w old r).2.1 = false := by
  unfold UnmarshalU ReadFull
  simp only
  split_ifs <;> rfl

theorem unmarshalElems_token {α : Type} (um : α → Reader → α × error × Reader)
    (hum : ∀ x r, carriesMappedToken (um x r).2.1 = false) (l : List α) :
    ∀ r, carriesMappedToken (unmarshalElems um l r).2.1 = false := by
  induction l with
  | nil => intro r; rfl
  | cons x rest ih =>
    intro r
    unfold unmarshalElems
    repeat' split
    · rename_i y e r1 h1
      have := hum x r
      rw [h1] at this
      exact this
    · rename_i _ _ r1 _ _ ys e r2 h2
      have := ih r1
      rw [h2] at this
      exact this

theorem UnmarshaInitSlice_token {α : Type} (um : α → Reader → α × error × Reader)
    (hum : ∀ x r, carriesMappedToken (um x r).2.1 = false) (l : List α) (r : Reader) :
    carriesMappedToken (UnmarshaInitSlice um l r).2.1 = false := by
  unfold UnmarshaInitSlice
  split_ifs
  · rfl
  · exact unmarshalElems_token um hum l r

theorem unmarshalArray_token (l : List Nat) :
    ∀ r, carriesMappedToken (unmarshalArray l r).2.1 = false := by
  induction l with
  | nil => intro r; rfl
  | cons x rest ih =>
    intro r
    unfold unmarshalArray
    repeat' split
    · rename_i _ e r1 h1
      have := UnmarshalU_token 1 (x : Int) r
      rw [h1] at this
      exact this
    · rename_i _ _ r1 _ _ vs e r2 h2
      have := ih r1
      rw [h2] at this
      exact this

theorem token_of_eq {α β : Type} {x : α × error × β} {a : α} {e : error} {b : β}
    (h : x = (a, e, b)) (hx : carriesMappedToken x.2.1 = false) :
    carriesMappedToken e = false := by
  subst h
  exact hx

@[simp] theorem Name_Parse_token (n : Name) (r : Reader) :
    carriesMappedToken (Name.Parse n r).2.1 = false := by
  unfold Name.Parse
  repeat' split
  · rename_i h; exact token_of_eq h (UnmarshalS_token _ _ _)
  · rename_i h; exact token_of_eq h (UnmarshalU_token _ _ _)
  · rename_i h; exact token_of_eq h (UnmarshalU_token _ _ _)
  · rename_i h
    exact token_of_eq h
      (UnmarshaInitSlice_token (UnmarshalU 2) (fun x r => UnmarshalU_token 2 x r) _ _)

@[simp] theorem FragmentHeader_Unmarshal_token (fh : FragmentHeader) (r : Reader) :
    carriesMappedToken (FragmentHeader.Unmarshal fh r).2.1 = false := by
  unfold FragmentHeader.Unmarshal
  repeat' split
  all_goals first
    | rfl
    | (rename_i h; exact token_of_eq h (UnmarshalS_token _ _ _))

@[simp] theorem FragmentHeader_Parse_token (fh : FragmentHeader) (r : Reader) :
    carriesMappedToken (FragmentHeader.Parse fh r).2.1 = false := by
  unfold FragmentHeader.Parse
  split
  rename_i h
  split_ifs
  · rfl
  · exact token_of_eq h (FragmentHeader_Unmarshal_token _ _)

@[simp] theorem NormalSubstitution_Parse_token (n : NormalSubstitution) (r : Reader) :
    carriesMappedToken (NormalSubstitution.Parse n r).2.1 = false := by
  unfold NormalSubstitution.Parse
  repeat' split
  all_goals (rename_i h; exact token_of_eq h (UnmarshalS_token _ _ _))

@[simp] theorem CharEntityRef_Parse_token (c : CharEntityRef) (r : Reader) :
    carriesMappedToken (CharEntityRef.Parse c r).2.1 = false := by
  unfold CharEntityRef.Parse
  repeat' split
  all_goals (rename_i h; exact token_of_eq h (UnmarshalS_token _ _ _))

@[simp] theorem UnicodeTextString_Parse_token (u : UnicodeTextString) (r : Reader) :
    carriesMappedToken (UnicodeTextString.Parse u r).2.1 = false := by
  unfold UnicodeTextString.Parse
  split
  · rename_i h; exact token_of_eq h (UnmarshalS_token _ _ _)
  · split_ifs
    · split
      rename_i h
      exact token_of_eq h
        (UnmarshaInitSlice_token (UnmarshalU 2) (fun x r => UnmarshalU_token 2 x r) _ _)
    · rfl

@[simp] theorem ValueText_Parse_token (vt : ValueText) (r : Reader) :
    carriesMappedToken (ValueText.Parse vt r).2.1 = false := by
  unfold ValueText.Parse
  split
  · rename_i h; exact token_of_eq h (UnmarshalS_token _ _ _)
  · split
    · rename_i h; exact token_of_eq h (UnmarshalS_token _ _ _)
    · split_ifs
      · rfl
      · split
        rename_i h
        exact token_of_eq h (UnicodeTextString_Parse_token _ _)

@[simp] theorem TemplateDefinitionHeader_Parse_token (h : TemplateDefinitionHeader)
    (r : Reader) : carriesMappedToken (TemplateDefinitionHeader.Parse h r).2.1 = false := by
  unfold TemplateDefinitionHeader.Parse
  repeat' split
  all_goals first
    | rfl
    | (rename_i h; exact token_of_eq h (UnmarshalS_token _ _ _))

@[simp] theorem BinXMLEntityReference_Parse_token (x : BinXMLEntityReference) (r : Reader) :
    carriesMappedToken (BinXMLEntityReference.Parse x r).2.1 = false := by
  unfold BinXMLEntityReference.Parse
  split
  · rename_i h; exact token_of_eq h (UnmarshalS_token _ _ _)
  · split
    · rename_i h; exact token_of_eq h (UnmarshalU_token _ _ _)
    · split_ifs
      · split
        rename_i h
        exact token_of_eq h (Name_Parse_token _ _)
      · split
        rename_i h
        exact token_of_eq h (Name_Parse_token _ _)

@[simp] theorem Token_Parse_token (t : Int) (r : Reader) :
    carriesMappedToken (Token.Parse t r).2.1 = false := by
  unfold Token.Parse
  simp

@[simp] theorem ValueDescriptor_Unmarshal_token (vd : ValueDescriptor) (r : Reader) :
    carriesMappedToken (ValueDescriptor.Unmarshal vd r).2.1 = false := by
  unfold ValueDescriptor.Unmarshal
  repeat' split
  all_goals first
    | rfl
    | (rename_i h; exact token_of_eq h (UnmarshalS_token _ _ _))
    | (rename_i h; exact token_of_eq h (UnmarshalU_token _ _ _))

@[simp] theorem TemplateInstance_DataOffset_token (r : Reader) :
    carriesMappedToken (TemplateInstance.DataOffset r).2.1 = false := by
  unfold TemplateInstance.DataOffset
  repeat' split
  all_goals first
    | rfl
    | (rename_i h; exact token_of_eq h (UnmarshalS_token _ _ _))

@[simp] theorem TemplateInstance_ParseTemplateDefinitionHeader_token
    (ti : TemplateInstance Element) (r : Reader) :
    carriesMappedToken (TemplateInstance.ParseTemplateDefinitionHeader ti r).2.1 = false := by
  unfold TemplateInstance.ParseTemplateDefinitionHeader
  repeat' split
  all_goals first
    | rfl
    | (rename_i h; exact token_of_eq h (UnmarshalS_token _ _ _))
    | (rename_i h; exact token_of_eq h (TemplateDefinitionHeader_Parse_token _ _))

theorem Parse_fragmentLoop_token_step (vk : ValueKinds) (n : Nat)
    (i1 : ∀ r c ti res, Evtx.Parse vk n r c ti = some res → carriesMappedToken res.2.1 = false)
    (i2 : ∀ el r c ti res, Parse.fragmentLoop vk n el r c ti = some res →
      carriesMappedToken res.2.1 = false) :
    ∀ el r c ti res, Parse.fragmentLoop vk (n + 1) el r c ti = some res →
      carriesMappedToken res.2.1 = false := by
  intro el r c ti res h
  rw [Parse.fragmentLoop] at h
  try dsimp only at h
  repeat' split at h
  all_goals try cases h
  all_goals try have hA := i1 _ _ _ _ (by assumption)
  all_goals try have hB := i2 _ _ _ _ _ (by assumption)
  all_goals simp_all [tup_eq]

theorem AttributeList_Parse_token_step (vk : ValueKinds) (n : Nat)
    (i5 : ∀ acc r res, AttributeList.ParseAttributes vk n acc r = some res →
      carriesMappedToken res.2.1 = false) :
    ∀ al r res, AttributeList.Parse vk (n + 1) al r = some res →
      carriesMappedToken res.2.1 = false := by
  intro al r res h
  rw [AttributeList.Parse] at h
  split at h
  · rename_i hx
    cases h
    exact token_of_eq hx (UnmarshalS_token _ _ _)
  · split at h
    · cases h
    · rename_i hx
      cases h
      exact i5 _ _ _ hx

theorem AttributeList_ParseAttributes_token_step (vk : ValueKinds) (n : Nat)
    (i5 : ∀ acc r res, AttributeList.ParseAttributes vk n acc r = some res →
      carriesMappedToken res.2.1 = false)
    (i6 : ∀ a r res, Attribute.Parse vk n a r = some res → carriesMappedToken res.2.1 = false) :
    ∀ acc r res, AttributeList.ParseAttributes vk (n + 1) acc r = some res →
      carriesMappedToken res.2.1 = false := by
  intro acc r res h
  rw [AttributeList.ParseAttributes] at h
  split at h
  · cases h
  · rename_i hx
    cases h
    exact i6 _ _ _ hx
  · split_ifs at h
    · cases h
      rfl
    · exact i5 _ _ _ h

theorem Attribute_Parse_token_step (vk : ValueKinds) (n : Nat)
    (i1 : ∀ r c ti res, Evtx.Parse vk n r c ti = some res →
      carriesMappedToken res.2.1 = false) :
    ∀ a r res, Attribute.Parse vk (n + 1) a r = some res →
      carriesMappedToken res.2.1 = false := by
  intro a r res h
  rw [Attribute.Parse] at h
  split at h
  · rename_i hx
    cases h
    exact token_of_eq hx (UnmarshalS_token _ _ _)
  · split_ifs at h
    · cases h
      rfl
    · split at h
      · rename_i hx
        cases h
        exact token_of_eq hx (UnmarshalS_token _ _ _)
      · dsimp only at h
        split at h
        · cases h
        · rename_i hx
          cases h
          exact i1 _ _ _ _ hx

theorem TemplateInstance_Parse_token_step (vk : ValueKinds) (n : Nat)
    (i8 : ∀ td r res, TemplateDefinition.Parse vk n td r = some res →
      carriesMappedToken res.2.1 = false)
    (i11 : ∀ d r res, TemplateInstanceData.Parse vk n d r = some res →
      carriesMappedToken res.2.1 = false) :
    ∀ ti r res, TemplateInstance.Parse vk (n + 1) ti r = some res →
      carriesMappedToken res.2.1 = false := by
  intro ti r res h
  rw [TemplateInstance.Parse] at h
  split at h
  · rename_i hx
    cases h
    exact token_of_eq hx (UnmarshalS_token _ _ _)
  · split at h
    · cases h
    · rename_i hx
      cases h
      exact i8 _ _ _ hx
    · split at h
      · cases h
      · rename_i hx
        cases h
        exact i11 _ _ _ hx

theorem TemplateDefinition_Parse_token_step (vk : ValueKinds) (n : Nat)
    (i9 : ∀ td r res, TemplateDefinitionData.Parse vk n td r = some res →
      carriesMappedToken res.2.1 = false) :
    ∀ td r res, TemplateDefinition.Parse vk (n + 1) td r = some res →
      carriesMappedToken res.2.1 = false := by
  intro td r res h
  rw [TemplateDefinition.Parse] at h
  split at h
  · rename_i hx
    cases h
    exact token_of_eq hx (TemplateDefinitionHeader_Parse_token _ _)
  · dsimp only at h
    split at h
    · cases h
    · rename_i hx
      cases h
      exact i9 _ _ _ hx
    · cases h
      rfl

theorem TemplateDefinitionData_Parse_token_step (vk : ValueKinds) (n : Nat)
    (i10 : ∀ el r res, TemplateDefinitionData.elements vk n el r = some res →
      carriesMappedToken res.2.1 = false) :
    ∀ td r res, TemplateDefinitionData.Parse vk (n + 1) td r = some res →
      carriesMappedToken res.2.1 = false := by
  intro td r res h
  rw [TemplateDefinitionData.Parse] at h
  split at h
  · rename_i hx
    cases h
    exact token_of_eq hx (UnmarshalS_token _ _ _)
  · split at h
    · rename_i hx
      cases h
      exact token_of_eq hx (unmarshalArray_token _ _)
    · split at h
      · rename_i hx
        cases h
        exact token_of_eq hx (UnmarshalS_token _ _ _)
      · split at h
        · rename_i hx
          cases h
          exact token_of_eq hx (FragmentHeader_Parse_token _ _)
        · split at h
          · cases h
          · rename_i hx
            cases h
            exact i10 _ _ _ hx
          · cases h
            rfl

theorem TemplateDefinitionData_elements_token_step (vk : ValueKinds) (n : Nat)
    (i1 : ∀ r c ti res, Evtx.Parse vk n r c ti = some res → carriesMappedToken res.2.1 = false)
    (i10 : ∀ el r res, TemplateDefinitionData.elements vk n el r = some res →
      carriesMappedToken res.2.1 = false) :
    ∀ el r res, TemplateDefinitionData.elements vk (n + 1) el r = some res →
      carriesMappedToken res.2.1 = false := by
  intro el r res h
  rw [TemplateDefinitionData.elements] at h
  split at h
  · cases h
  · rename_i hx
    cases h
    exact i1 _ _ _ _ hx
  · cases h
    rfl
  · exact i10 _ _ _ h

theorem TemplateInstanceData_values_token_step (vk : ValueKinds) (n : Nat)
    (i12 : ∀ ds r e res, carriesMappedToken e = false →
      TemplateInstanceData.values vk n ds r e = some res → carriesMappedToken res.2.1 = false)
    (i13 : ∀ vd r res, ParseValueReader vk n vd r = some res →
      carriesMappedToken res.2.1 = false) :
    ∀ ds r e res, carriesMappedToken e = false →
      TemplateInstanceData.values vk (n + 1) ds r e = some res →
      carriesMappedToken res.2.1 = false := by
  intro ds r e res he h
  cases ds with
  | nil =>
    rw [TemplateInstanceData.values] at h
    cases h
    exact he
  | cons vd rest =>
    rw [TemplateInstanceData.values] at h
    split at h
    · cases h
    · rename_i hx
      split at h
      · cases h
      · rename_i hy
        cases h
        have h13 := i13 _ _ _ hx
        dsimp only at h13
        have h12 := i12 _ _ _ _ h13 hy
        exact h12

theorem TemplateInstanceData_Parse_token_step (vk : ValueKinds) (n : Nat)
    (i12 : ∀ ds r e res, carriesMappedToken e = false →
      TemplateInstanceData.values vk n ds r e = some res → carriesMappedToken res.2.1 = false) :
    ∀ d r res, TemplateInstanceData.Parse vk (n + 1) d r = some res →
      carriesMappedToken res.2.1 = false := by
  intro d r res h
  rw [TemplateInstanceData.Parse] at h
  split at h
  · rename_i hx
    cases h
    exact token_of_eq hx (UnmarshalS_token _ _ _)
  · split_ifs at h
    · cases h
      rfl
    · cases h
      rfl
    · dsimp only at h
      split at h
      · rename_i hx
        cases h
        exact token_of_eq hx
          (UnmarshaInitSlice_token _ (fun x r => ValueDescriptor_Unmarshal_token x r) _ _)
      · split at h
        · cases h
        · rename_i hx
          cases h
          exact i12 _ _ _ _ carriesMappedToken_none hx
    · dsimp only at h
      split at h
      · cases h
      · rename_i hx
        cases h
        exact i12 _ _ _ _ carriesMappedToken_none hx

theorem ParseValueReader_token_step (vk : ValueKinds)
    (hvk : ∀ vd r, carriesMappedToken (vk.parse vd r).2.1 = false) (n : Nat)
    (i1 : ∀ r c ti res, Evtx.Parse vk n r c ti = some res →
      carriesMappedToken res.2.1 = false) :
    ∀ vd r res, ParseValueReader vk (n + 1) vd r = some res →
      carriesMappedToken res.2.1 = false := by
  intro vd r res h
  rw [ParseValueReader] at h
  split_ifs at h
  · cases h
    rfl
  · cases h
    exact hvk _ _
  · split at h
    · cases h
    · rename_i hx
      cases h
      exact i1 _ _ _ _ hx
  · cases h
    exact hvk _ _
  · cases h
    rfl

theorem ElementStart_Parse_token_step (vk : ValueKinds) (n : Nat)
    (i4 : ∀ al r res, AttributeList.Parse vk n al r = some res →
      carriesMappedToken res.2.1 = false) :
    ∀ es r res, ElementStart.Parse vk (n + 1) es r = some res →
      carriesMappedToken res.2.1 = false := by
  intro es r res h
  rw [ElementStart.Parse] at h
  dsimp only at h
  generalize hx : UnmarshalS _ _ _ = x at h
  have h1 : carriesMappedToken x.2.1 = false := by rw [← hx]; exact UnmarshalS_token _ _ _
  obtain ⟨t, e, r1⟩ := x
  cases e with
  | some e => cases h; exact h1
  | none =>
  dsimp only at h
  generalize hx2 : (if es.IsTemplateInstance = true then _ else _) = x at h
  have h2 : carriesMappedToken x.2.1 = false := by rw [← hx2]; split_ifs <;> simp
  obtain ⟨d, e, r2⟩ := x
  cases e with
  | some e => cases h; exact h2
  | none =>
  dsimp only at h
  generalize hx3 : UnmarshalS _ _ _ = x at h
  have h3 : carriesMappedToken x.2.1 = false := by rw [← hx3]; exact UnmarshalS_token _ _ _
  obtain ⟨sz, e, r3⟩ := x
  cases e with
  | some e => cases h; exact h3
  | none =>
  dsimp only at h
  generalize hx4 : UnmarshalS _ _ _ = x at h
  have h4 : carriesMappedToken x.2.1 = false := by rw [← hx4]; exact UnmarshalS_token _ _ _
  obtain ⟨no, e, r4⟩ := x
  cases e with
  | some e => cases h; exact h4
  | none =>
  dsimp only at h
  generalize hx5 : Name.Parse _ _ = x at h
  have h5 : carriesMappedToken x.2.1 = false := by rw [← hx5]; exact Name_Parse_token _ _
  obtain ⟨nm, e, r5⟩ := x
  cases e with
  | some e => cases h; exact h5
  | none =>
  dsimp only at h
  generalize hx6 : (if t = TokenOpenStartElementTag2 then _ else _) = x at h
  cases x with
  | none => simp at h
  | some y =>
  obtain ⟨al, e, r7⟩ := y
  have h6 : carriesMappedToken e = false := by
    split_ifs at hx6
    · exact i4 _ _ _ hx6
    · exact i4 _ _ _ hx6
    · cases hx6; rfl
    · cases hx6; rfl
  cases e with
  | some e => cases h; exact h6
  | none =>
  dsimp only at h
  generalize hx8 : UnmarshalU _ _ _ = x at h
  have h8 : carriesMappedToken x.2.1 = false := by rw [← hx8]; exact UnmarshalU_token _ _ _
  obtain ⟨tok, e, r8⟩ := x
  cases e with
  | some e => cases h; exact h8
  | none =>
  dsimp only at h
  split_ifs at h <;> cases h <;> rfl

theorem Parse_templateInstanceCase_token
    (tip : TemplateInstance Element → Reader →
      Option (TemplateInstance Element × error × Reader))
    (idp : TemplateInstanceData Element → Reader →
      Option (TemplateInstanceData Element × error × Reader))
    (h1 : ∀ ti r res, tip ti r = some res → carriesMappedToken res.2.1 = false)
    (h2 : ∀ d r res, idp d r = some res → carriesMappedToken res.2.1 = false) :
    ∀ r c res, Parse.templateInstanceCase tip idp r c = some res →
      carriesMappedToken res.2.1 = false := by
  intro r c res h
  unfold Parse.templateInstanceCase at h
  split at h
  · split at h
    · rename_i hx
      cases h
      exact token_of_eq hx (TemplateInstance_DataOffset_token _)
    · split at h
      · split at h
        · rename_i hx
          cases h
          exact token_of_eq hx (TemplateInstance_ParseTemplateDefinitionHeader_token _ _)
        · dsimp only at h
          split at h
          · cases h
          · rename_i hx
            cases h
            exact h2 _ _ _ hx
          · cases h
            rfl
      · split at h
        · cases h
        · rename_i hx
          cases h
          exact h1 _ _ _ hx
  · split at h
    · cases h
    · rename_i hx
      cases h
      exact h1 _ _ _ hx

set_option maxHeartbeats 2000000 in
theorem Parse_token_step (vk : ValueKinds) (n : Nat)
    (i1 : ∀ r c ti res, Parse vk n r c ti = some res → carriesMappedToken res.2.1 = false)
    (i2 : ∀ el r c ti res, Parse.fragmentLoop vk n el r c ti = some res →
      carriesMappedToken res.2.1 = false)
    (i3 : ∀ es r res, ElementStart.Parse vk n es r = some res →
      carriesMappedToken res.2.1 = false)
    (i7 : ∀ ti r res, TemplateInstance.Parse vk n ti r = some res →
      carriesMappedToken res.2.1 = false)
    (i11 : ∀ d r res, TemplateInstanceData.Parse vk n d r = some res →
      carriesMappedToken res.2.1 = false) :
    ∀ r c ti res, Parse vk (n + 1) r c ti = some res → carriesMappedToken res.2.1 = false := by
  intro r c ti res h
  rw [Parse] at h
  cases hp : r.s[r.i]? with
  | none => rw [hp] at h; cases h; rfl
  | some token =>
    rw [hp] at h
    dsimp only at h
    by_cases h0 : (token : Int) = FragmentHeaderToken
    · rw [if_pos h0] at h
      generalize hx : Parse vk n _ c ti = x at h
      cases x with
      | none => simp at h
      | some y =>
        have hy := i1 _ _ _ _ hx
        obtain ⟨elt, e, r2, c2⟩ := y
        cases e with
        | some e => simp only at h; cases h; exact hy
        | none =>
          clear hx i1 i3 i7 i11
          split at h
          · cases h
          · rename_i hq
            cases hq
          · split at h
            · cases h
            · rename_i hq
              cases h
              exact i2 _ _ _ _ _ hq
          · cases h
            rfl
    rw [if_neg h0] at h
    by_cases h1 : (token : Int) = TokenOpenStartElementTag1 ∨ (token : Int) = TokenOpenStartElementTag2
    · rw [if_pos h1] at h
      split at h
      · cases h
      · rename_i hq
        cases h
        exact i3 _ _ _ hq
    rw [if_neg h1] at h
    by_cases h2 : (token : Int) = TokenNormalSubstitution
    · rw [if_pos h2] at h
      cases h
      simp
    rw [if_neg h2] at h
    by_cases h3 : (token : Int) = TokenOptionalSubstitution
    · rw [if_pos h3] at h
      cases h
      simp
    rw [if_neg h3] at h
    by_cases h4 : (token : Int) = TokenCharRef1
    · rw [if_pos h4] at h
      cases h
      simp
    rw [if_neg h4] at h
    by_cases h5 : (token : Int) = TokenTemplateInstance
    · rw [if_pos h5] at h
      exact Parse_templateInstanceCase_token _ _ i7 i11 _ _ _ h
    rw [if_neg h5] at h
    by_cases h6 : (token : Int) = TokenValue1 ∨ (token : Int) = TokenValue2
    · rw [if_pos h6] at h
      cases h
      simp
    rw [if_neg h6] at h
    by_cases h7 : (token : Int) = TokenEntityRef1 ∨ (token : Int) = TokenEntityRef2
    · rw [if_pos h7] at h
      cases h
      simp
    rw [if_neg h7] at h
    by_cases h8 : (token : Int) = TokenEndElementTag
    · rw [if_pos h8] at h
      cases h
      simp
    rw [if_neg h8] at h
    by_cases h9 : (token : Int) = TokenCloseStartElementTag
    · rw [if_pos h9] at h
      cases h
      simp
    rw [if_neg h9] at h
    by_cases h10 : (token : Int) = TokenCloseEmptyElementTag
    · rw [if_pos h10] at h
      cases h
      simp
    rw [if_neg h10] at h
    by_cases h11 : (token : Int) = TokenEOF
    · rw [if_pos h11] at h
      cases h
      rfl
    rw [if_neg h11] at h
    cases h
    simp only [carriesMappedToken, mappedTokens, decide_eq_false_iff_not, List.mem_cons,
      List.mem_singleton, List.not_mem_nil, or_false, not_or]
    unfold FragmentHeaderToken at h0
    unfold TokenOpenStartElementTag1 TokenOpenStartElementTag2 at h1
    unfold TokenNormalSubstitution at h2
    unfold TokenOptionalSubstitution at h3
    unfold TokenCharRef1 at h4
    unfold TokenTemplateInstance at h5
    unfold TokenValue1 TokenValue2 at h6
    unfold TokenEntityRef1 TokenEntityRef2 at h7
    unfold TokenEndElementTag at h8
    unfold TokenCloseStartElementTag at h9
    unfold TokenCloseEmptyElementTag at h10
    unfold TokenEOF at h11
    refine ⟨?_, ?_, ?_, ?_, ?_, ?_, ?_, ?_, ?_, ?_, ?_, ?_, ?_, ?_, ?_⟩ <;> omega

theorem Parse_errors_unmapped (vk : ValueKinds)
    (hvk : ∀ vd r, carriesMappedToken (vk.parse vd r).2.1 = false) : ∀ fuel : Nat,
    (∀ r c ti res, Parse vk fuel r c ti = some res → carriesMappedToken res.2.1 = false)
    ∧ (∀ el r c ti res, Parse.fragmentLoop vk fuel el r c ti = some res →
        carriesMappedToken res.2.1 = false)
    ∧ (∀ es r res, ElementStart.Parse vk fuel es r = some res →
        carriesMappedToken res.2.1 = false)
    ∧ (∀ al r res, AttributeList.Parse vk fuel al r = some res →
        carriesMappedToken res.2.1 = false)
    ∧ (∀ acc r res, AttributeList.ParseAttributes vk fuel acc r = some res →
        carriesMappedToken res.2.1 = false)
    ∧ (∀ a r res, Attribute.Parse vk fuel a r = some res → carriesMappedToken res.2.1 = false)
    ∧ (∀ ti r res, TemplateInstance.Parse vk fuel ti r = some res →
        carriesMappedToken res.2.1 = false)
    ∧ (∀ td r res, TemplateDefinition.Parse vk fuel td r = some res →
        carriesMappedToken res.2.1 = false)
    ∧ (∀ td r res, TemplateDefinitionData.Parse vk fuel td r = some res →
        carriesMappedToken res.2.1 = false)
    ∧ (∀ el r res, TemplateDefinitionData.elements vk fuel el r = some res →
        carriesMappedToken res.2.1 = false)
    ∧ (∀ d r res, TemplateInstanceData.Parse vk fuel d r = some res →
        carriesMappedToken res.2.1 = false)
    ∧ (∀ ds r e res, carriesMappedToken e = false →
        TemplateInstanceData.values vk fuel ds r e = some res →
        carriesMappedToken res.2.1 = false)
    ∧ (∀ vd r res, ParseValueReader vk fuel vd r = some res →
        carriesMappedToken res.2.1 = false) := by
  intro fuel
  induction fuel with
  | zero =>
    refine ⟨?_, ?_, ?_, ?_, ?_, ?_, ?_, ?_, ?_, ?_, ?_, ?_, ?_⟩
    · intro r c ti res h; rw [Parse] at h; cases h
    · intro el r c ti res h; rw [Parse.fragmentLoop] at h; cases h
    · intro es r res h; rw [ElementStart.Parse] at h; cases h
    · intro al r res h; rw [AttributeList.Parse] at h; cases h
    · intro acc r res h; rw [AttributeList.ParseAttributes] at h; cases h
    · intro a r res h; rw [Attribute.Parse] at h; cases h
    · intro ti r res h; rw [TemplateInstance.Parse] at h; cases h
    · intro td r res h; rw [TemplateDefinition.Parse] at h; cases h
    · intro td r res h; rw [TemplateDefinitionData.Parse] at h; cases h
    · intro el r res h; rw [TemplateDefinitionData.elements] at h; cases h
    · intro d r res h; rw [TemplateInstanceData.Parse] at h; cases h
    · intro ds r e res _ h; rw [TemplateInstanceData.values] at h; cases h
    · intro vd r res h; rw [ParseValueReader] at h; cases h
  | succ n ih =>
    obtain ⟨i1, i2, i3, i4, i5, i6, i7, i8, i9, i10, i11, i12, i13⟩ := ih
    exact ⟨Parse_token_step vk n i1 i2 i3 i7 i11,
      Parse_fragmentLoop_token_step vk n i1 i2,
      ElementStart_Parse_token_step vk n i4,
      AttributeList_Parse_token_step vk n i5,
      AttributeList_ParseAttributes_token_step vk n i5 i6,
      Attribute_Parse_token_step vk n i1,
      TemplateInstance_Parse_token_step vk n i8 i11,
      TemplateDefinition_Parse_token_step vk n i9,
      TemplateDefinitionData_Parse_token_step vk n i10,
      TemplateDefinitionData_elements_token_step vk n i1 i10,
      TemplateInstanceData_Parse_token_step vk n i12,
      TemplateInstanceData_values_token_step vk n i12 i13,
      ParseValueReader_token_step vk hvk n i1⟩

/-- Claim C17: with the value kinds never producing an `ErrUnknownToken` for a
mapped token, and `b` the byte under the reader: when `b` is none of the mapped
tokens `Parse` returns `ErrUnknownToken` carrying `b` with the reader (and the
chunk) as before the call; when `b` is a mapped token `Parse` never returns
`ErrUnknownToken` carrying `b`; and whatever token an `ErrUnknownToken` returned
by `Parse` carries is not a mapped one. -/
theorem C17_unknown_token (vk : ValueKinds)
    (hvk : ∀ vd r, carriesMappedToken (vk.parse vd r).2.1 = false)
    (fuel : Nat) (r : Reader) (c : Option Chunk) (ti : Bool) (b : Nat)
    (hb : r.s[r.i]? = some b) :
    (b ∉ mappedTokens →
      Parse vk (fuel + 1) r c ti = some (.EmptyElement, some (.ErrUnknownToken b), r, c))
    ∧ (b ∈ mappedTokens → ∀ res, Parse vk fuel r c ti = some res →
        res.2.1 ≠ some (.ErrUnknownToken b))
    ∧ (∀ res x, Parse vk fuel r c ti = some res → res.2.1 = some (.ErrUnknownToken x) →
        x ∉ mappedTokens) := by
  have key : ∀ res x, Parse vk fuel r c ti = some res →
      res.2.1 = some (.ErrUnknownToken x) → x ∉ mappedTokens := by
    intro res x hres hx
    have h := (Parse_errors_unmapped vk hvk fuel).1 r c ti res hres
    rw [hx] at h
    simpa [carriesMappedToken] using h
  refine ⟨fun hu => Parse_unknown_token vk fuel r c ti b hb hu, ?_, key⟩
  intro hm res hres hx
  exact key res b hres hx hm

/-- Claim C17 at the reader on the unmapped byte 0x07. -/
theorem C17_unknown_token_witness :
    (7 ∉ mappedTokens →
      Parse noValues (1 + 1) ⟨[1, 7, 2], 1⟩ none false
        = some (.EmptyElement, some (.ErrUnknownToken 7), ⟨[1, 7, 2], 1⟩, none))
    ∧ (7 ∈ mappedTokens → ∀ res, Parse noValues 1 ⟨[1, 7, 2], 1⟩ none false = some res →
        res.2.1 ≠ some (.ErrUnknownToken 7))
    ∧ (∀ res x, Parse noValues 1 ⟨[1, 7, 2], 1⟩ none false = some res →
        res.2.1 = some (.ErrUnknownToken x) → x ∉ mappedTokens) :=
  C17_unknown_token noValues (fun _ _ => rfl) 1 ⟨[1, 7, 2], 1⟩ none false 7 rfl

/-- The code breaks claim C29: with two values, the first of type `BinXmlType` standing on
the unmapped byte 0x07 and the second of type `NullType`, parsing the first
value returns `ErrUnknownToken`, yet `TemplateInstanceData.Parse` returns nil,
the error of the last value. -/
theorem C29_earlier_error_dropped :
    ParseValueReader noValues 2 ⟨0, 0x21, 0⟩ ⟨twoValueBytes, 12⟩
        = some (.EmptyElement, some (.ErrUnknownToken 7), ⟨twoValueBytes, 12⟩)
    ∧ TemplateInstanceData.Parse noValues 5 TemplateInstanceData.zero ⟨twoValueBytes, 0⟩
        = some (⟨2, [⟨0, 0x21, 0⟩, ⟨0, 0, 0⟩], [.EmptyElement, .Value (.ValueNull 0)], [0, 0]⟩,
            none, ⟨twoValueBytes, 12⟩) := by
  refine ⟨rfl, rfl⟩

theorem TemplateInstanceData_values_last (vk : ValueKinds) :
    ∀ (ds : List ValueDescriptor) (fuel : Nat) (vd : ValueDescriptor) (r : Reader) (e : error)
      (res : List Element × error × Reader),
      TemplateInstanceData.values vk fuel (ds ++ [vd]) r e = some res →
        ∃ k r1 v, ParseValueReader vk k vd r1 = some (v, res.2.1, res.2.2)
          ∧ res.1.getLast? = some v := by
  intro ds
  induction ds with
  | nil =>
    intro fuel vd r e res h
    cases fuel with
    | zero => rw [TemplateInstanceData.values] at h; cases h
    | succ n =>
      simp only [List.nil_append] at h
      rw [TemplateInstanceData.values] at h
      cases hp : ParseValueReader vk n vd r with
      | none => rw [hp] at h; cases h
      | some x =>
        obtain ⟨v, e1, r1⟩ := x
        rw [hp] at h
        dsimp only at h
        cases n with
        | zero => rw [TemplateInstanceData.values] at h; cases h
        | succ m =>
          rw [TemplateInstanceData.values] at h
          cases h
          exact ⟨_, _, _, hp, rfl⟩
  | cons d rest ih =>
    intro fuel vd r e res h
    cases fuel with
    | zero => rw [TemplateInstanceData.values] at h; cases h
    | succ n =>
      simp only [List.cons_append] at h
      rw [TemplateInstanceData.values] at h
      cases hp : ParseValueReader vk n d r with
      | none => rw [hp] at h; cases h
      | some x =>
        obtain ⟨v, e1, r1⟩ := x
        rw [hp] at h
        dsimp only at h
        cases hv : TemplateInstanceData.values vk n (rest ++ [vd]) r1 e1 with
        | none => rw [hv] at h; cases h
        | some y =>
          obtain ⟨vs, e2, r2⟩ := y
          rw [hv] at h
          cases h
          obtain ⟨k, q, w, hk, hl⟩ := ih n vd r1 e1 _ hv
          refine ⟨k, q, w, hk, ?_⟩
          dsimp only at hl ⊢
          cases vs with
          | nil => simp at hl
          | cons a as => simpa using hl

/-- Behaviour of the code for claim C29: the loop over the values keeps the error of
the last round only, so when `TemplateInstanceData.Parse` returns nil with at
least one value, the last descriptor was parsed by `ParseValueReader` without
error into the last entry of `Values`, the reader being left where that call
left it; nothing is implied for the values before the last. -/
theorem C29_last_error_returned (vk : ValueKinds) (fuel : Nat)
    (tid : TemplateInstanceData Element) (r : Reader) (d : TemplateInstanceData Element)
    (r2 : Reader)
    (h : TemplateInstanceData.Parse vk fuel tid r = some (d, none, r2))
    (hn : 0 < d.NumValues) :
    ∃ vd v k r1, d.ValDescs.getLast? = some vd ∧ d.Values.getLast? = some v
      ∧ ParseValueReader vk k vd r1 = some (v, none, r2) := by
  cases fuel with
  | zero =>
    rw [TemplateInstanceData.Parse] at h
    cases h
  | succ k =>
    rw [TemplateInstanceData.Parse] at h
    generalize hx : UnmarshalS 4 tid.NumValues r = x at h
    obtain ⟨n, e, r1⟩ := x
    cases e with
    | some e => simp at h
    | none =>
      simp only at h
      by_cases hneg : n < 0
      · rw [if_pos hneg] at h
        simp at h
      · rw [if_neg hneg] at h
        by_cases hbig : n > MaxSliceSize
        · rw [if_pos hbig] at h
          simp at h
        · rw [if_neg hbig] at h
          have hdl : (if n > 0 then
                UnmarshaInitSlice ValueDescriptor.Unmarshal
                  (List.replicate n.toNat (⟨0, 0, 0⟩ : ValueDescriptor)) r1
              else (List.replicate n.toNat ⟨0, 0, 0⟩, none, r1)).1.length = n.toNat := by
            split_ifs
            · rw [UnmarshaInitSlice_length, List.length_replicate]
            · simp
          generalize hy : (if n > 0 then
                UnmarshaInitSlice ValueDescriptor.Unmarshal
                  (List.replicate n.toNat (⟨0, 0, 0⟩ : ValueDescriptor)) r1
              else (List.replicate n.toNat ⟨0, 0, 0⟩, none, r1)) = y at h hdl
          obtain ⟨ds, e2, r3⟩ := y
          cases e2 with
          | some e2 => simp at h
          | none =>
            simp only at h hdl
            cases hv : TemplateInstanceData.values vk k ds r3 none with
            | none => rw [hv] at h; cases h
            | some res =>
              obtain ⟨vs, e3, r4⟩ := res
              rw [hv] at h
              simp only [Option.some.injEq, Prod.mk.injEq] at h
              obtain ⟨hd, he, hr⟩ := h
              subst hd he hr
              simp only at hn
              have hne : ds ≠ [] := by
                intro hnil
                rw [hnil] at hdl
                simp only [List.length_nil] at hdl
                omega
              obtain ⟨vd, hvd⟩ : ∃ vd, ds.getLast? = some vd := by
                cases hg : ds.getLast? with
                | none => exact absurd (List.getLast?_eq_none_iff.mp hg) hne
                | some vd => exact ⟨vd, rfl⟩
              have hsplit : ds = ds.dropLast ++ [vd] := by
                have := List.dropLast_append_getLast? vd (by simpa using hvd)
                exact this.symm
              rw [hsplit] at hv
              obtain ⟨k2, q, w, hk, hl⟩ := TemplateInstanceData_values_last vk _ _ _ _ _ _ hv
              exact ⟨vd, w, k2, q, hvd, hl, hk⟩

/-- Claim C29, the behaviour of the code at the two values of `twoValueBytes`. -/
theorem C29_last_error_returned_witness :
    ∃ vd v k r1,
      (⟨2, [⟨0, 0x21, 0⟩, ⟨0, 0, 0⟩], [.EmptyElement, .Value (.ValueNull 0)], [0, 0]⟩ :
          TemplateInstanceData Element).ValDescs.getLast? = some vd
      ∧ (⟨2, [⟨0, 0x21, 0⟩, ⟨0, 0, 0⟩], [.EmptyElement, .Value (.ValueNull 0)], [0, 0]⟩ :
          TemplateInstanceData Element).Values.getLast? = some v
      ∧ ParseValueReader noValues k vd r1 = some (v, none, ⟨twoValueBytes, 12⟩) :=
  C29_last_error_returned noValues 5 TemplateInstanceData.zero ⟨twoValueBytes, 0⟩
    ⟨2, [⟨0, 0x21, 0⟩, ⟨0, 0, 0⟩], [.EmptyElement, .Value (.ValueNull 0)], [0, 0]⟩
    ⟨twoValueBytes, 12⟩ rfl (by decide)

/-- The code breaks claim C30: on the ten bytes of a template-instance token and header
with data offset 10 and nothing after them, the offset not being interned, the
parse of the instance returns `EOF`, yet the template table of the chunk holds
the (empty) definition data under the key 10 afterwards. -/
theorem C30_interned_despite_error :
    mapGet NewChunk.TemplateTable 10 = none
    ∧ Parse noValues 4 ⟨instanceHead, 0⟩ (some NewChunk) false
        = some (.TemplateInstance
            { TemplateInstance.zero with
              Token := 12,
              Definition := ⟨⟨1, 0, 10⟩, TemplateDefinitionData.zero⟩ },
            some .EOF, ⟨instanceHead, 10⟩,
            some { NewChunk with TemplateTable := [(10, TemplateDefinitionData.zero)] }) := by
  refine ⟨rfl, rfl⟩

/-- Behaviour of the code for claim C30: for a template-instance token whose data
offset (read without error) is not a key of the template table of the chunk,
`Parse` hands the instance to `TemplateInstance.Parse` and then stores its
definition data in the table under the data offset of its header, whether that
parse returned an error or not; the element, the error and the reader are those
of `TemplateInstance.Parse`. -/
theorem C30_inline_always_interned (vk : ValueKinds) (fuel : Nat) (reader : Reader)
    (ch : Chunk) (tiFlag : Bool) (offset : Int) (r1 : Reader)
    (ti : TemplateInstance Element) (err : error) (r2 : Reader)
    (htok : reader.s[reader.i]? = some 0x0c)
    (hoff : TemplateInstance.DataOffset reader = (offset, none, r1))
    (ht : mapGet ch.TemplateTable offset = none)
    (hti : TemplateInstance.Parse vk fuel TemplateInstance.zero reader = some (ti, err, r2)) :
    Parse vk (fuel + 1) reader (some ch) tiFlag
      = some (.TemplateInstance ti, err, r2,
          some { ch with
                 TemplateTable :=
                   mapSet ch.TemplateTable ti.Definition.Header.DataOffset
                     ti.Definition.Data }) := by
  obtain ⟨_, hr1, _⟩ := TemplateInstance_DataOffset_ok reader offset r1 hoff
  subst hr1
  rw [Parse, htok]
  simp only [FragmentHeaderToken, TokenOpenStartElementTag1, TokenOpenStartElementTag2,
    TokenNormalSubstitution, TokenOptionalSubstitution, TokenCharRef1, TokenTemplateInstance]
  norm_num
  rw [Parse.templateInstanceCase]
  simp only [hoff, ht, hti]

/-- Claim C30, the behaviour of the code at the ten bytes of `instanceHead`. -/
theorem C30_inline_always_interned_witness :
    Parse noValues (3 + 1) ⟨instanceHead, 0⟩ (some NewChunk) false
      = some (.TemplateInstance
            { TemplateInstance.zero with
              Token := 12,
              Definition := ⟨⟨1, 0, 10⟩, TemplateDefinitionData.zero⟩ },
          some .EOF, ⟨instanceHead, 10⟩,
          some { NewChunk with
                 TemplateTable :=
                   mapSet NewChunk.TemplateTable 10 TemplateDefinitionData.zero }) :=
  C30_inline_always_interned noValues 3 ⟨instanceHead, 0⟩ NewChunk false 10 ⟨instanceHead, 0⟩
    { TemplateInstance.zero with
      Token := 12, Definition := ⟨⟨1, 0, 10⟩, TemplateDefinitionData.zero⟩ }
    (some .EOF) ⟨instanceHead, 10⟩ rfl (by decide) rfl rfl

theorem UnmarshalU_enough (w : Nat) (old : Int) (r : Reader) (h : r.i + w ≤ r.s.length) :
    UnmarshalU w old r = ((leNat ((r.s.drop r.i).take w) : Int), none, ⟨r.s, r.i + w⟩) := by
  unfold UnmarshalU
  rw [ReadFull_enough r w h]

theorem unmarshalElems_units_enough :
    ∀ (n : Nat) (r : Reader), r.i + 2 * n ≤ r.s.length →
      ∃ us : List Int, unmarshalElems (UnmarshalU 2) (List.replicate n 0) r
          = (us, none, ⟨r.s, r.i + 2 * n⟩)
        ∧ us.length = n
        ∧ ∀ j, j < n → us[j]? = some ((leNat ((r.s.drop (r.i + 2 * j)).take 2) : Int)) := by
  intro n
  induction n with
  | zero =>
    intro r _
    exact ⟨[], rfl, rfl, fun j hj => absurd hj (by omega)⟩
  | succ n ih =>
    intro r h
    obtain ⟨us, h1, h2, h3⟩ := ih ⟨r.s, r.i + 2⟩ (by simp only; omega)
    refine ⟨(leNat ((r.s.drop r.i).take 2) : Int) :: us, ?_, by simp [h2], ?_⟩
    · rw [List.replicate_succ, unmarshalElems, UnmarshalU_enough 2 0 r (by omega)]
      simp only [h1]
      have : r.i + 2 + 2 * n = r.i + 2 * (n + 1) := by omega
      rw [this]
    · intro j hj
      cases j with
      | zero => simp
      | succ k =>
        simp only [List.getElem?_cons_succ]
        rw [h3 k (by omega)]
        have : r.i + 2 + 2 * k = r.i + 2 * (k + 1) := by omega
        simp only [this]

/-- Behaviour of the code for claim C22: for a declared size s below 65535 and a
reader holding at least 8 + 2(s+1) bytes at the cursor, `Name.Parse` succeeds,
reads the s+1 code units that follow the 8-byte prefix and leaves the cursor
8 + 2(s+1) bytes further. -/
theorem C22_name_parse (n0 : Name) (r : Reader) (s : Nat)
    (hs : leNat ((r.s.drop (r.i + 6)).take 2) = s) (hlt : s < 65535)
    (hlen : r.i + 8 + 2 * (s + 1) ≤ r.s.length) :
    ∃ nm, Name.Parse n0 r = (nm, none, ⟨r.s, r.i + 8 + 2 * (s + 1)⟩)
      ∧ nm.Size = s ∧ nm.UTF16String.length = s + 1
      ∧ ∀ j, j < s + 1 →
          nm.UTF16String[j]? = some ((leNat ((r.s.drop (r.i + 8 + 2 * j)).take 2) : Int)) := by
  obtain ⟨us, h1, h2, h3⟩ := unmarshalElems_units_enough (s + 1) ⟨r.s, r.i + 8⟩
    (by simp only; omega)
  have hu : (uint16 ((s : Int) + 1)).toNat = s + 1 := by
    unfold uint16
    have : ((s : Int) + 1) % 2 ^ 16 = (s : Int) + 1 := Int.emod_eq_of_lt (by omega) (by omega)
    rw [this]
    omega
  refine ⟨⟨toSigned 4 (leNat ((r.s.drop r.i).take 4)),
    (leNat ((r.s.drop (r.i + 4)).take 2) : Int), (s : Int), us⟩, ?_, rfl, h2, ?_⟩
  · unfold Name.Parse
    rw [UnmarshalS_enough 4 _ r (by omega)]
    simp only
    rw [UnmarshalU_enough 2 _ ⟨r.s, r.i + 4⟩ (by simp only; omega)]
    simp only
    rw [UnmarshalU_enough 2 _ ⟨r.s, r.i + 4 + 2⟩ (by simp only; omega)]
    simp only
    have h6 : r.i + 4 + 2 = r.i + 6 := by omega
    have h8 : r.i + 4 + 2 + 2 = r.i + 8 := by omega
    rw [h6, hs, hu]
    unfold UnmarshaInitSlice
    rw [if_neg (by simp)]
    rw [show r.i + 6 + 2 = r.i + 8 by omega, h1]
  · intro j hj
    exact h3 j hj

/-- Claim C22 at the name `ab`. -/
theorem C22_name_parse_witness :
    ∃ nm, Name.Parse Name.zero ⟨nameAbBytes, 0⟩ = (nm, none, ⟨nameAbBytes, 0 + 8 + 2 * (2 + 1)⟩)
      ∧ nm.Size = (2 : Nat) ∧ nm.UTF16String.length = 2 + 1
      ∧ ∀ j, j < 2 + 1 →
          nm.UTF16String[j]?
            = some ((leNat ((nameAbBytes.drop (0 + 8 + 2 * j)).take 2) : Int)) :=
  C22_name_parse Name.zero ⟨nameAbBytes, 0⟩ 2 rfl (by decide) (by decide)

theorem int64_of_fits (x : Int) (h : fitsInt64 x) : int64 x = x := by
  unfold fitsInt64 at h
  unfold int64
  have : (x + 2 ^ 63) % 2 ^ 64 = x + 2 ^ 63 := Int.emod_eq_of_lt (by omega) (by omega)
  omega

theorem FileTime_Convert_sum (t : Int) (h : FileTime.noOverflow t) :
    (FileTime.Convert t).1 * 10 ^ 9 + (FileTime.Convert t).2
      = (t - 116444736000000000) * 100 := by
  obtain ⟨_, h2, h3, h4, h5⟩ := h
  unfold FileTime.Convert
  simp only
  have e0 : int64 (11644473600 * 10000000) = 116444736000000000 := by decide
  rw [e0, int64_of_fits _ h2, int64_of_fits _ h3, int64_of_fits _ h4, int64_of_fits _ h5]
  ring

/-- Claim C21: for a tick count t on which no `int64` operation of
`FileTime.Convert` overflows, the seconds and nanoseconds returned satisfy
sec * 10^9 + nsec = (t - 116444736000000000) * 100, whatever the `float64`
computation of the seconds rounds to; so two such tick counts with the same
instant are equal. -/
theorem C21_convert_exact (t : Int) (h : FileTime.noOverflow t) :
    (FileTime.Convert t).1 * 10 ^ 9 + (FileTime.Convert t).2
      = (t - 116444736000000000) * 100
    ∧ ∀ t2, FileTime.noOverflow t2 →
        (FileTime.Convert t2).1 * 10 ^ 9 + (FileTime.Convert t2).2
          = (FileTime.Convert t).1 * 10 ^ 9 + (FileTime.Convert t).2 → t2 = t := by
  refine ⟨FileTime_Convert_sum t h, fun t2 h2 he => ?_⟩
  rw [FileTime_Convert_sum t h, FileTime_Convert_sum t2 h2] at he
  omega

/-- Claim C21 at a tick count of the year 2020 with a fraction of a second, and
at 2^53 + 1, which `float64` rounds. -/
theorem C21_convert_exact_witness :
    (FileTime.Convert 132223104123456789 = (1577836812, 345678900)
      ∧ FileTime.Convert 9007199254740993 = (-10743753674, -525900700))
    ∧ ((FileTime.Convert 9007199254740993).1 * 10 ^ 9 + (FileTime.Convert 9007199254740993).2
        = (9007199254740993 - 116444736000000000) * 100
      ∧ ∀ t2, FileTime.noOverflow t2 →
          (FileTime.Convert t2).1 * 10 ^ 9 + (FileTime.Convert t2).2
            = (FileTime.Convert 9007199254740993).1 * 10 ^ 9
              + (FileTime.Convert 9007199254740993).2 → t2 = 9007199254740993) :=
  ⟨by decide!, C21_convert_exact 9007199254740993 (by
    unfold FileTime.noOverflow fitsInt64
    decide!)⟩

theorem mapSet_length_le {α β : Type} [DecidableEq α] (m : List (α × β)) (k : α) (v : β) :
    (mapSet m k v).length ≤ m.length + 1 := by
  induction m with
  | nil => simp [mapSet]
  | cons kv rest ih =>
    obtain ⟨k1, v1⟩ := kv
    unfold mapSet
    split_ifs
    · simp
    · simp only [List.length_cons]
      omega

theorem mapSet_keys {α β : Type} [DecidableEq α] (m : List (α × β)) (k : α) (v : β) (k2 : α)
    (h : k2 ∈ (mapSet m k v).map Prod.fst) : k2 = k ∨ k2 ∈ m.map Prod.fst := by
  induction m with
  | nil =>
    simp only [mapSet, List.map_cons, List.map_nil, List.mem_singleton] at h
    exact Or.inl h
  | cons kv rest ih =>
    obtain ⟨k1, v1⟩ := kv
    unfold mapSet at h
    split_ifs at h with hk
    · simp only [List.map_cons, List.mem_cons] at h ⊢
      rcases h with h | h
      · exact Or.inl h
      · exact Or.inr (Or.inr h)
    · simp only [List.map_cons, List.mem_cons] at h ⊢
      rcases h with h | h
      · exact Or.inr (Or.inl h)
      · rcases ih h with h | h
        · exact Or.inl h
        · exact Or.inr (Or.inr h)

theorem Name_Parse_reads (n : Name) (r : Reader) (nm : Name) (r1 : Reader)
    (h : Name.Parse n r = (nm, none, r1)) : r.i + 4 ≤ r.s.length := by
  unfold Name.Parse at h
  generalize hx : UnmarshalS 4 n.OffsetPrevString r = x at h
  obtain ⟨a, e, q⟩ := x
  cases e with
  | some e => simp at h
  | none => exact (UnmarshalS_ok 4 (by decide) _ _ _ _ hx).1

theorem StringAt_reads (r : Reader) (so : Int) (cs : Name) (r1 : Reader) (hso : 0 < so)
    (h : StringAt r so = (cs, none, r1)) : so + 4 ≤ r.s.length := by
  unfold StringAt at h
  generalize hx : Name.Parse Name.zero (GoToSeeker r so) = x at h
  obtain ⟨a, e, q⟩ := x
  simp only [Prod.mk.injEq] at h
  obtain ⟨_, he, _⟩ := h
  subst he
  have := Name_Parse_reads _ _ _ _ hx
  unfold GoToSeeker at this
  rw [if_neg (by omega)] at this
  simp only at this
  omega

theorem TemplateDefinitionData_Parse_reads (vk : ValueKinds) (fuel : Nat)
    (td : TemplateDefinitionData Element) (r : Reader) (d : TemplateDefinitionData Element)
    (r1 : Reader) (h : TemplateDefinitionData.Parse vk fuel td r = some (d, none, r1)) :
    r.i + 4 ≤ r.s.length := by
  cases fuel with
  | zero => rw [TemplateDefinitionData.Parse] at h; cases h
  | succ n =>
    rw [TemplateDefinitionData.Parse] at h
    generalize hx : UnmarshalS 4 td.Unknown3 r = x at h
    obtain ⟨a, e, q⟩ := x
    cases e with
    | some e => simp at h
    | none => exact (UnmarshalS_ok 4 (by decide) _ _ _ _ hx).1

theorem Chunk_ParseStringTable_loop_keys :
    ∀ (n : Nat) (so : Int) (st : ChunkStringTable) (r : Reader) (st1 : ChunkStringTable)
      (r1 : Reader),
      Chunk.ParseStringTable.loop n so st r = .ok (st1, r1) →
        st1.length ≤ st.length + n
        ∧ ∀ k ∈ st1.map Prod.fst, k ∈ st.map Prod.fst ∨ (0 < k ∧ k + 4 ≤ r.s.length) := by
  intro n
  induction n with
  | zero =>
    intro so st r st1 r1 h
    simp only [Chunk.ParseStringTable.loop, Outcome.ok.injEq, Prod.mk.injEq] at h
    obtain ⟨rfl, _⟩ := h
    exact ⟨le_refl _, fun k hk => Or.inl hk⟩
  | succ n ih =>
    intro so st r st1 r1 h
    rw [Chunk.ParseStringTable.loop] at h
    have k1 := UnmarshalS_s 4 so r
    generalize UnmarshalS 4 so r = x at h k1
    obtain ⟨so1, e, q1⟩ := x
    dsimp only at h k1
    split_ifs at h with hpos
    · have k3 := StringAt_s q1 so1
      generalize hy : StringAt q1 so1 = y at h k3
      obtain ⟨cs, e2, q2⟩ := y
      dsimp only at k3
      cases e2 with
      | some e2 => simp at h
      | none =>
        dsimp only at h
        have hr := StringAt_reads q1 so1 cs q2 hpos hy
        obtain ⟨hl, hk⟩ := ih _ _ _ _ _ h
        refine ⟨?_, ?_⟩
        · have := mapSet_length_le st so1 cs
          omega
        · intro k hkin
          rcases hk k hkin with hin | hb
          · rcases mapSet_keys st so1 cs k hin with rfl | hin2
            · right
              rw [← k1]
              exact ⟨hpos, hr⟩
            · exact Or.inl hin2
          · right
            rw [k3, k1] at hb
            exact hb
    · obtain ⟨hl, hk⟩ := ih _ _ _ _ _ h
      refine ⟨by omega, ?_⟩
      intro k hkin
      rcases hk k hkin with hin | hb
      · exact Or.inl hin
      · right
        rw [k1] at hb
        exact hb

theorem Chunk_ParseTemplateTable_loop_keys (vk : ValueKinds) (fuel : Nat) :
    ∀ (n : Nat) (tdo : Int) (tt : Evtx.TemplateTable) (r : Reader) (tt1 : Evtx.TemplateTable)
      (r1 : Reader),
      Chunk.ParseTemplateTable.loop vk fuel n tdo tt r = some (tt1, none, r1) →
        tt1.length ≤ tt.length + n
        ∧ ∀ k ∈ tt1.map Prod.fst, k ∈ tt.map Prod.fst ∨ (0 < k ∧ k + 4 ≤ r.s.length) := by
  intro n
  induction n with
  | zero =>
    intro tdo tt r tt1 r1 h
    simp only [Chunk.ParseTemplateTable.loop, Option.some.injEq, Prod.mk.injEq, true_and] at h
    obtain ⟨rfl, _⟩ := h
    exact ⟨le_refl _, fun k hk => Or.inl hk⟩
  | succ n ih =>
    intro tdo tt r tt1 r1 h
    rw [Chunk.ParseTemplateTable.loop] at h
    generalize hx : UnmarshalS 4 tdo r = x at h
    obtain ⟨tdo1, e, q1⟩ := x
    cases e with
    | some e => simp at h
    | none =>
      have k1 := (UnmarshalS_ok 4 (by decide) _ _ _ _ hx).2.2
      dsimp only at h
      split_ifs at h with hpos
      · generalize hy : TemplateDefinitionData.Parse vk fuel _ _ = y at h
        cases y with
        | none => simp at h
        | some z =>
          obtain ⟨tdd, e2, q2⟩ := z
          have k2 := (Parse_keeps_slice vk fuel).2.2.2.2.2.2.2.2.1 _ _ _ hy
          cases e2 with
          | some e2 => simp at h
          | none =>
            dsimp only at h k2
            have hr := TemplateDefinitionData_Parse_reads vk fuel _ _ _ _ hy
            unfold GoToSeeker at hr
            rw [if_neg (by omega)] at hr
            simp only at hr
            rw [GoToSeeker_s] at k2
            obtain ⟨hl, hk⟩ := ih _ _ _ _ _ h
            rw [GoToSeeker_s, k2, k1] at hk
            refine ⟨?_, ?_⟩
            · have := mapSet_length_le tt tdo1 tdd
              omega
            · intro k hkin
              rcases hk k hkin with hin | hb
              · rcases mapSet_keys tt tdo1 tdd k hin with rfl | hin2
                · right
                  rw [k1] at hr
                  exact ⟨hpos, by omega⟩
                · exact Or.inl hin2
              · exact Or.inr hb
      · obtain ⟨hl, hk⟩ := ih _ _ _ _ _ h
        rw [k1] at hk
        exact ⟨by omega, hk⟩

/-- Claim C23: after `ParseStringTable` and then `ParseTemplateTable` succeed on
a chunk with empty tables (as `NewChunk` gives) over a buffer of 64 KiB, the
string table has at most 64 entries, the template table at most 32, and every
key k of either table satisfies 0 < k < `ChunkSize`. -/
theorem C23_table_bounds (vk : ValueKinds) (fuel : Nat) (c : Chunk) (r : Reader)
    (c1 c2 : Chunk) (r1 r2 : Reader) (hlen : r.s.length = 65536)
    (hst : c.StringTable = []) (htt : c.TemplateTable = [])
    (hs : c.ParseStringTable r = .ok (c1, r1))
    (ht : c1.ParseTemplateTable vk fuel r1 = some (c2, none, r2)) :
    c2.StringTable.length ≤ 64 ∧ c2.TemplateTable.length ≤ 32
    ∧ (∀ k ∈ c2.StringTable.map Prod.fst, 0 < k ∧ k < ChunkSize)
    ∧ (∀ k ∈ c2.TemplateTable.map Prod.fst, 0 < k ∧ k < ChunkSize) := by
  unfold Chunk.ParseStringTable at hs
  generalize hy : Chunk.ParseStringTable.loop _ _ _ _ = y at hs
  cases y with
  | panic => simp at hs
  | outOfFuel => simp at hs
  | ok p =>
    obtain ⟨st, q1⟩ := p
    simp only [Outcome.ok.injEq, Prod.mk.injEq] at hs
    obtain ⟨hc1, hq1⟩ := hs
    subst hc1 hq1
    obtain ⟨hs1, _⟩ := Chunk_ParseStringTable_loop_ok _ _ _ _ _ _ hy
    obtain ⟨hl1, hk1⟩ := Chunk_ParseStringTable_loop_keys _ _ _ _ _ _ hy
    unfold Chunk.ParseTemplateTable at ht
    dsimp only at ht
    generalize hz : Chunk.ParseTemplateTable.loop vk fuel _ _ _ _ = z at ht
    cases z with
    | none => simp at ht
    | some w =>
      obtain ⟨tt, e, q2⟩ := w
      simp only [Option.some.injEq, Prod.mk.injEq] at ht
      obtain ⟨hc2, he, hq2⟩ := ht
      subst hc2 he hq2
      obtain ⟨hl2, hk2⟩ := Chunk_ParseTemplateTable_loop_keys vk fuel _ _ _ _ _ _ hz
      rw [hst] at hl1 hk1
      rw [htt] at hl2 hk2
      rw [hs1, hlen] at hk2
      rw [hlen] at hk1
      simp only [List.length_nil, sizeStringBucket, sizeTemplateBucket, List.map_nil,
        List.not_mem_nil, false_or] at hl1 hk1 hl2 hk2
      unfold ChunkSize
      refine ⟨by simpa using hl1, by simpa using hl2, ?_, ?_⟩
      · intro k hk
        have := hk1 k hk
        omega
      · intro k hk
        have := hk2 k hk
        omega


theorem tablesBuffer_length : tablesBuffer.length = 65536 := by
  simp only [tablesBuffer, chunkHeaderBytes, ChunkMagic, List.length_append,
    List.length_replicate, List.length_cons, List.length_nil]

set_option maxRecDepth 20000 in
/-- Claim C23 at a buffer with one string slot (the empty name at 512) and no
template: both tables are parsed, the string table holding the key 512. -/
theorem C23_table_bounds_witness :
    ({ NewChunk with StringTable := [(512, ⟨0, 0, 0, [0]⟩)] } : Chunk).StringTable.length ≤ 64
    ∧ ({ NewChunk with StringTable := [(512, ⟨0, 0, 0, [0]⟩)] } : Chunk).TemplateTable.length
        ≤ 32
    ∧ (∀ k ∈ ({ NewChunk with StringTable := [(512, ⟨0, 0, 0, [0]⟩)] } : Chunk).StringTable.map
          Prod.fst, 0 < k ∧ k < ChunkSize)
    ∧ (∀ k ∈ ({ NewChunk with StringTable := [(512, ⟨0, 0, 0, [0]⟩)] } : Chunk).TemplateTable.map
          Prod.fst, 0 < k ∧ k < ChunkSize) :=
  C23_table_bounds noValues 5 NewChunk ⟨tablesBuffer, 128⟩
    { NewChunk with StringTable := [(512, ⟨0, 0, 0, [0]⟩)] }
    { NewChunk with StringTable := [(512, ⟨0, 0, 0, [0]⟩)] }
    ⟨tablesBuffer, 384⟩ ⟨tablesBuffer, 512⟩ tablesBuffer_length rfl rfl (by rfl) (by rfl)

/-- The code breaks claim C28 when a disambiguated name is itself a key: for the children
`<A2>a</A2>`, `<A>b</A>`, `<A>c</A>`, none of whose maps has the key `Name`, the
third child collides on `A`, is stored under `A2` and overwrites the entry of the
first child, so the map has two entries for three children. -/
theorem C28_index_suffix_collides :
    NodeToGoEvtx 2 nullSlotInstance (namedText [65, 50] 97) = .ok [("Value", .str "a")]
    ∧ NodeToGoEvtx 2 nullSlotInstance (namedText [65] 98) = .ok [("Value", .str "b")]
    ∧ NodeToGoEvtx 2 nullSlotInstance (namedText [65] 99) = .ok [("Value", .str "c")]
    ∧ NodeToGoEvtx 3 nullSlotInstance collidingChildren
        = .ok [("A2", .str "c"), ("A", .str "b")] := by
  refine ⟨rfl, rfl, rfl, rfl⟩

theorem NodeToGoEvtx_children_step (render : Node → Outcome GoEvtxMap) (c : Node)
    (cs : ElementStart Element) (node : GoEvtxMap) (rest : List Node) (i : Nat) (m : GoEvtxMap)
    (hc : c.Start = some cs) (hr : render c = .ok node) (hn : noNameShape node) :
    NodeToGoEvtx.children render (c :: rest) i m
      = NodeToGoEvtx.children render rest (i + 1)
          (mapSet m
            (if (mapGet m cs.Name.String).isSome then cs.Name.String ++ toString i
             else cs.Name.String)
            (childEntry node)) := by
  obtain ⟨h1, h2⟩ := hn
  rw [NodeToGoEvtx.children, hr]
  simp only
  rw [if_neg h1, if_neg h2, hc]
  simp only [childEntry]
  split_ifs <;> rfl

theorem NodeToGoEvtx_children_distinct (render : Node → Outcome GoEvtxMap) :
    ∀ (kids : List (Node × ElementStart Element × GoEvtxMap)) (i : Nat) (m : GoEvtxMap),
      (∀ k ∈ kids, k.1.Start = some k.2.1 ∧ render k.1 = .ok k.2.2 ∧ noNameShape k.2.2) →
      (kids.map (fun k => k.2.1.Name.String)).Nodup →
      (∀ k ∈ kids, mapGet m k.2.1.Name.String = none) →
      NodeToGoEvtx.children render (kids.map (fun k => k.1)) i m
        = .ok (m ++ kids.map (fun k => (k.2.1.Name.String, childEntry k.2.2))) := by
  intro kids
  induction kids with
  | nil =>
    intro i m _ _ _
    simp [NodeToGoEvtx.children]
  | cons k rest ih =>
    intro i m hk hnd hm
    obtain ⟨hc, hr, hn⟩ := hk k (List.mem_cons_self _ _)
    simp only [List.map_cons, List.nodup_cons] at hnd
    have hmk := hm k (List.mem_cons_self _ _)
    simp only [List.map_cons]
    rw [NodeToGoEvtx_children_step render k.1 k.2.1 k.2.2 _ i m hc hr hn]
    simp only [hmk, Option.isSome_none, Bool.false_eq_true, if_false]
    rw [mapSet_absent m _ _ hmk]
    rw [ih (i + 1) _ (fun q hq => hk q (List.mem_cons_of_mem _ hq)) hnd.2]
    · simp
    · intro q hq
      rw [mapGet_append, hm q (List.mem_cons_of_mem _ hq)]
      simp only [mapGet_cons]
      have hne : k.2.1.Name.String ≠ q.2.1.Name.String := by
        intro he
        apply hnd.1
        rw [he]
        exact List.mem_map_of_mem (fun k => k.2.1.Name.String) hq
      simp [hne, mapGet]

/-- Behaviour of the code for claim C28, for a node with a start element, no leaf
elements and no attributes, whose children have a start element and maps that
are none of the `Name` shapes: when the names of the children are pairwise
distinct the map has exactly one entry per child, under the name of the child
and in the order of the children; in general a child is stored under its name,
or under its name followed by its positional index when the name is already a
key, replacing whatever entry that key had. -/
theorem C28_children_entries (fuel : Nat) (ti : TemplateInstance Element)
    (s : ElementStart Element) (kids : List (Node × ElementStart Element × GoEvtxMap))
    (hs : s.AttributeList.Attributes = [])
    (hk : ∀ k ∈ kids,
      k.1.Start = some k.2.1 ∧ NodeToGoEvtx fuel ti k.1 = .ok k.2.2 ∧ noNameShape k.2.2) :
    ((kids.map (fun k => k.2.1.Name.String)).Nodup →
      NodeToGoEvtx (fuel + 1) ti (.mk (some s) [] (kids.map (fun k => k.1)))
        = .ok (kids.map (fun k => (k.2.1.Name.String, childEntry k.2.2))))
    ∧ ∀ (c : Node) (cs : ElementStart Element) (node : GoEvtxMap) (rest : List Node) (i : Nat)
        (m : GoEvtxMap), c.Start = some cs → NodeToGoEvtx fuel ti c = .ok node →
        noNameShape node →
        NodeToGoEvtx.children (NodeToGoEvtx fuel ti) (c :: rest) i m
          = NodeToGoEvtx.children (NodeToGoEvtx fuel ti) rest (i + 1)
              (mapSet m
                (if (mapGet m cs.Name.String).isSome then cs.Name.String ++ toString i
                 else cs.Name.String)
                (childEntry node)) := by
  refine ⟨fun hnd => ?_, fun c cs node rest i m hc hr hn =>
    NodeToGoEvtx_children_step _ c cs node rest i m hc hr hn⟩
  have hch := NodeToGoEvtx_children_distinct (NodeToGoEvtx fuel ti) kids 0 [] hk hnd
    (fun _ _ => rfl)
  rw [NodeToGoEvtx]
  simp only [Node.Start, Node.Child, Node.Element, hch, List.nil_append,
    NodeToGoEvtx.elements, hs, NodeToGoEvtx.attributes]

/-- Claim C28, the behaviour of the code at the children `<A>b</A>` and
`<B>c</B>`. -/
theorem C28_children_entries_witness :
    NodeToGoEvtx 3 nullSlotInstance
        (.mk (some (startOf [80])) [] [namedText [65] 98, namedText [66] 99])
      = .ok [("A", .str "b"), ("B", .str "c")] :=
  (C28_children_entries 2 nullSlotInstance (startOf [80])
    [(namedText [65] 98, startOf [65], [("Value", .str "b")]),
     (namedText [66] 99, startOf [66], [("Value", .str "c")])]
    rfl
    (fun k hk => by
      simp only [List.mem_cons, List.mem_singleton, List.not_mem_nil, or_false] at hk
      rcases hk with rfl | rfl
      · exact ⟨rfl, rfl, by unfold noNameShape; decide⟩
      · exact ⟨rfl, rfl, by unfold noNameShape; decide⟩)).1 (by decide)

theorem NodeTree_index_le : ∀ (fuel : Nat) (es : List Element) (i : Nat) (n n1 : Node) (j : Nat),
    NodeTree fuel es i n = some (n1, j) → i ≤ j := by
  intro fuel
  induction fuel with
  | zero => intro es i n n1 j h; rw [NodeTree] at h; cases h
  | succ f ih =>
    intro es i n n1 j h
    rw [NodeTree] at h
    split at h
    · cases h; exact le_refl _
    · split at h
      · cases h
      · rename_i hin
        have h1 := ih _ _ _ _ _ hin
        have h2 := ih _ _ _ _ _ h
        omega
    · cases h; exact le_refl _
    · cases h; exact le_refl _
    · have := ih _ _ _ _ _ h; omega
    · have := ih _ _ _ _ _ h; omega

theorem NodeTree_total : ∀ (fuel : Nat) (es : List Element) (i : Nat) (n : Node),
    1 ≤ fuel → es.length + 1 ≤ fuel + i → ∃ r, NodeTree fuel es i n = some r := by
  intro fuel
  induction fuel with
  | zero => intro es i n h; omega
  | succ f ih =>
    intro es i n _ hf
    rw [NodeTree]
    cases he : es[i]? with
    | none => exact ⟨_, rfl⟩
    | some e =>
      have hi : i < es.length := (List.getElem?_eq_some_iff.mp he).1
      have hf1 : 1 ≤ f := by omega
      cases e with
      | ElementStart s =>
        simp only
        obtain ⟨⟨nn, i1⟩, hr⟩ := ih es (i + 1) Node.zero hf1 (by omega)
        rw [hr]
        simp only
        have := NodeTree_index_le _ _ _ _ _ _ hr
        exact ih es (i1 + 1) _ hf1 (by omega)
      | BinXMLEndElementTag t => exact ⟨_, rfl⟩
      | BinXMLCloseEmptyElementTag t => exact ⟨_, rfl⟩
      | BinXMLCloseStartElementTag t => exact ih es (i + 1) _ hf1 (by omega)
      | _ => exact ih es (i + 1) _ hf1 (by omega)

theorem NodeTree_fuel_succ : ∀ (fuel : Nat) (es : List Element) (i : Nat) (n : Node)
    (r : Node × Nat), NodeTree fuel es i n = some r → NodeTree (fuel + 1) es i n = some r := by
  intro fuel
  induction fuel with
  | zero => intro es i n r h; rw [NodeTree] at h; cases h
  | succ f ih =>
    intro es i n r h
    rw [NodeTree] at h
    rw [NodeTree]
    split at h
    · exact h
    · split at h
      · cases h
      · rename_i nn i1 hin
        rw [ih _ _ _ _ hin]
        exact ih _ _ _ _ h
    · exact h
    · exact h
    · exact ih _ _ _ _ h
    · exact ih _ _ _ _ h

theorem NodeTree_fuel_le (fuel fuel2 : Nat) (es : List Element) (i : Nat) (n : Node)
    (r : Node × Nat) (hle : fuel ≤ fuel2) (h : NodeTree fuel es i n = some r) :
    NodeTree fuel2 es i n = some r := by
  induction hle with
  | refl => exact h
  | step _ ih => exact NodeTree_fuel_succ _ _ _ _ _ ih

theorem drop_eq_cons_getElem {α : Type} (es : List α) (i : Nat) (a : α) (t : List α)
    (h : es.drop i = a :: t) : es[i]? = some a ∧ es.drop (i + 1) = t := by
  constructor
  · have := List.getElem?_drop es i 0
    rw [h] at this
    simpa using this.symm
  · have : es.drop (i + 1) = (es.drop i).drop 1 := by
      rw [List.drop_drop]
    rw [this, h]
    rfl

theorem drop_eq_nil_getElem {α : Type} (es : List α) (i : Nat) (h : es.drop i = []) :
    es[i]? = none := by
  rw [List.getElem?_eq_none_iff]
  exact List.drop_eq_nil_iff.mp h

theorem startsOf_append (a b : List Element) : startsOf (a ++ b) = startsOf a ++ startsOf b := by
  induction a with
  | nil => rfl
  | cons e rest ih =>
    cases e <;> simp [startsOf, ih]

theorem startsBelowAll_append (a b : List Node) :
    startsBelowAll (a ++ b) = startsBelowAll a ++ startsBelowAll b := by
  induction a with
  | nil => simp [startsBelowAll]
  | cons c rest ih => simp [startsBelowAll, ih]

theorem NodeTree_stop (fuel : Nat) (es : List Element) (i : Nat) (n : Node)
    (rest : List Element) (hd : es.drop i = rest)
    (hr : rest = [] ∨ ∃ c t, rest = c :: t ∧ isCloser c = true) :
    NodeTree (fuel + 1) es i n = some (n, i) := by
  rw [NodeTree]
  rcases hr with hr | ⟨c, t, hr, hc⟩
  · rw [hr] at hd
    rw [drop_eq_nil_getElem es i hd]
  · rw [hr] at hd
    rw [(drop_eq_cons_getElem es i c t hd).1]
    cases c <;> simp [isCloser] at hc <;> rfl

theorem NodeTree_leaf (fuel : Nat) (es : List Element) (i : Nat) (n : Node) (e : Element)
    (he : es[i]? = some e) (hl : isLeaf e = true) :
    NodeTree (fuel + 1) es i n
      = NodeTree fuel es (i + 1) (.mk n.Start (n.Element ++ [e]) n.Child) := by
  rw [NodeTree, he]
  cases e <;> simp [isLeaf] at hl <;> rfl

theorem WellNested_run (l : List Element) (n n1 : Node) (h : WellNested l n n1) :
    ∀ (es : List Element) (i : Nat) (rest : List Element), es.drop i = l ++ rest →
      (rest = [] ∨ ∃ c t, rest = c :: t ∧ isCloser c = true) →
      ∀ fuel, l.length + 1 ≤ fuel → NodeTree fuel es i n = some (n1, i + l.length) := by
  induction h with
  | done n =>
    intro es i rest hd hr fuel hf
    obtain ⟨f, rfl⟩ : ∃ f, fuel = f + 1 := ⟨fuel - 1, by simp at hf; omega⟩
    exact NodeTree_stop f es i n rest (by simpa using hd) hr
  | leaf e es1 n n1 hl _ ih =>
    intro es i rest hd hr fuel hf
    simp only [List.length_cons] at hf
    obtain ⟨f, rfl⟩ : ∃ f, fuel = f + 1 := ⟨fuel - 1, by omega⟩
    obtain ⟨h1, h2⟩ := drop_eq_cons_getElem es i e (es1 ++ rest) (by simpa using hd)
    rw [NodeTree_leaf f es i n e h1 hl, ih es (i + 1) rest h2 hr f (by omega)]
    simp only [List.length_cons]
    congr 2
    omega
  | closeStart t es1 n n1 _ ih =>
    intro es i rest hd hr fuel hf
    simp only [List.length_cons] at hf
    obtain ⟨f, rfl⟩ : ∃ f, fuel = f + 1 := ⟨fuel - 1, by omega⟩
    obtain ⟨h1, h2⟩ := drop_eq_cons_getElem es i _ (es1 ++ rest) (by simpa using hd)
    rw [NodeTree, h1]
    simp only
    rw [ih es (i + 1) rest h2 hr f (by omega)]
    simp only [List.length_cons]
    congr 2
    omega
  | group s body c es1 nn n n1 _ hc _ ih1 ih2 =>
    intro es i rest hd hr fuel hf
    simp only [List.length_cons, List.length_append] at hf
    obtain ⟨f, rfl⟩ : ∃ f, fuel = f + 1 := ⟨fuel - 1, by omega⟩
    obtain ⟨h1, h2⟩ := drop_eq_cons_getElem es i _ (body ++ (c :: (es1 ++ rest)))
      (by simpa using hd)
    rw [NodeTree, h1]
    simp only
    rw [ih1 es (i + 1) (c :: (es1 ++ rest)) h2 (Or.inr ⟨c, _, rfl, hc⟩) f (by omega)]
    simp only
    have h3 : es.drop (i + 1 + body.length) = c :: (es1 ++ rest) := by
      have : es.drop (i + 1 + body.length) = (es.drop (i + 1)).drop body.length := by
        rw [List.drop_drop]
      rw [this, h2]
      simp
    obtain ⟨_, h4⟩ := drop_eq_cons_getElem es _ c (es1 ++ rest) h3
    rw [ih2 es (i + 1 + body.length + 1) rest h4 hr f (by omega)]
    simp only [List.length_cons, List.length_append]
    congr 2
    omega

theorem WellNested_starts (l : List Element) (n n1 : Node) (h : WellNested l n n1) :
    n1.Start = n.Start
      ∧ startsBelowAll n1.Child = startsBelowAll n.Child ++ (startsOf l).map some := by
  induction h with
  | done n => simp [startsOf]
  | leaf e es1 n n1 hl _ ih =>
    obtain ⟨h1, h2⟩ := ih
    refine ⟨by simpa [Node.Start] using h1, ?_⟩
    rw [h2]
    cases e <;> simp [isLeaf] at hl <;> simp [startsOf, Node.Child]
  | closeStart t es1 n n1 _ ih =>
    obtain ⟨h1, h2⟩ := ih
    exact ⟨h1, by rw [h2]; simp [startsOf]⟩
  | group s body c es1 nn n n1 _ hc _ ih1 ih2 =>
    obtain ⟨_, hb⟩ := ih1
    obtain ⟨h1, h2⟩ := ih2
    refine ⟨by simpa [Node.Start] using h1, ?_⟩
    rw [h2]
    have hcs : startsOf (c :: es1) = startsOf es1 := by
      cases c <;> simp [isCloser] at hc <;> rfl
    simp only [Node.Child, Node.zero, startsBelowAll, List.nil_append] at hb
    simp only [Node.Child, startsBelowAll_append, startsBelowAll, startsBelow, Node.Start,
      List.append_nil, startsOf, startsOf_append, hcs, List.map_cons, List.map_append, hb]
    simp

/-- Claim C26: for a well-nested element list `es` with the tree `root` that its
open/close matching describes (`WellNested es Node.zero root`), `NodeTree(es, 0)`
returns `root` and the index `len(es)` as soon as the fuel exceeds `len(es)`, as
does `TemplateInstance.Root`; the root has no start element and the nodes below
it are exactly one per start element of `es`, in the order of `es`. -/
theorem C26_well_nested (es : List Element) (root : Node)
    (h : WellNested es Node.zero root) :
    (∀ fuel, es.length + 1 ≤ fuel → NodeTree fuel es 0 Node.zero = some (root, es.length))
    ∧ (∀ ti : TemplateInstance Element, ti.Definition.Data.Elements = es →
        ti.Root = some root)
    ∧ root.Start = none
    ∧ startsBelow root = (startsOf es).map some := by
  have hrun : ∀ fuel, es.length + 1 ≤ fuel →
      NodeTree fuel es 0 Node.zero = some (root, es.length) := by
    intro fuel hf
    have := WellNested_run es Node.zero root h es 0 [] (by simp) (Or.inl rfl) fuel hf
    simpa using this
  obtain ⟨hs, hb⟩ := WellNested_starts es Node.zero root h
  refine ⟨hrun, ?_, hs, ?_⟩
  · intro ti hti
    unfold TemplateInstance.Root
    rw [hti, hrun _ (by omega)]
  · obtain ⟨st, el, ch⟩ := root
    simpa [startsBelow, Node.Child, Node.zero, startsBelowAll] using hb

/-- Claim C26 at the elements of `<P><X>a</X></P>`. -/
theorem C26_well_nested_witness :
    (∀ fuel, nestedElements.length + 1 ≤ fuel →
      NodeTree fuel nestedElements 0 Node.zero = some (nestedRoot, nestedElements.length))
    ∧ (∀ ti : TemplateInstance Element, ti.Definition.Data.Elements = nestedElements →
        ti.Root = some nestedRoot)
    ∧ nestedRoot.Start = none
    ∧ startsBelow nestedRoot = (startsOf nestedElements).map some :=
  C26_well_nested nestedElements nestedRoot
    (WellNested.group (startOf [80])
      [.BinXMLCloseStartElementTag 2, .ElementStart (startOf [88]),
       .BinXMLCloseStartElementTag 2, textA, .BinXMLEndElementTag 4]
      (.BinXMLEndElementTag 4) [] (.mk none [] [.mk (some (startOf [88])) [textA] []])
      Node.zero nestedRoot
      (WellNested.closeStart 2 _ _ _
        (WellNested.group (startOf [88]) [.BinXMLCloseStartElementTag 2, textA]
          (.BinXMLEndElementTag 4) [] (.mk none [textA] []) Node.zero
          (.mk none [] [.mk (some (startOf [88])) [textA] []])
          (WellNested.closeStart 2 _ _ _
            (WellNested.leaf textA [] Node.zero (.mk none [textA] []) rfl
              (WellNested.done _)))
          rfl (WellNested.done _)))
      rfl (WellNested.done _))

theorem seg_split {α : Type} (es : List α) (i j k : Nat) (hij : i ≤ j) (hjk : j ≤ k) :
    (es.take k).drop i = (es.take j).drop i ++ (es.take k).drop j := by
  have h1 : es.take k = es.take j ++ (es.take k).drop j := by
    have := (List.take_append_drop j (es.take k)).symm
    rw [List.take_take, Nat.min_eq_left hjk] at this
    exact this
  conv_lhs => rw [h1]
  by_cases hl : i ≤ (es.take j).length
  · rw [List.drop_append_of_le_length hl]
  · have hlen : (es.take j).length = es.length := by
      rw [List.length_take] at hl ⊢
      omega
    have hd1 : (es.take j).drop i = [] := List.drop_eq_nil_iff.mpr (by omega)
    have hd2 : (es.take k).drop j = [] := by
      apply List.drop_eq_nil_iff.mpr
      rw [List.length_take] at hl ⊢
      omega
    rw [hd1, hd2]
    simp only [List.append_nil]
    exact List.drop_eq_nil_iff.mpr (by omega)

theorem seg_one {α : Type} (es : List α) (i : Nat) (e : α) (h : es[i]? = some e) :
    (es.take (i + 1)).drop i = [e] := by
  induction es generalizing i with
  | nil => simp at h
  | cons a rest ih =>
    cases i with
    | zero =>
      simp only [List.getElem?_cons_zero, Option.some.injEq] at h
      subst h
      rfl
    | succ k =>
      simp only [List.getElem?_cons_succ] at h
      simpa using ih k h

theorem seg_step {α : Type} (es : List α) (i j : Nat) (e : α) (h : es[i]? = some e)
    (hij : i + 1 ≤ j) : (es.take j).drop i = e :: (es.take j).drop (i + 1) := by
  rw [seg_split es i (i + 1) j (by omega) hij, seg_one es i e h]
  rfl

theorem NodeTree_starts : ∀ (fuel : Nat) (es : List Element) (i : Nat) (n n1 : Node) (j : Nat),
    NodeTree fuel es i n = some (n1, j) →
      n1.Start = n.Start
      ∧ ∃ X : List (ElementStart Element),
          startsBelowAll n1.Child = startsBelowAll n.Child ++ X.map some
          ∧ X.Sublist (startsOf ((es.take j).drop i)) := by
  intro fuel
  induction fuel with
  | zero => intro es i n n1 j h; rw [NodeTree] at h; cases h
  | succ f ih =>
    intro es i n n1 j h
    have hle := NodeTree_index_le _ _ _ _ _ _ h
    rw [NodeTree] at h
    split at h
    · cases h
      exact ⟨rfl, [], by simp, List.nil_sublist _⟩
    · rename_i s he
      split at h
      · cases h
      · rename_i nn i1 hin
        have hle1 := NodeTree_index_le _ _ _ _ _ _ hin
        have hle2 := NodeTree_index_le _ _ _ _ _ _ h
        obtain ⟨_, X1, hx1, hs1⟩ := ih _ _ _ _ _ hin
        obtain ⟨hst, X2, hx2, hs2⟩ := ih _ _ _ _ _ h
        refine ⟨by simpa [Node.Start] using hst, s :: (X1 ++ X2), ?_, ?_⟩
        · rw [hx2]
          simp only [Node.Child, Node.zero, startsBelowAll, List.nil_append] at hx1
          simp [Node.Child, startsBelowAll_append, startsBelowAll, startsBelow, Node.Start, hx1]
        · rw [seg_step es i j _ he (by omega)]
          simp only [startsOf]
          apply List.Sublist.cons₂
          rw [seg_split es (i + 1) i1 j hle1 (by omega),
            seg_split es i1 (i1 + 1) j (by omega) hle2]
          simp only [startsOf_append]
          apply List.Sublist.append hs1
          exact List.Sublist.trans hs2 (List.sublist_append_right _ _)
    · cases h
      exact ⟨rfl, [], by simp, List.nil_sublist _⟩
    · cases h
      exact ⟨rfl, [], by simp, List.nil_sublist _⟩
    · rename_i t he
      have hle2 := NodeTree_index_le _ _ _ _ _ _ h
      obtain ⟨hst, X, hx, hs⟩ := ih _ _ _ _ _ h
      refine ⟨hst, X, hx, ?_⟩
      rw [seg_split es i (i + 1) j (by omega) hle2, startsOf_append]
      exact List.Sublist.trans hs (List.sublist_append_right _ _)
    · rename_i e _ _ _ _ he
      have hle2 := NodeTree_index_le _ _ _ _ _ _ h
      obtain ⟨hst, X, hx, hs⟩ := ih _ _ _ _ _ h
      refine ⟨by simpa [Node.Start] using hst, X, by simpa [Node.Child] using hx, ?_⟩
      rw [seg_split es i (i + 1) j (by omega) hle2, startsOf_append]
      exact List.Sublist.trans hs (List.sublist_append_right _ _)

/-- Claim C24: with fuel above `len(es)`, `NodeTree(es, 0)` returns a root
without start element, as does `TemplateInstance.Root`, and the start elements of
the nodes below the root, taken parents first and children in order, are all
non-nil and form a sublist of the start elements of `es`: each node has a start
element of `es`, and each start element of `es` serves for one node at most. -/
theorem C24_no_fabricated_node (es : List Element) (fuel : Nat)
    (hf : es.length + 1 ≤ fuel) :
    ∃ root j, NodeTree fuel es 0 Node.zero = some (root, j)
      ∧ (∀ ti : TemplateInstance Element, ti.Definition.Data.Elements = es →
          ti.Root = some root)
      ∧ root.Start = none
      ∧ ∃ X : List (ElementStart Element),
          startsBelow root = X.map some ∧ X.Sublist (startsOf es) := by
  obtain ⟨⟨root, j⟩, hr⟩ := NodeTree_total fuel es 0 Node.zero (by omega) (by omega)
  obtain ⟨hst, X, hx, hs⟩ := NodeTree_starts fuel es 0 Node.zero root j hr
  refine ⟨root, j, hr, ?_, hst, X, ?_, ?_⟩
  · intro ti hti
    unfold TemplateInstance.Root
    rw [hti]
    obtain ⟨⟨root2, j2⟩, hr2⟩ := NodeTree_total (es.length + 1) es 0 Node.zero (by omega)
      (by omega)
    have h1 := NodeTree_fuel_le _ fuel es 0 Node.zero _ hf hr2
    have h2 := NodeTree_fuel_le _ (2 * es.length + 1) es 0 Node.zero _ (by omega) hr2
    rw [hr] at h1
    cases h1
    rw [h2]
  · obtain ⟨st, el, ch⟩ := root
    simpa [startsBelow, Node.Child, Node.zero, startsBelowAll] using hx
  · simp only [List.drop_zero] at hs
    have : startsOf es = startsOf (es.take j) ++ startsOf (es.drop j) := by
      rw [← startsOf_append, List.take_append_drop]
    rw [this]
    exact List.Sublist.trans hs (List.sublist_append_left _ _)

/-- Claim C24 at the elements of `<P><X>a</X></P>` with fuel 8. -/
theorem C24_no_fabricated_node_witness :
    ∃ root j, NodeTree 8 nestedElements 0 Node.zero = some (root, j)
      ∧ (∀ ti : TemplateInstance Element, ti.Definition.Data.Elements = nestedElements →
          ti.Root = some root)
      ∧ root.Start = none
      ∧ ∃ X : List (ElementStart Element),
          startsBelow root = X.map some ∧ X.Sublist (startsOf nestedElements) :=
  C24_no_fabricated_node nestedElements 8 (by decide)

theorem getElem_drop_cons {α : Type} (es : List α) (i : Nat) (e : α) (h : es[i]? = some e) :
    es.drop i = e :: es.drop (i + 1) := by
  induction es generalizing i with
  | nil => simp at h
  | cons a rest ih =>
    cases i with
    | zero =>
      simp only [List.getElem?_cons_zero, Option.some.injEq] at h
      subst h
      rfl
    | succ k =>
      simp only [List.getElem?_cons_succ] at h
      simpa using ih k h

theorem getElem_drop_nil {α : Type} (es : List α) (i : Nat) (h : es[i]? = none) :
    es.drop i = [] :=
  List.drop_eq_nil_iff.mpr (List.getElem?_eq_none_iff.mp h)

theorem dropCloseStart_cons (e : Element) (t : List Element) :
    dropCloseStart (e :: t)
      = if isCloseStart e then dropCloseStart t else e :: dropCloseStart t := by
  unfold dropCloseStart
  cases h : isCloseStart e <;> simp [List.filter, h]

theorem NodeTree_dropCloseStart : ∀ (fuel : Nat) (es : List Element) (i : Nat) (n n1 : Node)
    (j : Nat), NodeTree fuel es i n = some (n1, j) →
      (es.drop j = [] ∨ ∃ c t, es.drop j = c :: t ∧ isCloser c = true)
      ∧ ∀ (es2 : List Element) (i2 : Nat), es2.drop i2 = dropCloseStart (es.drop i) →
          ∃ j2, NodeTree fuel es2 i2 n = some (n1, j2)
            ∧ es2.drop j2 = dropCloseStart (es.drop j) := by
  intro fuel
  induction fuel with
  | zero => intro es i n n1 j h; rw [NodeTree] at h; cases h
  | succ f ih =>
    intro es i n n1 j h
    rw [NodeTree] at h
    split at h
    · rename_i he
      cases h
      have hd := getElem_drop_nil es i he
      refine ⟨Or.inl hd, fun es2 i2 h2 => ⟨i2, ?_, h2⟩⟩
      rw [hd] at h2
      exact NodeTree_stop f es2 i2 n [] h2 (Or.inl rfl)
    · rename_i s he
      split at h
      · cases h
      · rename_i nn i1 hin
        obtain ⟨hc1, hf1⟩ := ih _ _ _ _ _ hin
        obtain ⟨hc2, hf2⟩ := ih _ _ _ _ _ h
        refine ⟨hc2, fun es2 i2 h2 => ?_⟩
        rw [getElem_drop_cons es i _ he, dropCloseStart_cons] at h2
        simp only [isCloseStart, Bool.false_eq_true, if_false] at h2
        obtain ⟨h3, h4⟩ := drop_eq_cons_getElem es2 i2 _ _ h2
        obtain ⟨j1, hr1, hd1⟩ := hf1 es2 (i2 + 1) h4
        have hnext : es2.drop (j1 + 1) = dropCloseStart (es.drop (i1 + 1)) := by
          rcases hc1 with hnil | ⟨c, t, hct, hcl⟩
          · rw [hnil] at hd1
            have e1 : es.drop (i1 + 1) = [] := by
              apply List.drop_eq_nil_iff.mpr
              have := List.drop_eq_nil_iff.mp hnil
              omega
            have e2 : es2.drop (j1 + 1) = [] := by
              apply List.drop_eq_nil_iff.mpr
              have : es2.drop j1 = [] := by simpa [dropCloseStart] using hd1
              have := List.drop_eq_nil_iff.mp this
              omega
            rw [e1, e2]
            rfl
          · rw [hct, dropCloseStart_cons] at hd1
            have hncs : isCloseStart c = false := by
              cases c <;> simp [isCloser] at hcl <;> rfl
            simp only [hncs, Bool.false_eq_true, if_false] at hd1
            rw [(drop_eq_cons_getElem es2 j1 _ _ hd1).2, (drop_eq_cons_getElem es i1 _ _ hct).2]
        obtain ⟨j2, hr2, hd2⟩ := hf2 es2 (j1 + 1) hnext
        refine ⟨j2, ?_, hd2⟩
        rw [NodeTree, h3]
        simp only [hr1, hr2]
    · rename_i t he
      cases h
      have hd := getElem_drop_cons es i _ he
      refine ⟨Or.inr ⟨_, _, hd, rfl⟩, fun es2 i2 h2 => ⟨i2, ?_, h2⟩⟩
      rw [hd, dropCloseStart_cons] at h2
      simp only [isCloseStart, Bool.false_eq_true, if_false] at h2
      exact NodeTree_stop f es2 i2 n _ h2 (Or.inr ⟨_, _, rfl, rfl⟩)
    · rename_i t he
      cases h
      have hd := getElem_drop_cons es i _ he
      refine ⟨Or.inr ⟨_, _, hd, rfl⟩, fun es2 i2 h2 => ⟨i2, ?_, h2⟩⟩
      rw [hd, dropCloseStart_cons] at h2
      simp only [isCloseStart, Bool.false_eq_true, if_false] at h2
      exact NodeTree_stop f es2 i2 n _ h2 (Or.inr ⟨_, _, rfl, rfl⟩)
    · rename_i t he
      obtain ⟨hc, hf⟩ := ih _ _ _ _ _ h
      refine ⟨hc, fun es2 i2 h2 => ?_⟩
      rw [getElem_drop_cons es i _ he, dropCloseStart_cons] at h2
      simp only [isCloseStart, if_true] at h2
      obtain ⟨j2, hr, hd⟩ := hf es2 i2 h2
      exact ⟨j2, NodeTree_fuel_succ _ _ _ _ _ hr, hd⟩
    · rename_i e hne1 hne2 hne3 hne4 he
      obtain ⟨hc, hf⟩ := ih _ _ _ _ _ h
      refine ⟨hc, fun es2 i2 h2 => ?_⟩
      have hleaf : isLeaf e = true := by
        cases e with
        | ElementStart s => exact absurd rfl (hne1 s)
        | BinXMLEndElementTag t => exact absurd rfl (hne2 t)
        | BinXMLCloseEmptyElementTag t => exact absurd rfl (hne3 t)
        | BinXMLCloseStartElementTag t => exact absurd rfl (hne4 t)
        | _ => rfl
      have hncs : isCloseStart e = false := by
        cases e <;> simp [isLeaf] at hleaf <;> rfl
      rw [getElem_drop_cons es i _ he, dropCloseStart_cons] at h2
      simp only [hncs, Bool.false_eq_true, if_false] at h2
      obtain ⟨h3, h4⟩ := drop_eq_cons_getElem es2 i2 _ _ h2
      obtain ⟨j2, hr, hd⟩ := hf es2 (i2 + 1) h4
      exact ⟨j2, by rw [NodeTree_leaf f es2 i2 n e h3 hleaf]; exact hr, hd⟩

theorem dropCloseStart_length (es : List Element) : (dropCloseStart es).length ≤ es.length := by
  unfold dropCloseStart
  exact List.length_filter_le _ _

/-- Claim C27: with fuel above `len(es)`, `NodeTree(es, 0)` and `NodeTree` on
`es` without its close-start elements return the same tree (the returned indices
apart), and so do `TemplateInstance.Root` on two instances with these element
lists. -/
theorem C27_close_start_ignored (es : List Element) (fuel : Nat)
    (hf : es.length + 1 ≤ fuel) :
    ∃ root j j2, NodeTree fuel es 0 Node.zero = some (root, j)
      ∧ NodeTree fuel (dropCloseStart es) 0 Node.zero = some (root, j2)
      ∧ ∀ ti ti2 : TemplateInstance Element, ti.Definition.Data.Elements = es →
          ti2.Definition.Data.Elements = dropCloseStart es →
          ti.Root = some root ∧ ti2.Root = some root := by
  obtain ⟨⟨root, j⟩, hr⟩ := NodeTree_total fuel es 0 Node.zero (by omega) (by omega)
  obtain ⟨_, hfil⟩ := NodeTree_dropCloseStart fuel es 0 Node.zero root j hr
  obtain ⟨j2, hr2, _⟩ := hfil (dropCloseStart es) 0 (by simp)
  refine ⟨root, j, j2, hr, hr2, fun ti ti2 h1 h2 => ?_⟩
  have hl := dropCloseStart_length es
  have key : ∀ (l : List Element) (f1 f2 : Nat) (r : Node × Nat), l.length + 1 ≤ f1 →
      l.length + 1 ≤ f2 → NodeTree f1 l 0 Node.zero = some r →
      NodeTree f2 l 0 Node.zero = some r := by
    intro l f1 f2 r h1 h2 hres
    obtain ⟨r0, h0⟩ := NodeTree_total (l.length + 1) l 0 Node.zero (by omega) (by omega)
    have ha := NodeTree_fuel_le _ f1 l 0 Node.zero _ h1 h0
    rw [hres] at ha
    cases ha
    exact NodeTree_fuel_le _ f2 l 0 Node.zero _ h2 h0
  constructor
  · unfold TemplateInstance.Root
    rw [h1, key es fuel (2 * es.length + 1) _ hf (by omega) hr]
  · unfold TemplateInstance.Root
    rw [h2, key (dropCloseStart es) fuel (2 * (dropCloseStart es).length + 1) _ (by omega)
      (by omega) hr2]

/-- Claim C27 at the elements of `<P><X>a</X></P>`, which hold two close-start
elements. -/
theorem C27_close_start_ignored_witness :
    (dropCloseStart nestedElements
        = [.ElementStart (startOf [80]), .ElementStart (startOf [88]), textA,
           .BinXMLEndElementTag 4, .BinXMLEndElementTag 4]
      ∧ NodeTree 8 nestedElements 0 Node.zero = some (nestedRoot, 7)
      ∧ NodeTree 8 (dropCloseStart nestedElements) 0 Node.zero = some (nestedRoot, 5))
    ∧ ∃ root j j2, NodeTree 8 nestedElements 0 Node.zero = some (root, j)
      ∧ NodeTree 8 (dropCloseStart nestedElements) 0 Node.zero = some (root, j2)
      ∧ ∀ ti ti2 : TemplateInstance Element, ti.Definition.Data.Elements = nestedElements →
          ti2.Definition.Data.Elements = dropCloseStart nestedElements →
          ti.Root = some root ∧ ti2.Root = some root :=
  ⟨⟨rfl, rfl, rfl⟩, C27_close_start_ignored nestedElements 8 (by decide)⟩

theorem mapSet_same {β : Type} (m : List (String × β)) (k : String) (v : β)
    (h : mapGet m k = some v) : mapSet m k v = m := by
  induction m with
  | nil => simp [mapGet] at h
  | cons a rest ih =>
    obtain ⟨k1, v1⟩ := a
    rw [mapGet_cons] at h
    rw [mapSet_cons]
    by_cases hk : k1 = k
    · rw [if_pos hk] at h
      rw [if_pos hk]
      cases h
      rw [hk]
    · rw [if_neg hk] at h
      rw [if_neg hk, ih h]

theorem GoEvtxMap_Set_map (pg p : GoEvtxMap) (k k1 : String) (rest : List String)
    (new : GoEvtxElement) (h : mapGet pg k = some (.map p)) :
    GoEvtxMap.Set pg (k :: k1 :: rest) new
      = (mapSet pg k (.map (GoEvtxMap.Set p (k1 :: rest) new).1),
          (GoEvtxMap.Set p (k1 :: rest) new).2) := by
  rw [GoEvtxMap.Set, h]

theorem GoEvtxMap_Set_other (pg : GoEvtxMap) (k k1 : String) (rest : List String)
    (new : GoEvtxElement) (h : ∀ p, mapGet pg k ≠ some (.map p)) :
    GoEvtxMap.Set pg (k :: k1 :: rest) new = (pg, some (k :: k1 :: rest)) := by
  rw [GoEvtxMap.Set]
  split
  · rename_i p hp
    exact absurd hp (h p)
  · rfl

theorem GoEvtxMap_Get_map (pg p : GoEvtxMap) (k k1 : String) (rest : List String)
    (h : mapGet pg k = some (.map p)) :
    GoEvtxMap.Get pg (k :: k1 :: rest) = GoEvtxMap.Get p (k1 :: rest) := by
  rw [GoEvtxMap.Get, h]

theorem GoEvtxMap_Get_other (pg : GoEvtxMap) (k k1 : String) (rest : List String)
    (h : ∀ p, mapGet pg k ≠ some (.map p)) :
    GoEvtxMap.Get pg (k :: k1 :: rest) = none := by
  rw [GoEvtxMap.Get]
  split
  · rename_i p hp
    exact absurd hp (h p)
  · rfl

theorem mapGet_map_cases (pg : GoEvtxMap) (k : String) :
    (∃ p, mapGet pg k = some (.map p)) ∨ ∀ p, mapGet pg k ≠ some (.map p) := by
  by_cases h : ∃ p, mapGet pg k = some (.map p)
  · exact Or.inl h
  · exact Or.inr (fun p hp => h ⟨p, hp⟩)

theorem GoEvtxMap_Set_Get : ∀ (p : List String) (m : GoEvtxMap) (v : GoEvtxElement),
    p ≠ [] → (GoEvtxMap.Set m p v).2 = none →
    GoEvtxMap.Get (GoEvtxMap.Set m p v).1 p = some v
  | [], _, _, hp, _ => absurd rfl hp
  | [k], m, v, _, _ => by
    rw [GoEvtxMap.Set, GoEvtxMap.Get]
    exact mapGet_mapSet_same m k v
  | k :: k1 :: rest, m, v, _, h => by
    rcases mapGet_map_cases m k with ⟨q, hq⟩ | hq
    · rw [GoEvtxMap_Set_map m q k k1 rest v hq] at h ⊢
      dsimp only at h ⊢
      rw [GoEvtxMap_Get_map _ _ k k1 rest (mapGet_mapSet_same m k _)]
      exact GoEvtxMap_Set_Get (k1 :: rest) q v (by simp) h
    · rw [GoEvtxMap_Set_other m k k1 rest v hq] at h
      simp at h

theorem GoEvtxMap_Set_unchanged : ∀ (p : List String) (m : GoEvtxMap) (v : GoEvtxElement),
    (GoEvtxMap.Set m p v).2 ≠ none → (GoEvtxMap.Set m p v).1 = m
  | [], _, _, _ => by rw [GoEvtxMap.Set]
  | [k], m, v, h => by
    rw [GoEvtxMap.Set] at h
    exact absurd rfl h
  | k :: k1 :: rest, m, v, h => by
    rcases mapGet_map_cases m k with ⟨q, hq⟩ | hq
    · rw [GoEvtxMap_Set_map m q k k1 rest v hq] at h ⊢
      dsimp only at h ⊢
      rw [GoEvtxMap_Set_unchanged (k1 :: rest) q v h]
      exact mapSet_same m k _ hq
    · rw [GoEvtxMap_Set_other m k k1 rest v hq]

theorem GoEvtxMap_Set_fails_iff : ∀ (p : List String) (m : GoEvtxMap) (v : GoEvtxElement),
    p ≠ [] →
    ((GoEvtxMap.Set m p v).2 ≠ none ↔
      ∃ q, q ≠ [] ∧ q <+: p ∧ q ≠ p ∧ ¬ resolvesToMap m q)
  | [], _, _, hp => absurd rfl hp
  | [k], m, v, _ => by
    rw [GoEvtxMap.Set]
    constructor
    · intro h
      exact absurd rfl h
    · rintro ⟨q, hq, hpre, hne, _⟩
      exfalso
      cases q with
      | nil => exact hq rfl
      | cons a q1 =>
        have hl := hpre.length_le
        have : q1 = [] := by
          cases q1 with
          | nil => rfl
          | cons b q2 => simp at hl
        subst this
        obtain ⟨t, ht⟩ := hpre
        simp at ht
        exact hne (by rw [ht.1])
  | k :: k1 :: rest, m, v, _ => by
    rcases mapGet_map_cases m k with ⟨n, hn⟩ | hn
    · rw [GoEvtxMap_Set_map m n k k1 rest v hn]
      dsimp only
      rw [GoEvtxMap_Set_fails_iff (k1 :: rest) n v (by simp)]
      constructor
      · rintro ⟨q, hq, hpre, hne, hres⟩
        refine ⟨k :: q, by simp, ?_, ?_, ?_⟩
        · obtain ⟨t, ht⟩ := hpre
          exact ⟨t, by simp [ht]⟩
        · intro h
          apply hne
          simpa using h
        · cases q with
          | nil => exact absurd rfl hq
          | cons a q1 =>
            intro ⟨x, hx⟩
            rw [GoEvtxMap_Get_map m n k a q1 hn] at hx
            exact hres ⟨x, hx⟩
      · rintro ⟨q, hq, hpre, hne, hres⟩
        cases q with
        | nil => exact absurd rfl hq
        | cons a q1 =>
          obtain ⟨t, ht⟩ := hpre
          simp only [List.cons_append, List.cons.injEq] at ht
          obtain ⟨rfl, ht⟩ := ht
          cases q1 with
          | nil =>
            exfalso
            apply hres
            exact ⟨n, by rw [GoEvtxMap.Get]; exact hn⟩
          | cons b q2 =>
            refine ⟨b :: q2, by simp, ⟨t, ht⟩, ?_, ?_⟩
            · intro h
              apply hne
              rw [h]
            · intro ⟨x, hx⟩
              apply hres
              exact ⟨x, by rw [GoEvtxMap_Get_map m n a b q2 hn]; exact hx⟩
    · rw [GoEvtxMap_Set_other m k k1 rest v hn]
      constructor
      · intro _
        refine ⟨[k], by simp, ⟨k1 :: rest, rfl⟩, by simp, ?_⟩
        intro ⟨x, hx⟩
        rw [GoEvtxMap.Get] at hx
        exact hn x hx
      · intro _
        simp

/-- Claim C34: for a non-empty path, a `Set` that returns nil is read back by
`Get` on the resulting map; a `Set` that returns the not-found error leaves the
map unchanged; and it returns that error exactly when some non-empty proper
prefix of the path does not resolve to a nested map, no intermediate map being
created.  Maps are values here: a map is not nested in itself. -/
theorem C34_set_then_get (m : GoEvtxMap) (p : List String) (v : GoEvtxElement) (hp : p ≠ []) :
    ((GoEvtxMap.Set m p v).2 = none → GoEvtxMap.Get (GoEvtxMap.Set m p v).1 p = some v)
    ∧ ((GoEvtxMap.Set m p v).2 ≠ none → (GoEvtxMap.Set m p v).1 = m)
    ∧ ((GoEvtxMap.Set m p v).2 ≠ none ↔
        ∃ q, q ≠ [] ∧ q <+: p ∧ q ≠ p ∧ ¬ resolvesToMap m q) :=
  ⟨GoEvtxMap_Set_Get p m v hp, GoEvtxMap_Set_unchanged p m v, GoEvtxMap_Set_fails_iff p m v hp⟩

/-- Claim C34 on the map `{a: {b: 1}}` and the path `a/c`: the new key is set
in the nested map and read back. -/
theorem C34_set_then_get_witness :
    GoEvtxMap.Set nestedMap ["a", "c"] (.str "x")
      = ([("a", .map [("b", .int 1), ("c", .str "x")])], none)
    ∧ GoEvtxMap.Set nestedMap ["b", "c"] (.str "x") = (nestedMap, some ["b", "c"])
    ∧ ((GoEvtxMap.Set nestedMap ["a", "c"] (.str "x")).2 = none →
      GoEvtxMap.Get (GoEvtxMap.Set nestedMap ["a", "c"] (.str "x")).1 ["a", "c"]
        = some (.str "x"))
    ∧ ((GoEvtxMap.Set nestedMap ["a", "c"] (.str "x")).2 ≠ none →
        (GoEvtxMap.Set nestedMap ["a", "c"] (.str "x")).1 = nestedMap)
    ∧ ((GoEvtxMap.Set nestedMap ["a", "c"] (.str "x")).2 ≠ none ↔
        ∃ q, q ≠ [] ∧ q <+: ["a", "c"] ∧ q ≠ ["a", "c"] ∧ ¬ resolvesToMap nestedMap q) :=
  ⟨rfl, rfl, C34_set_then_get nestedMap ["a", "c"] (.str "x") (by simp)⟩

theorem Event_zero_invalid : Event.IsValid ⟨0, EventHeader.zero⟩ = false := by decide

/-- Claim C33: for an offset greater than `Header.OffsetLastRec`, `ParseEvent`
returns the zero `Event` whatever the data of the chunk are; `GoEvtxMap` on that
event returns no map and `ErrInvalidEvent`, the chunk unchanged; and the loop of
`Chunk.Events` sends nothing for that offset and goes on with the next one. -/
theorem C33_beyond_last_record (vk : ValueKinds) (fuel : Nat) (c : Chunk) (offset : Int)
    (h : c.Header.OffsetLastRec < offset) :
    (∀ data : List Nat,
      Chunk.ParseEvent { c with Data := data } offset = .ok ⟨0, EventHeader.zero⟩)
    ∧ c.ParseEvent offset = .ok ⟨0, EventHeader.zero⟩
    ∧ Event.GoEvtxMap vk fuel ⟨0, EventHeader.zero⟩ c = .ok (none, some .ErrInvalidEvent, c)
    ∧ ∀ (rest : List Int) (sent : List (Option GoEvtxMap)),
        Chunk.Events.loop vk fuel (offset :: rest) c sent = Chunk.Events.loop vk fuel rest c sent := by
  have hp : c.ParseEvent offset = .ok ⟨0, EventHeader.zero⟩ := by
    unfold Chunk.ParseEvent
    rw [if_pos h]
  have hg : Event.GoEvtxMap vk fuel ⟨0, EventHeader.zero⟩ c
      = .ok (none, some .ErrInvalidEvent, c) := by
    unfold Event.GoEvtxMap
    rw [Event_zero_invalid]
    rfl
  refine ⟨?_, hp, hg, ?_⟩
  · intro data
    unfold Chunk.ParseEvent
    rw [if_pos h]
  · intro rest sent
    rw [Chunk.Events.loop, hp]
    dsimp only
    rw [hg]

/-- Claim C33 on the chunk with one event, whose last record is at 512, and
the offset 536. -/
theorem C33_beyond_last_record_witness :
    (∀ data : List Nat,
      Chunk.ParseEvent { oneEventChunk with Data := data } 536 = .ok ⟨0, EventHeader.zero⟩)
    ∧ oneEventChunk.ParseEvent 536 = .ok ⟨0, EventHeader.zero⟩
    ∧ Event.GoEvtxMap noValues 0 ⟨0, EventHeader.zero⟩ oneEventChunk
        = .ok (none, some .ErrInvalidEvent, oneEventChunk)
    ∧ ∀ (rest : List Int) (sent : List (Option GoEvtxMap)),
        Chunk.Events.loop noValues 0 (536 :: rest) oneEventChunk sent
          = Chunk.Events.loop noValues 0 rest oneEventChunk sent :=
  C33_beyond_last_record noValues 0 oneEventChunk 536 (by decide)

theorem Chunk_ParseEventOffsets_loop_total (L : Int) (data : List Nat)
    (hlen : data.length ≤ 2 ^ 31 - 2 ^ 16) :
    ∀ (n : Nat) (off : Int) (init : List Int) (r : Reader),
      r.s = data → 0 ≤ off → (data.length : Int) < off + 24 * n →
      ∃ tail e r',
        (∀ fuel, n + 1 ≤ fuel →
          Chunk.ParseEventOffsets.loop L fuel off (init ++ [off]) r
            = some (init ++ off :: tail, e, r'))
        ∧ List.Chain (nextRecord data) off tail := by
  intro n
  induction n with
  | zero =>
    intro off init r hs h0 hm
    by_cases hle : off ≤ L
    · generalize hx : EventHeader.Unmarshal EventHeader.zero ⟨data, off.toNat⟩ = x
      obtain ⟨eh, e, r1⟩ := x
      cases e with
      | none =>
        have hok := EventHeader_Unmarshal_ok EventHeader.zero rfl _ _ _ hx
        dsimp only at hok
        omega
      | some e =>
        refine ⟨[], some e, r1, ?_, List.Chain.nil⟩
        intro fuel hf
        obtain ⟨m, rfl⟩ : ∃ m, fuel = m + 1 := ⟨fuel - 1, by omega⟩
        rw [Chunk.ParseEventOffsets.loop, if_pos hle, GoToSeeker_nonneg r off h0, hs, hx]
    · refine ⟨[], none, r, ?_, List.Chain.nil⟩
      intro fuel hf
      obtain ⟨m, rfl⟩ : ∃ m, fuel = m + 1 := ⟨fuel - 1, by omega⟩
      rw [Chunk.ParseEventOffsets.loop, if_neg hle]
  | succ n ih =>
    intro off init r hs h0 hm
    by_cases hle : off ≤ L
    · generalize hx : EventHeader.Unmarshal EventHeader.zero ⟨data, off.toNat⟩ = x
      obtain ⟨eh, e, r1⟩ := x
      cases e with
      | some e =>
        refine ⟨[], some e, r1, ?_, List.Chain.nil⟩
        intro fuel hf
        obtain ⟨m, rfl⟩ : ∃ m, fuel = m + 1 := ⟨fuel - 1, by omega⟩
        rw [Chunk.ParseEventOffsets.loop, if_pos hle, GoToSeeker_nonneg r off h0, hs, hx]
      | none =>
        have hok := EventHeader_Unmarshal_ok EventHeader.zero rfl _ _ _ hx
        dsimp only at hok
        cases hv : eh.Validate with
        | some e =>
          refine ⟨[], some e, r1, ?_, List.Chain.nil⟩
          intro fuel hf
          obtain ⟨m, rfl⟩ : ∃ m, fuel = m + 1 := ⟨fuel - 1, by omega⟩
          rw [Chunk.ParseEventOffsets.loop, if_pos hle, GoToSeeker_nonneg r off h0, hs, hx]
          simp [hv]
        | none =>
          have hsz := EventHeader_Validate_none eh hv
          have hoff : (off.toNat : Int) = off := Int.toNat_of_nonneg h0
          have hnext : int32 (off + eh.Size) = off + eh.Size := by
            apply int32_of_range <;> omega
          obtain ⟨tail, e, r', hrun, hch⟩ :=
            ih (off + eh.Size) (init ++ [off]) r1 hok.2.2 (by omega) (by omega)
          refine ⟨(off + eh.Size) :: tail, e, r', ?_, ?_⟩
          · intro fuel hf
            obtain ⟨m, rfl⟩ : ∃ m, fuel = m + 1 := ⟨fuel - 1, by omega⟩
            rw [Chunk.ParseEventOffsets.loop, if_pos hle, GoToSeeker_nonneg r off h0, hs, hx]
            dsimp only
            rw [hv]
            dsimp only
            rw [hnext, hrun m (by omega)]
            simp
          · exact List.Chain.cons ⟨h0, by omega, eh, r1, hx, hv, hsz.1, rfl⟩ hch
    · refine ⟨[], none, r, ?_, List.Chain.nil⟩
      intro fuel hf
      obtain ⟨m, rfl⟩ : ∃ m, fuel = m + 1 := ⟨fuel - 1, by omega⟩
      rw [Chunk.ParseEventOffsets.loop, if_neg hle]

/-- Claim C32: on a reader of at most 2^31 - 2^16 bytes (a chunk holds 2^16)
positioned inside the data, `ParseEventOffsets` returns: there is one result
that every fuel above a twenty-fourth of the length of the data gives. In that
result, with or without an error, `EventOffsets` begins with the position of the
reader and each entry is followed by a greater one, namely the entry plus the
size, at least 24, of the header that the 24 bytes at the entry decode to and
that passes `Validate`; so the list is strictly increasing. -/
theorem C32_event_offsets_terminate (c : Chunk) (r : Reader)
    (hlen : r.s.length ≤ 2 ^ 31 - 2 ^ 16) (hpos : r.i ≤ r.s.length) :
    ∃ c1 e r1,
      (∀ fuel, r.s.length / 24 + 2 ≤ fuel → c.ParseEventOffsets fuel r = some (c1, e, r1))
      ∧ c1.EventOffsets.head? = some (r.i : Int)
      ∧ List.Chain' (nextRecord r.s) c1.EventOffsets
      ∧ List.Chain' (fun a b => a < b) c1.EventOffsets := by
  have hi : int32 (BackupSeeker r) = (r.i : Int) := by
    unfold BackupSeeker
    apply int32_of_range <;> omega
  obtain ⟨tail, e, r', hrun, hch⟩ :=
    Chunk_ParseEventOffsets_loop_total c.Header.OffsetLastRec r.s hlen (r.s.length / 24 + 1)
      (r.i : Int) [] r rfl (by omega) (by omega)
  refine ⟨{ c with EventOffsets := (r.i : Int) :: tail }, e, r', ?_, rfl, hch, ?_⟩
  · intro fuel hf
    unfold Chunk.ParseEventOffsets
    rw [hi]
    have := hrun fuel (by omega)
    simp only [List.nil_append] at this
    rw [this]
  · exact List.Chain'.imp (fun a b h => h.2.1) hch

set_option maxRecDepth 100000 in
/-- Claim C32 on the buffer with one event of size 24 at offset 512: the
offsets are 512 and 536. -/
theorem C32_event_offsets_terminate_witness :
    (oneEventChunk.ParseEventOffsets 25 ⟨oneEventData, 512⟩).map
        (fun x => (x.1.EventOffsets, x.2.1)) = some ([512, 536], none)
    ∧ ∃ c1 e r1,
      (∀ fuel, oneEventData.length / 24 + 2 ≤ fuel →
        oneEventChunk.ParseEventOffsets fuel ⟨oneEventData, 512⟩ = some (c1, e, r1))
      ∧ c1.EventOffsets.head? = some ((512 : Nat) : Int)
      ∧ List.Chain' (nextRecord oneEventData) c1.EventOffsets
      ∧ List.Chain' (fun a b => a < b) c1.EventOffsets :=
  ⟨by decide, C32_event_offsets_terminate oneEventChunk ⟨oneEventData, 512⟩
    (by decide!) (by decide!)⟩

/-- Claim C31 fails on `<E>%0x</E>` with an integer in slot 0 and on
`<E><Value/>x</E>`: the substitution is in range, there is no entity reference
and each leaf renders to a number or a string, yet `NodeToGoEvtx` panics at the
text leaf, whose branch asserts that a `Value` entry that is not nil is a
string; the entry is the number 5 in the first node and the empty map of the
child in the second. -/
theorem C31_text_after_other_panics :
    ElementToGoEvtx 2 numberSlotInstance (.NormalSubstitution ⟨0x0d, 0, Int32Type⟩)
      = .ok (.int 5)
    ∧ ElementToGoEvtx 2 numberSlotInstance (textOf 120) = .ok (.str "x")
    ∧ (∀ fuel, NodeToGoEvtx (fuel + 3) numberSlotInstance numberThenTextNode = .panic)
    ∧ NodeToGoEvtx 1 numberSlotInstance (.mk (some (startOf [86, 97, 108, 117, 101])) [] [])
        = .ok []
    ∧ (∀ fuel, NodeToGoEvtx (fuel + 3) numberSlotInstance valueChildNode = .panic) := by
  refine ⟨rfl, rfl, fun _ => rfl, rfl, fun _ => rfl⟩

end Evtx
